import Mathlib

/-!
Shallow embedding of the `aerie-time-utils` time-string library
(`timeUtils.ts` together with its regex constants in `constants/time.ts`),
and proofs about the claims of its specification.

Modelling conventions:
* Text is modelled as `List Char`; the JavaScript regexes (all anchored,
  deterministic up to local backtracking that is resolved explicitly below)
  become recursive matchers over `List Char`.
* JavaScript numbers are modelled exactly: integer-valued quantities as
  `Int`/`Nat`, general numeric values as `ℚ`.  (IEEE-754 rounding is not
  modelled; on the integer ranges the claims are about, double arithmetic
  is exact.)
* The JavaScript `Date` object is modelled after the ECMA-262 algorithms
  (`MakeDay`, `DayFromYear`, `YearFromTime`, `HourFromTime`, ...) including
  the mapping of year arguments 0..99 to 1900..1999 performed by
  `Date.UTC`.  The ±8.64e15 ms validity clamp of real `Date` values is not
  modelled; out-of-range instants are carried exactly.
* Functions that `throw` in JavaScript return `Except (List Char) _`
  carrying the thrown message, or `Option _` where only reachability of
  the failure matters.
-/

namespace TimeUtils

attribute [local semireducible] Rat.add Rat.mul Rat.inv Rat.sub Rat.ofScientific

/-! ### Decimal digits and characters -/

/-- Numeric value of a decimal digit character. -/
def charVal (c : Char) : Nat := c.toNat - 48

/-- The decimal digit character for `n < 10`. -/
def digitOfNat (n : Nat) : Char := Char.ofNat (48 + n)

/-- ASCII decimal digit test (JavaScript `\d`). -/
def isDigitB (c : Char) : Bool := decide (48 ≤ c.toNat) && decide (c.toNat ≤ 57)

/-- Value of a big-endian string of decimal digits (JS `parseInt` on an
all-digit string). -/
def digitsToNat (cs : List Char) : Nat := cs.foldl (fun a c => a * 10 + charVal c) 0

/-- Fuel-driven core of decimal rendering; `fuel ≥ n` gives the digits of
`n` (most significant first), and `n = 0` gives `[]`. -/
def natDigitsAux : Nat → Nat → List Char
  | _, 0 => []
  | 0, _ + 1 => []
  | fuel + 1, n + 1 => natDigitsAux fuel ((n + 1) / 10) ++ [digitOfNat ((n + 1) % 10)]

/-- Decimal rendering of a natural number (JS `String(n)` for an integral
nonnegative number). -/
def natDigits (n : Nat) : List Char := if n = 0 then ['0'] else natDigitsAux n n

/-- Decimal rendering of an integer (JS `String(i)` for an integral number). -/
def intToString (i : Int) : List Char :=
  if i < 0 then '-' :: natDigits (-i).toNat else natDigits i.toNat

/-- JavaScript `String.prototype.padStart(k, c)`. -/
def padStart (k : Nat) (c : Char) (s : List Char) : List Char :=
  List.replicate (k - s.length) c ++ s

theorem charVal_digitOfNat {d : Nat} (h : d < 10) : charVal (digitOfNat d) = d := by
  interval_cases d <;> decide

theorem isDigitB_digitOfNat {d : Nat} (h : d < 10) : isDigitB (digitOfNat d) = true := by
  interval_cases d <;> decide

theorem natDigitsAux_congr : ∀ f g n : Nat, n ≤ f → n ≤ g →
    natDigitsAux f n = natDigitsAux g n := by
  intro f
  induction f with
  | zero =>
    intro g n hf _
    interval_cases n
    cases g <;> rfl
  | succ f ih =>
    intro g n hf hg
    match n, g with
    | 0, 0 => rfl
    | 0, _ + 1 => rfl
    | n + 1, 0 => omega
    | n + 1, g + 1 =>
      show natDigitsAux f ((n + 1) / 10) ++ _ = natDigitsAux g ((n + 1) / 10) ++ _
      rw [ih g ((n + 1) / 10) (by omega) (by omega)]

theorem natDigits_eq_aux {n : Nat} (hn : n ≠ 0) : ∀ f, n ≤ f → natDigits n = natDigitsAux f n := by
  intro f hf
  unfold natDigits
  rw [if_neg hn]
  exact natDigitsAux_congr n f n le_rfl hf

theorem digitsToNat_append_singleton (xs : List Char) (c : Char) :
    digitsToNat (xs ++ [c]) = 10 * digitsToNat xs + charVal c := by
  simp [digitsToNat, List.foldl_append, Nat.mul_comm]

theorem digitsToNat_natDigitsAux : ∀ f n : Nat, n ≤ f → digitsToNat (natDigitsAux f n) = n := by
  intro f
  induction f with
  | zero =>
    intro n hf
    interval_cases n
    rfl
  | succ f ih =>
    intro n hf
    match n with
    | 0 => rfl
    | n + 1 =>
      show digitsToNat (natDigitsAux f ((n + 1) / 10) ++ [digitOfNat ((n + 1) % 10)]) = n + 1
      rw [digitsToNat_append_singleton, ih ((n + 1) / 10) (by omega),
        charVal_digitOfNat (Nat.mod_lt _ (by omega))]
      omega

/-- Decimal rendering round-trips through digit-string valuation. -/
theorem digitsToNat_natDigits (n : Nat) : digitsToNat (natDigits n) = n := by
  by_cases h : n = 0
  · subst h; rfl
  · rw [natDigits_eq_aux h n le_rfl]
    exact digitsToNat_natDigitsAux n n le_rfl

theorem natDigitsAux_all_digits : ∀ f n : Nat, ∀ c ∈ natDigitsAux f n, isDigitB c = true := by
  intro f
  induction f with
  | zero =>
    intro n c hc
    cases n <;> simp [natDigitsAux] at hc
  | succ f ih =>
    intro n c hc
    match n with
    | 0 => simp [natDigitsAux] at hc
    | n + 1 =>
      simp only [natDigitsAux, List.mem_append, List.mem_singleton] at hc
      rcases hc with hc | hc
      · exact ih _ c hc
      · subst hc; exact isDigitB_digitOfNat (Nat.mod_lt _ (by omega))

theorem natDigits_all_digits (n : Nat) : ∀ c ∈ natDigits n, isDigitB c = true := by
  intro c hc
  by_cases h : n = 0
  · subst h; simp [natDigits] at hc; subst hc; decide
  · rw [natDigits_eq_aux h n le_rfl] at hc
    exact natDigitsAux_all_digits n n c hc

theorem natDigitsAux_length_le_iff : ∀ f n k : Nat, n ≤ f →
    ((natDigitsAux f n).length ≤ k ↔ n < 10 ^ k) := by
  intro f
  induction f with
  | zero =>
    intro n k hf
    interval_cases n
    simp only [natDigitsAux, List.length_nil]
    constructor
    · intro _; positivity
    · intro _; omega
  | succ f ih =>
    intro n k hf
    match n with
    | 0 =>
      simp only [natDigitsAux, List.length_nil]
      constructor
      · intro _; positivity
      · intro _; omega
    | n + 1 =>
      show (natDigitsAux f ((n + 1) / 10) ++ [digitOfNat ((n + 1) % 10)]).length ≤ k ↔ _
      rw [List.length_append, List.length_singleton]
      match k with
      | 0 =>
        constructor
        · omega
        · intro h; simp at h
      | k + 1 =>
        have := ih ((n + 1) / 10) k (by omega)
        have hdiv : (n + 1) / 10 < 10 ^ k ↔ n + 1 < 10 ^ k * 10 :=
          Nat.div_lt_iff_lt_mul (by omega)
        have hpow : (10 : Nat) ^ (k + 1) = 10 ^ k * 10 := by ring
        constructor
        · intro h
          have h2 : (n + 1) / 10 < 10 ^ k := this.mp (by omega)
          rw [hpow]
          exact hdiv.mp h2
        · intro h
          rw [hpow] at h
          have h2 : (n + 1) / 10 < 10 ^ k := hdiv.mpr h
          have := this.mpr h2
          omega

theorem natDigits_length_le_iff {n k : Nat} (hn : n ≠ 0) :
    (natDigits n).length ≤ k ↔ n < 10 ^ k := by
  rw [natDigits_eq_aux hn n le_rfl]
  exact natDigitsAux_length_le_iff n n k le_rfl

theorem natDigits_length_eq_iff {n k : Nat} (hn : n ≠ 0) (hk : k ≠ 0) :
    (natDigits n).length = k ↔ 10 ^ (k - 1) ≤ n ∧ n < 10 ^ k := by
  constructor
  · intro h
    refine ⟨?_, (natDigits_length_le_iff hn).mp (by omega)⟩
    by_contra hcon
    have h2 : (natDigits n).length ≤ k - 1 := (natDigits_length_le_iff hn).mpr (by omega)
    omega
  · intro ⟨h1, h2⟩
    have ha : (natDigits n).length ≤ k := (natDigits_length_le_iff hn).mpr h2
    have hb : ¬ (natDigits n).length ≤ k - 1 := by
      intro hcon
      have := (natDigits_length_le_iff hn).mp hcon
      omega
    omega

theorem natDigits_ne_nil (n : Nat) : natDigits n ≠ [] := by
  by_cases h : n = 0
  · subst h; simp [natDigits]
  · intro hcon
    have := digitsToNat_natDigits n
    rw [hcon] at this
    simp [digitsToNat] at this
    omega

theorem digitsToNat_replicate_zero_append (j : Nat) (ds : List Char) :
    digitsToNat (List.replicate j '0' ++ ds) = digitsToNat ds := by
  induction j with
  | zero => rfl
  | succ j ih =>
    show digitsToNat ('0' :: (List.replicate j '0' ++ ds)) = _
    unfold digitsToNat at *
    simpa [List.foldl_cons, charVal] using ih

theorem digitsToNat_padStart (k : Nat) (ds : List Char) :
    digitsToNat (padStart k '0' ds) = digitsToNat ds :=
  digitsToNat_replicate_zero_append _ ds

theorem padStart_length (k : Nat) (c : Char) (s : List Char) :
    (padStart k c s).length = max k s.length := by
  simp [padStart]
  omega

theorem padStart_eq_of_length_ge {k : Nat} {c : Char} {s : List Char} (h : k ≤ s.length) :
    padStart k c s = s := by
  simp [padStart, Nat.sub_eq_zero_of_le h]

theorem padStart_all_digits {k : Nat} {s : List Char} (h : ∀ c ∈ s, isDigitB c = true) :
    ∀ c ∈ padStart k '0' s, isDigitB c = true := by
  intro c hc
  simp only [padStart, List.mem_append, List.mem_replicate] at hc
  rcases hc with ⟨_, rfl⟩ | hc
  · decide
  · exact h c hc

/-! ### The ECMA-262 UTC date model

JavaScript `Date` arithmetic as specified by ECMA-262: `DayFromYear`,
`YearFromTime`, `MonthFromTime`, `DateFromTime`, `MakeDay`/`Date.UTC`
(including the remapping of year arguments 0..99 to 1900..1999), and the
`getUTC*` accessors.  Division is Lean's `Int` division, which is floor
division for the positive literal divisors used here, matching the
`Math.floor` calls in the ECMA algorithms. -/

/-- ECMA-262 `DayFromYear`: day number of January 1 of year `y`. -/
def dayFromYear (y : Int) : Int :=
  365 * (y - 1970) + (y - 1969) / 4 - (y - 1901) / 100 + (y - 1601) / 400

/-- Number of days in calendar year `y` (365 or 366). -/
def daysInYearE (y : Int) : Int := dayFromYear (y + 1) - dayFromYear y

/-- Gregorian leap-year test, phrased as ECMA-262 `DaysInYear`. -/
def isLeapE (y : Int) : Bool := daysInYearE y == 366

/-- ECMA-262 `YearFromTime` restated on day numbers: the unique `y` with
`dayFromYear y ≤ z < dayFromYear (y + 1)`, computed from a rounded estimate
corrected by at most one year. -/
def yearFromDay (z : Int) : Int :=
  let y := 1970 + (400 * z) / 146097
  if z < dayFromYear y then y - 1
  else if dayFromYear (y + 1) ≤ z then y + 1
  else y

/-- In-leap-year increment. -/
def leapInc (l : Bool) : Int := if l then 1 else 0

/-- Cumulative day count before 0-based month `m` (the ECMA-262 month
boundary table `0, 31, 59+l, 90+l, ..., 334+l, 365+l`, written in the
standard closed form; `monthStart_table` below checks it against the table
on the thirteen arguments at which it is used). -/
def monthStart (l : Bool) (m : Int) : Int :=
  (367 * (m + 1) - 362) / 12 - (if m + 1 ≤ 2 then 0 else if l then 1 else 2)

theorem monthStart_table :
    ((List.range 13).map (fun m => monthStart false m) =
      [0, 31, 59, 90, 120, 151, 181, 212, 243, 273, 304, 334, 365]) ∧
    ((List.range 13).map (fun m => monthStart true m) =
      [0, 31, 60, 91, 121, 152, 182, 213, 244, 274, 305, 335, 366]) := by
  constructor <;> decide

/-- ECMA-262 `MonthFromTime` on a 0-based day-of-year `d`. -/
def monthFromDoy (l : Bool) (d : Int) : Int :=
  if d < 31 then 0
  else if d < 59 + leapInc l then 1
  else if d < 90 + leapInc l then 2
  else if d < 120 + leapInc l then 3
  else if d < 151 + leapInc l then 4
  else if d < 181 + leapInc l then 5
  else if d < 212 + leapInc l then 6
  else if d < 243 + leapInc l then 7
  else if d < 273 + leapInc l then 8
  else if d < 304 + leapInc l then 9
  else if d < 334 + leapInc l then 10
  else 11

/-- Year-argument remapping performed by `Date.UTC`: 0..99 become
1900..1999. -/
def remapYear (y : Int) : Int := if 0 ≤ y ∧ y ≤ 99 then y + 1900 else y

/-- JavaScript `Date.UTC(y, m, d, hr, mi, s, ms)` (ECMA-262 `MakeDay` and
`MakeDate`): year arguments 0..99 are mapped to 1900..1999; the month is
normalized by carrying `floor(m / 12)` into the year; the result is a count
of milliseconds since the epoch.  (The TimeClip range check of real JS is
not modelled.) -/
def dateUTC (y m d hr mi s ms : Int) : Int :=
  let ym : Int := remapYear y + (m - (m % 12)) / 12
  let mn : Int := m % 12
  let day := dayFromYear ym + monthStart (isLeapE ym) mn + (d - 1)
  day * 86400000 + hr * 3600000 + mi * 60000 + s * 1000 + ms

/-- Day number containing instant `t` (ECMA-262 `Day(t)`). -/
def dayOfInstant (t : Int) : Int := t / 86400000

/-- ECMA-262 `YearFromTime` / `Date.prototype.getUTCFullYear`. -/
def jsUTCFullYear (t : Int) : Int := yearFromDay (dayOfInstant t)

/-- Zero-based day within the year of instant `t` (`DayWithinYear`). -/
def dayWithinYear (t : Int) : Int := dayOfInstant t - dayFromYear (jsUTCFullYear t)

/-- ECMA-262 `Date.prototype.getUTCDate` (1-based day of month). -/
def jsUTCDate (t : Int) : Int :=
  let l := isLeapE (jsUTCFullYear t)
  let d := dayWithinYear t
  d - monthStart l (monthFromDoy l d) + 1

/-- ECMA-262 `Date.prototype.getUTCHours`. -/
def jsUTCHours (t : Int) : Int := (t / 3600000) % 24

/-- ECMA-262 `Date.prototype.getUTCMinutes`. -/
def jsUTCMinutes (t : Int) : Int := (t / 60000) % 60

/-- ECMA-262 `Date.prototype.getUTCSeconds`. -/
def jsUTCSeconds (t : Int) : Int := (t / 1000) % 60

/-- ECMA-262 `Date.prototype.getUTCMilliseconds` (equal to the local-time
milliseconds used by `isoFromJSDate`, since timezone offsets are whole
minutes). -/
def jsUTCMilliseconds (t : Int) : Int := t % 1000

theorem dayFromYear_mono {y1 y2 : Int} (h : y1 ≤ y2) : dayFromYear y1 ≤ dayFromYear y2 := by
  unfold dayFromYear
  omega

theorem yearFromDay_spec (z : Int) :
    dayFromYear (yearFromDay z) ≤ z ∧ z < dayFromYear (yearFromDay z + 1) := by
  have l1 : z < dayFromYear (1970 + (400 * z) / 146097) →
      dayFromYear (1970 + (400 * z) / 146097 - 1) ≤ z := by
    unfold dayFromYear; omega
  have l2 : dayFromYear (1970 + (400 * z) / 146097 + 1) ≤ z →
      z < dayFromYear (1970 + (400 * z) / 146097 + 1 + 1) := by
    unfold dayFromYear; omega
  by_cases h1 : z < dayFromYear (1970 + (400 * z) / 146097)
  · have he : yearFromDay z = 1970 + (400 * z) / 146097 - 1 := by
      simp only [yearFromDay, if_pos h1]
    rw [he]
    refine ⟨l1 h1, ?_⟩
    have harith : 1970 + (400 * z) / 146097 - 1 + 1 = 1970 + (400 * z) / 146097 := by ring
    rw [harith]
    exact h1
  · by_cases h2 : dayFromYear (1970 + (400 * z) / 146097 + 1) ≤ z
    · have he : yearFromDay z = 1970 + (400 * z) / 146097 + 1 := by
        simp only [yearFromDay, if_neg h1, if_pos h2]
      rw [he]
      exact ⟨h2, l2 h2⟩
    · have he : yearFromDay z = 1970 + (400 * z) / 146097 := by
        simp only [yearFromDay, if_neg h1, if_neg h2]
      rw [he]
      exact ⟨by omega, by omega⟩

theorem yearFromDay_unique {y z : Int} (h1 : dayFromYear y ≤ z) (h2 : z < dayFromYear (y + 1)) :
    yearFromDay z = y := by
  obtain ⟨ha, hb⟩ := yearFromDay_spec z
  by_contra hne
  rcases lt_or_gt_of_ne hne with hlt | hgt
  · have : dayFromYear (yearFromDay z + 1) ≤ dayFromYear y := dayFromYear_mono (by omega)
    omega
  · have : dayFromYear (y + 1) ≤ dayFromYear (yearFromDay z) := dayFromYear_mono (by omega)
    omega

theorem daysInYearE_eq (y : Int) :
    daysInYearE y = if 4 ∣ y ∧ (¬ (100 ∣ y) ∨ 400 ∣ y) then 366 else 365 := by
  unfold daysInYearE dayFromYear
  split
  case isTrue h => omega
  case isFalse h => omega

theorem isLeapE_iff (y : Int) : isLeapE y = true ↔ (4 ∣ y ∧ (¬ (100 ∣ y) ∨ 400 ∣ y)) := by
  unfold isLeapE
  rw [daysInYearE_eq]
  split
  case isTrue h => simpa using h
  case isFalse h => simpa using h

/-! ### Matchers for the anchored time regexes

`ISO_ORDINAL_TIME_REGEX`, `ISO_8601_UTC_REGEX`, `DOY_TIME_REGEX` and
`SECOND_TIME_REGEX` from `constants/time.ts`, as deterministic matchers.
The only regex backtracking that can occur in these anchored patterns is
the choice of the two optional atoms `(\d{3})?` and `(T)?` in
`DOY_TIME_REGEX`; `matchDoyTime` tries the four combinations in the
engine's preference order.  A greedy `\d+` never needs to backtrack
because no character that may legally follow it is a digit. -/

/-- Exactly `k` decimal digits. -/
def takeDigitsExact : Nat → List Char → Option (List Char × List Char)
  | 0, cs => some ([], cs)
  | _ + 1, [] => none
  | k + 1, c :: cs =>
    if isDigitB c then
      match takeDigitsExact k cs with
      | some (ds, rest) => some (c :: ds, rest)
      | none => none
    else none

/-- One or more decimal digits, greedily (`\d+`). -/
def takeDigitsPlus (cs : List Char) : Option (List Char × List Char) :=
  let p := cs.span isDigitB
  if p.1.isEmpty then none else some p

/-- A single literal character. -/
def expectChar (c : Char) : List Char → Option (List Char)
  | [] => none
  | x :: xs => if x == c then some xs else none

/-- Optional sign character (`[+-]?`). -/
def takeSign : List Char → Option Char × List Char
  | '+' :: r => (some '+', r)
  | '-' :: r => (some '-', r)
  | cs => (none, cs)

/-- Optional fractional part `(?:\.(?<ms>\d+))?` directly before a required
continuation: if a `'.'` is present it must be followed by digits, otherwise
the whole match fails (the group cannot match, and the anchor/continuation
then meets the `'.'`). -/
def optFrac (cs : List Char) : Option (Option (List Char) × List Char) :=
  match cs with
  | c :: rest =>
    if c = '.' then
      match takeDigitsPlus rest with
      | some (ds, rest2) => some (some ds, rest2)
      | none => none
    else some (none, c :: rest)
  | [] => some (none, [])

/-- Capture groups of `ISO_ORDINAL_TIME_REGEX`. -/
structure OrdinalGroups where
  year : List Char
  doy : List Char
  hr : List Char
  mins : List Char
  secs : List Char
  ms : Option (List Char)
deriving DecidableEq

/-- Matcher for `ISO_ORDINAL_TIME_REGEX`:
`^(\d{4})-(\d{3})T(\d{2}):(\d{2}):(\d{2})(?:\.(\d+))?$`. -/
def matchIsoOrdinal (cs : List Char) : Option OrdinalGroups := do
  let (y, cs) ← takeDigitsExact 4 cs
  let cs ← expectChar '-' cs
  let (doy, cs) ← takeDigitsExact 3 cs
  let cs ← expectChar 'T' cs
  let (hr, cs) ← takeDigitsExact 2 cs
  let cs ← expectChar ':' cs
  let (mins, cs) ← takeDigitsExact 2 cs
  let cs ← expectChar ':' cs
  let (secs, cs) ← takeDigitsExact 2 cs
  let (ms, cs) ← optFrac cs
  if cs.isEmpty then
    some { year := y, doy := doy, hr := hr, mins := mins, secs := secs, ms := ms }
  else none

/-- Capture groups of `ISO_8601_UTC_REGEX`. -/
structure UtcGroups where
  year : List Char
  month : List Char
  day : List Char
  hr : List Char
  mins : List Char
  secs : List Char
  ms : Option (List Char)
deriving DecidableEq

/-- Matcher for `ISO_8601_UTC_REGEX`:
`^(\d{4})-(\d{2})-(\d{2})T(\d{2}):(\d{2}):(\d{2})(?:\.(\d+))?Z$`. -/
def matchIsoUtc (cs : List Char) : Option UtcGroups := do
  let (y, cs) ← takeDigitsExact 4 cs
  let cs ← expectChar '-' cs
  let (mo, cs) ← takeDigitsExact 2 cs
  let cs ← expectChar '-' cs
  let (d, cs) ← takeDigitsExact 2 cs
  let cs ← expectChar 'T' cs
  let (hr, cs) ← takeDigitsExact 2 cs
  let cs ← expectChar ':' cs
  let (mins, cs) ← takeDigitsExact 2 cs
  let cs ← expectChar ':' cs
  let (secs, cs) ← takeDigitsExact 2 cs
  let (ms, cs) ← optFrac cs
  let cs ← expectChar 'Z' cs
  if cs.isEmpty then
    some { year := y, month := mo, day := d, hr := hr, mins := mins, secs := secs, ms := ms }
  else none

/-- Capture groups of `DOY_TIME_REGEX`. -/
structure DoyGroups where
  sign : Option Char
  doy : Option (List Char)
  hr : List Char
  mins : List Char
  secs : List Char
  ms : Option (List Char)
deriving DecidableEq

/-- The `(\d{2}):(\d{2}):(\d{2})(?:\.(\d+))?$` tail of `DOY_TIME_REGEX`. -/
def doyBody (cs : List Char) : Option (List Char × List Char × List Char × Option (List Char)) := do
  let (hr, cs) ← takeDigitsExact 2 cs
  let cs ← expectChar ':' cs
  let (mins, cs) ← takeDigitsExact 2 cs
  let cs ← expectChar ':' cs
  let (secs, cs) ← takeDigitsExact 2 cs
  let (ms, cs) ← optFrac cs
  if cs.isEmpty then some (hr, mins, secs, ms) else none

/-- Matcher for `DOY_TIME_REGEX`:
`^([+-]?)(\d{3})?(T)?(\d{2}):(\d{2}):(\d{2})(?:\.(\d+))?$`, with the four
combinations of the two optional atoms tried in backtracking order. -/
def matchDoyTime (cs : List Char) : Option DoyGroups :=
  let (sgn, cs1) := takeSign cs
  let withDoy : Option DoyGroups := do
    let (doy, cs2) ← takeDigitsExact 3 cs1
    let try1 : Option DoyGroups := do
      let cs3 ← expectChar 'T' cs2
      let (hr, mins, secs, ms) ← doyBody cs3
      some { sign := sgn, doy := some doy, hr := hr, mins := mins, secs := secs, ms := ms }
    try1 <|> (do
      let (hr, mins, secs, ms) ← doyBody cs2
      some { sign := sgn, doy := some doy, hr := hr, mins := mins, secs := secs, ms := ms })
  withDoy <|> (do
    let cs2 ← expectChar 'T' cs1
    let (hr, mins, secs, ms) ← doyBody cs2
    some { sign := sgn, doy := none, hr := hr, mins := mins, secs := secs, ms := ms }) <|> (do
    let (hr, mins, secs, ms) ← doyBody cs1
    some { sign := sgn, doy := none, hr := hr, mins := mins, secs := secs, ms := ms })

/-- Capture groups of `SECOND_TIME_REGEX`. -/
structure SecondGroups where
  sign : Option Char
  secs : List Char
  ms : Option (List Char)
deriving DecidableEq

/-- Matcher for `SECOND_TIME_REGEX`: `^([+-]?)(\d+)(?:\.(\d+))?$`. -/
def matchSecondTime (cs : List Char) : Option SecondGroups := do
  let (sgn, cs1) := takeSign cs
  let (secs, cs2) ← takeDigitsPlus cs1
  let (ms, cs3) ← optFrac cs2
  if cs3.isEmpty then some { sign := sgn, secs := secs, ms := ms } else none

/-! ### JavaScript numeric helpers -/

/-- JavaScript whitespace class `\s` (the code points matched by the regex
whitespace escape). -/
def isJsSpace (c : Char) : Bool :=
  c.toNat ∈ [0x9, 0xa, 0xb, 0xc, 0xd, 0x20, 0xa0, 0x1680, 0x2000, 0x2001, 0x2002, 0x2003,
    0x2004, 0x2005, 0x2006, 0x2007, 0x2008, 0x2009, 0x200a, 0x2028, 0x2029, 0x202f,
    0x205f, 0x3000, 0xfeff]

/-- Greedy `\s*`. -/
def skipSpaces (cs : List Char) : List Char := cs.dropWhile isJsSpace

/-- Kernel-computable floor of a rational (`Math.floor`); equals `⌊q⌋` by
`ratFloor_eq`. -/
def ratFloor (q : ℚ) : Int := q.num / (q.den : Int)

theorem ratFloor_eq (q : ℚ) : ratFloor q = ⌊q⌋ := Rat.floor_def.symm

/-- JavaScript `x.toFixed(6)` read back with `parseFloat`, on an exact
rational: round to six decimal places, ties away from zero for the
nonnegative values this is applied to. -/
def toFixed6 (q : ℚ) : ℚ := (ratFloor (q * 1000000 + 1 / 2) : ℚ) / 1000000

/-- Floor-remainder on rationals; JavaScript `%` truncates toward zero,
which coincides with this on the nonnegative operands it is applied to in
the translated code. -/
def jsModQ (a b : ℚ) : ℚ := a - b * (ratFloor (a / b) : ℚ)

/-- Drop trailing `'0'` characters of a fraction rendering. -/
def fracTrim (ds : List Char) : List Char := (ds.reverse.dropWhile (fun c => c == '0')).reverse

/-- JavaScript `String(q)` for the numeric values that occur in this
development: integral values print as plain decimal integers; non-integral
values print as sign, integer part, `'.'` and a fraction (rendered here to
20 places and trimmed — exact for every value produced by `toFixed6`; all
the proofs use only that an integral value prints as digits and that a
non-integral rendering contains `'.'`). -/
def ratToString (q : ℚ) : List Char :=
  if q.den = 1 then intToString q.num
  else
    let a : ℚ := |q|
    let ip : Int := ratFloor a
    let fr : ℚ := a - (ip : ℚ)
    let ds := padStart 20 '0' (natDigits (ratFloor (fr * 10 ^ 20)).toNat)
    let ds2 := fracTrim ds
    (if q < 0 then ['-'] else []) ++ natDigits ip.toNat ++ '.' :: (if ds2.isEmpty then ['0'] else ds2)

/-- JavaScript `parseFloat` of the digit string `ds` prefixed by a decimal
point (`parseFloat('.' + ds)`). -/
def fracVal (ds : List Char) : ℚ := (digitsToNat ds : ℚ) / 10 ^ ds.length

/-- Millisecond value `parseFloat((parseFloat('.' + ms) * 1000).toFixed(6))`
used by `parseDoyOrIsoTime` and `parseDOYDurationTime` (their shared
`numDecimals`/fixed precision is 6, the default used at every call site
relevant to the claims). -/
def msOfDigits6 (ds : List Char) : ℚ := toFixed6 (fracVal ds * 1000)

/-- JavaScript `parseInt` on a string: optional sign and a leading digit
run; `none` models `NaN`. -/
def parseIntPrefix (cs : List Char) : Option Int :=
  let (sgn, cs1) := takeSign cs
  let p := cs1.span isDigitB
  if p.1.isEmpty then none
  else some (if sgn = some '-' then -(digitsToNat p.1 : Int) else (digitsToNat p.1 : Int))

/-! ### The free-form unit-suffixed duration grammar

The regex built inside `parseDurationString`:
`^((?<isNegative>-))?(?:\s*(?<years>([+-]?)(\d+)(\.\d+)?)y)?` followed by the
analogous optional groups for `d`, `h`, `m(?!s)`, `s`, `ms`, `us`, anchored
at both ends.  Each group is matched greedily; a group whose suffix does not
follow its number is skipped without consuming input (regex backtracking
cannot turn a skipped group into a participating one here, because the unit
suffixes are pairwise distinguished by their first character or by the
`(?!s)` lookahead, and a shorter digit match would put a digit where the
letter suffix is required). -/

/-- A matched `([+-]?)(\d+)(\.\d+)?` number token. -/
structure NumTok where
  sign : Option Char
  intPart : List Char
  frac : Option (List Char)
deriving DecidableEq

/-- Numeric value of a token (JS `parseFloat`). -/
def numTokVal (t : NumTok) : ℚ :=
  let mag : ℚ := (digitsToNat t.intPart : ℚ) +
    (match t.frac with
     | some ds => fracVal ds
     | none => 0)
  if t.sign = some '-' then -mag else mag

/-- Lex one number token `([+-]?)(\d+)(\.\d+)?`, greedily. -/
def lexNumTok (cs : List Char) : Option (NumTok × List Char) :=
  let (sgn, cs1) := takeSign cs
  match takeDigitsPlus cs1 with
  | none => none
  | some (ds, rest) =>
    match rest with
    | '.' :: r2 =>
      match takeDigitsPlus r2 with
      | some (fs, r3) => some ({ sign := sgn, intPart := ds, frac := some fs }, r3)
      | none => some ({ sign := sgn, intPart := ds, frac := none }, rest)
    | _ => some ({ sign := sgn, intPart := ds, frac := none }, rest)

/-- Boolean check that `p` is an initial segment of `cs`. -/
def startsL : List Char → List Char → Bool
  | [], _ => true
  | _ :: _, [] => false
  | p :: ps, c :: cs => p == c && startsL ps cs

/-- Try one optional unit group `(?:\s*NUMBER sfx)?` (with the `(?!s)`
lookahead when `noS`); a group that does not match contributes the default
value `0` (the JS code destructures missing groups to `'0'`) and leaves the
input untouched. -/
def tryUnit (sfx : List Char) (noS : Bool) (cs : List Char) : ℚ × List Char :=
  match lexNumTok (skipSpaces cs) with
  | none => (0, cs)
  | some (t, rest) =>
    if startsL sfx rest then
      let rest2 := rest.drop sfx.length
      if noS then
        match rest2 with
        | 's' :: _ => (0, cs)
        | _ => (numTokVal t, rest2)
      else (numTokVal t, rest2)
    else (0, cs)

/-- The seven unit groups of the free-form grammar, in order. -/
def ffSpecs : List (List Char × Bool) :=
  [(['y'], false), (['d'], false), (['h'], false), (['m'], true), (['s'], false),
   (['m', 's'], false), (['u', 's'], false)]

/-- Run a list of optional unit groups in sequence. -/
def runUnits : List (List Char × Bool) → List Char → (List ℚ × List Char)
  | [], cs => ([], cs)
  | (sfx, noS) :: specs, cs =>
    let p := tryUnit sfx noS cs
    let q := runUnits specs p.2
    (p.1 :: q.1, q.2)

/-- Capture values of the free-form duration grammar. -/
structure FFGroups where
  isNegative : Bool
  years : ℚ
  days : ℚ
  hours : ℚ
  minutes : ℚ
  seconds : ℚ
  milliseconds : ℚ
  microseconds : ℚ
deriving DecidableEq

/-- Matcher for the full free-form duration regex.  A leading `'-'` is
consumed as the negation group (if doing so made the rest fail, skipping it
would fail as well: the units after an unconsumed `'-'` could only match by
taking the `'-'` as the first number's sign, and then the same units match
the remainder without it). -/
def matchFreeForm (cs : List Char) : Option FFGroups :=
  let (neg, cs1) : Bool × List Char :=
    match cs with
    | '-' :: r => (true, r)
    | _ => (false, cs)
  match runUnits ffSpecs cs1 with
  | (vs, rest) =>
    if rest.isEmpty then
      match vs with
      | [y, d, h, m, s, ms, us] =>
        some { isNegative := neg, years := y, days := d, hours := h, minutes := m,
               seconds := s, milliseconds := ms, microseconds := us }
      | _ => none
    else none

/-! ### Records produced by the parsers (`types/time.ts`) -/

/-- `ParsedDurationString`. -/
structure ParsedDurationString where
  days : ℚ
  hours : ℚ
  isNegative : Bool
  microseconds : ℚ
  milliseconds : ℚ
  minutes : ℚ
  seconds : ℚ
  years : ℚ
deriving DecidableEq

/-- `ParsedDoyString` (year, day-of-year form). -/
structure ParsedDoyString where
  year : Int
  doy : Int
  hour : Int
  min : Int
  sec : Int
  ms : ℚ
  time : List Char
deriving DecidableEq

/-- `ParsedYmdString` (year, month, day form). -/
structure ParsedYmdString where
  year : Int
  month : Int
  day : Int
  hour : Int
  min : Int
  sec : Int
  ms : ℚ
  time : List Char
deriving DecidableEq

/-- The union type returned by `parseDoyOrIsoTime` (absent the `null` case,
which is modelled by `Option`). -/
inductive ParsedTime where
  | doy (p : ParsedDoyString)
  | ymd (p : ParsedYmdString)
  | dur (d : ParsedDurationString)
deriving DecidableEq

/-- The `units` parameter of `parseDurationString`. -/
inductive DurUnit where
  | days
  | hours
  | minutes
  | seconds
  | milliseconds
  | microseconds
deriving DecidableEq

/-- The four members of the `TimeTypes` enum. -/
inductive TimeTypes where
  | ISO_ORDINAL_TIME
  | ISO_8601_UTC_TIME
  | DOY_TIME
  | SECOND_TIME
deriving DecidableEq

/-! ### The translated functions of `timeUtils.ts` -/

/-- `validateTime`. -/
def validateTime (time : List Char) (ty : TimeTypes) : Bool :=
  match ty with
  | .ISO_ORDINAL_TIME => (matchIsoOrdinal time).isSome
  | .ISO_8601_UTC_TIME => (matchIsoUtc time).isSome
  | .DOY_TIME => (matchDoyTime time).isSome
  | .SECOND_TIME => (matchSecondTime time).isSome

/-- The `time` capture rendering
``hr:mins:secs`` plus `.ms` when the `ms` group differs from the
destructuring default `'0'`. -/
def timeCapture (hr mins secs : List Char) (ms : Option (List Char)) : List Char :=
  hr ++ ':' :: mins ++ ':' :: secs ++
    (match ms with
     | some ds => if ds = ['0'] then [] else '.' :: ds
     | none => [])

/-- `parseDOYDurationTime`. -/
def parseDOYDurationTime (doyTime : List Char) : Option ParsedDurationString :=
  match matchDoyTime doyTime with
  | none => none
  | some g =>
    some {
      days := (digitsToNat (g.doy.getD ['0']) : ℚ),
      hours := (digitsToNat g.hr : ℚ),
      isNegative := g.sign == some '-',
      microseconds := 0,
      milliseconds := msOfDigits6 (g.ms.getD ['0']),
      minutes := (digitsToNat g.mins : ℚ),
      seconds := (digitsToNat g.secs : ℚ),
      years := 0 }

/-- `parseDoyOrIsoTime` (at the default `numDecimals = 6`, the value used at
every call site the claims depend on). -/
def parseDoyOrIsoTime (dateString : List Char) : Option ParsedTime :=
  match matchIsoOrdinal dateString with
  | some g =>
    some (.doy {
      year := (digitsToNat g.year : Int),
      doy := (digitsToNat g.doy : Int),
      hour := (digitsToNat g.hr : Int),
      min := (digitsToNat g.mins : Int),
      sec := (digitsToNat g.secs : Int),
      ms := msOfDigits6 (g.ms.getD ['0']),
      time := timeCapture g.hr g.mins g.secs g.ms })
  | none =>
  match matchIsoUtc dateString with
  | some g =>
    some (.ymd {
      year := (digitsToNat g.year : Int),
      month := (digitsToNat g.month : Int),
      day := (digitsToNat g.day : Int),
      hour := (digitsToNat g.hr : Int),
      min := (digitsToNat g.mins : Int),
      sec := (digitsToNat g.secs : Int),
      ms := msOfDigits6 (g.ms.getD ['0']),
      time := timeCapture g.hr g.mins g.secs g.ms })
  | none =>
  match parseDOYDurationTime dateString with
  | some d => some (.dur d)
  | none => none

/-- The fixed multi-line message of the error thrown by
`parseDurationString`. -/
def formatErrorMsg : List Char :=
  ("Invalid time format: Must be of format:\n    1y 3d 2h 24m 35s 18ms 70us,\n" ++
   "    [+/-]DOYThh:mm:ss[.sss],\n    duration\n    ").data

/-- The bare-signed-number branch of `parseDurationString`: shift the
integer and fractional parts onto the unit pair selected by `units`, then
normalize by successive carries (`Math.floor` and `%`). -/
def secondPathDuration (sgn : Option Char) (secs : List Char) (msd : Option (List Char))
    (units : DurUnit) : ParsedDurationString :=
  let number : ℚ := (digitsToNat secs : ℚ)
  let decimalNum : ℚ :=
    match msd with
    | some ds => fracVal ds
    | none => 0
  let shifted : ℚ × ℚ × ℚ × ℚ × ℚ × ℚ :=
    match units with
    | .microseconds => (number, 0, 0, 0, 0, 0)
    | .milliseconds => (decimalNum, number, 0, 0, 0, 0)
    | .seconds => (0, decimalNum, number, 0, 0, 0)
    | .minutes => (0, 0, decimalNum, number, 0, 0)
    | .hours => (0, 0, 0, decimalNum, number, 0)
    | .days => (0, 0, 0, 0, decimalNum, number)
  let microsecond := shifted.1
  let millisecond := shifted.2.1
  let second := shifted.2.2.1
  let minute := shifted.2.2.2.1
  let hour := shifted.2.2.2.2.1
  let day := shifted.2.2.2.2.2
  let ms1 := millisecond + (ratFloor (microsecond / 1000000) : ℚ)
  let us1 := jsModQ microsecond 1000000
  let s1 := second + (ratFloor (ms1 / 1000) : ℚ)
  let ms2 := jsModQ ms1 1000
  let min1 := minute + (ratFloor (s1 / 60) : ℚ)
  let s2 := jsModQ s1 60
  let h1 := hour + (ratFloor (min1 / 60) : ℚ)
  let min2 := jsModQ min1 60
  let d1 := day + (ratFloor (h1 / 24) : ℚ)
  let h2 := jsModQ h1 24
  let y1 : ℚ := (ratFloor (d1 / 365) : ℚ)
  let d2 := jsModQ d1 365
  { days := d2, hours := h2, isNegative := sgn == some '-', microseconds := us1,
    milliseconds := ms2, minutes := min2, seconds := s2, years := y1 }

/-- `parseDurationString`.  The thrown `Error` is modelled as
`Except.error` carrying the message.  A match of the ordinal or civil-UTC
grammar is returned as the corresponding timestamp record (the JS code
returns the `parseDoyOrIsoTime` result cast to `ParsedDurationString`). -/
def parseDurationString (durationString : List Char) (units : DurUnit) :
    Except (List Char) ParsedTime :=
  match matchFreeForm durationString with
  | some g =>
    .ok (.dur
      { days := g.days, hours := g.hours, isNegative := g.isNegative,
        microseconds := g.microseconds, milliseconds := g.milliseconds, minutes := g.minutes,
        seconds := g.seconds, years := g.years })
  | none =>
  match parseDoyOrIsoTime durationString with
  | some pt => .ok pt
  | none =>
  match matchSecondTime durationString with
  | some g => .ok (.dur (secondPathDuration g.sign g.secs g.ms units))
  | none => .error formatErrorMsg

/-- `convertDurationToDoy`. -/
def convertDurationToDoy (duration : ParsedDurationString) : List Char :=
  let years := if duration.years = 0 then ['1', '9', '7', '0']
    else padStart 4 '0' (ratToString duration.years)
  let day : Int := max 1 (ratFloor duration.days)
  let hours := padStart 2 '0' (ratToString duration.hours)
  let minutes := padStart 2 '0' (ratToString duration.minutes)
  let seconds := padStart 2 '0' (ratToString duration.seconds)
  let milliseconds := padStart 3 '0' (ratToString duration.milliseconds)
  years ++ '-' :: padStart 3 '0' (intToString day) ++ 'T' :: hours ++ ':' :: minutes ++
    ':' :: seconds ++ '.' :: milliseconds

/-- `getUnixEpochTime`: epoch milliseconds from ordinal or civil-UTC text,
`0` when neither grammar matches. -/
def getUnixEpochTime (isoOrUtcTime : List Char) : Int :=
  match matchIsoOrdinal isoOrUtcTime with
  | some g =>
    dateUTC (digitsToNat g.year) 0 (digitsToNat g.doy) (digitsToNat g.hr)
      (digitsToNat g.mins) (digitsToNat g.secs) (digitsToNat (g.ms.getD ['0']))
  | none =>
  match matchIsoUtc isoOrUtcTime with
  | some g =>
    dateUTC (digitsToNat g.year) ((digitsToNat g.month : Int) - 1) (digitsToNat g.day)
      (digitsToNat g.hr) (digitsToNat g.mins) (digitsToNat g.secs)
      (digitsToNat (g.ms.getD ['0']))
  | none => 0

/-- `getDoy`: 1-based day-of-year of the instant `t`
(`Math.floor((t - Date.UTC(year, 0, 0)) / 8.64e7)`). -/
def getDoy (t : Int) : Int :=
  let start := dateUTC (jsUTCFullYear t) 0 0 0 0 0 0
  (t - start) / 86400000

/-- The string components produced by `getDoyTimeComponents`. -/
structure DoyTimeComponents where
  doy : List Char
  hours : List Char
  mins : List Char
  msecs : List Char
  secs : List Char
  year : List Char
deriving DecidableEq

/-- `getDoyTimeComponents`. -/
def getDoyTimeComponents (t : Int) : DoyTimeComponents :=
  { doy := padStart 3 '0' (intToString (getDoy t)),
    hours := padStart 2 '0' (intToString (jsUTCHours t)),
    mins := padStart 2 '0' (intToString (jsUTCMinutes t)),
    msecs := padStart 3 '0' (intToString (jsUTCMilliseconds t)),
    secs := padStart 2 '0' (intToString (jsUTCSeconds t)),
    year := intToString (jsUTCFullYear t) }

/-- `isoFromJSDate` (`includeMsecs` defaults to `true` at the call sites
relevant here; milliseconds are appended only when nonzero). -/
def isoFromJSDate (t : Int) (includeMsecs : Bool) : List Char :=
  let c := getDoyTimeComponents t
  c.year ++ '-' :: c.doy ++ 'T' :: c.hours ++ ':' :: c.mins ++ ':' :: c.secs ++
    (if includeMsecs && decide (0 < jsUTCMilliseconds t) then '.' :: c.msecs else [])

/-- `getBalancedDuration`.  `none` models a thrown JS exception: either the
`parseDurationString` format error, or the `TypeError` from accessing
`.doy` on a `null` re-parse.  When `parseDurationString` returns a
timestamp-shaped record (ordinal or civil-UTC input), every duration field
read downstream is `undefined` in JS: `convertDurationToDoy` then renders
`"undefined-NaNT..."`, `getUnixEpochTime` of that is `0`, the re-parse
gives day-of-year 1 with zero time fields, `undefined > 0` is `false`, and
the result is the constant `"00:00:00.000"`. -/
def getBalancedDuration (duration : List Char) : Option (List Char) :=
  match parseDurationString duration .seconds with
  | .error _ => none
  | .ok (.doy _) => some ['0', '0', ':', '0', '0', ':', '0', '0', '.', '0', '0', '0']
  | .ok (.ymd _) => some ['0', '0', ':', '0', '0', ':', '0', '0', '.', '0', '0', '0']
  | .ok (.dur pd) =>
    let balancedTime := isoFromJSDate (getUnixEpochTime (convertDurationToDoy pd)) true
    match parseDoyOrIsoTime balancedTime with
    | some (.doy b) =>
      let shouldIncludeDay := decide (0 < pd.days) || decide (1 < b.doy)
      let sgn := if pd.isNegative then ['-'] else []
      let day := if shouldIncludeDay then
          padStart 3 '0' (intToString (b.doy - (if 0 < pd.days then 0 else 1))) ++ ['T']
        else []
      some (sgn ++ day ++ padStart 2 '0' (intToString b.hour) ++
        ':' :: padStart 2 '0' (intToString b.min) ++ ':' :: padStart 2 '0' (intToString b.sec) ++
        '.' :: padStart 3 '0' (ratToString b.ms))
    | some _ => none
    | none => none

/-- Year component of a `parseDoyOrIsoTime` result, `none` for `null` or
for a duration-shaped record (whose `.year` is `undefined` in JS). -/
def yearOfParsed : Option ParsedTime → Option Int
  | some (.doy p) => some p.year
  | some (.ymd p) => some p.year
  | _ => none

/-- `isTimeMax`.  In the ordinal/UTC branch the JS code is
`year ? year > MAX_UTC_YEAR : true` — `0`, `NaN` and `undefined` are all
falsy.  In the DOY branch `originalYear !== year` is `true` whenever either
side is `NaN`/`undefined` (a timestamp-shaped `parseDurationString` result
makes `convertDurationToDoy` render `"undefined-..."`, whose four-character
slice parses to `NaN`). -/
def isTimeMax (time : List Char) (ty : TimeTypes) : Except (List Char) Bool :=
  match ty with
  | .ISO_ORDINAL_TIME | .ISO_8601_UTC_TIME =>
    .ok (match yearOfParsed (parseDoyOrIsoTime (isoFromJSDate (getUnixEpochTime time) true)) with
      | some y => if y ≠ 0 then decide (9999 < y) else true
      | none => true)
  | .DOY_TIME =>
    match parseDurationString time .microseconds with
    | .error e => .error e
    | .ok (.dur d) =>
      let oy := parseIntPrefix ((convertDurationToDoy d).take 4)
      let yr := yearOfParsed
        (parseDoyOrIsoTime (isoFromJSDate (getUnixEpochTime (convertDurationToDoy d)) true))
      .ok (match oy, yr with
        | some a, some b => decide (a ≠ b)
        | _, _ => true)
    | .ok _ => .ok true
  | .SECOND_TIME => .ok false

/-- `getDaysInMonth`: `new Date(Date.UTC(year, month + 1, 0)).getUTCDate()`. -/
def getDaysInMonth (year month : Int) : Int :=
  jsUTCDate (dateUTC year (month + 1) 0 0 0 0 0)

/-- `getDaysInYear`: the loop summing `getDaysInMonth` over months 0..11. -/
def getDaysInYear (year : Int) : Int :=
  (List.range 12).foldl (fun (a : Int) (m : Nat) => a + getDaysInMonth year (m : Int)) 0

/-- Join nonempty pieces with single spaces (`filter(Boolean).join(' ')`). -/
def joinSp (xs : List (List Char)) : List Char :=
  List.intercalate [' '] (xs.filter (fun s => !s.isEmpty))

/-- `usToDurationString`. -/
def usToDurationString (durationUs : Int) (includeZeros : Bool) : List Char :=
  let usPerYear : Int := 31540000000000
  let usPerDay : Int := 86400000000
  let usPerHour : Int := 3600000000
  let usPerMinute : Int := 60000000
  let usPerSecond : Int := 1000000
  let usPerMillisecond : Int := 1000
  let isNegative := durationUs < 0
  let a0 := |durationUs|
  let years := a0 / usPerYear
  let a1 := a0 - years * usPerYear
  let days := a1 / usPerDay
  let a2 := a1 - days * usPerDay
  let hours := (a2 / usPerHour) % 24
  let a3 := a2 - hours * usPerHour
  let minutes := (a3 / usPerMinute) % 60
  let a4 := a3 - minutes * usPerMinute
  let seconds := (a4 / usPerSecond) % 60
  let a5 := a4 - seconds * usPerSecond
  let milliseconds := a5 / usPerMillisecond
  let a6 := a5 - milliseconds * usPerMillisecond
  let microseconds := a6
  if includeZeros then
    (if isNegative then ['-', ' '] else []) ++
      intToString years ++ 'y' :: ' ' :: intToString days ++ 'd' :: ' ' ::
      intToString hours ++ 'h' :: ' ' :: intToString minutes ++ 'm' :: ' ' ::
      intToString seconds ++ 's' :: ' ' :: intToString milliseconds ++ 'm' :: 's' :: ' ' ::
      intToString microseconds ++ ['u', 's']
  else
    joinSp [if isNegative then ['-'] else [],
      if years ≠ 0 then intToString years ++ ['y'] else [],
      if days ≠ 0 then intToString days ++ ['d'] else [],
      if hours ≠ 0 then intToString hours ++ ['h'] else [],
      if minutes ≠ 0 then intToString minutes ++ ['m'] else [],
      if seconds ≠ 0 then intToString seconds ++ ['s'] else [],
      if milliseconds ≠ 0 then intToString milliseconds ++ ['m', 's'] else [],
      if microseconds ≠ 0 then intToString microseconds ++ ['u', 's'] else []]

/-- `durationStringToUs`.  `none` inside the success case models the `NaN`
produced when `parseDurationString` returned a timestamp-shaped record
(undefined duration fields). -/
def durationStringToUs (duration : List Char) : Except (List Char) (Option ℚ) :=
  match parseDurationString duration .microseconds with
  | .error e => .error e
  | .ok (.doy _) => .ok none
  | .ok (.ymd _) => .ok none
  | .ok (.dur d) =>
    let usPerYear : ℚ := 31540000000000
    let usPerDay : ℚ := 86400000000
    let usPerHour : ℚ := 3600000000
    let usPerMinute : ℚ := 60000000
    let usPerSecond : ℚ := 1000000
    let usPerMillisecond : ℚ := 1000
    let durationUs := d.years * usPerYear + d.days * usPerDay + d.hours * usPerHour +
      d.minutes * usPerMinute + d.seconds * usPerSecond +
      d.milliseconds * usPerMillisecond + d.microseconds
    .ok (some (durationUs * (if d.isNegative then -1 else 1)))

/-- `getPostgresIntervalUnixEpochTime`. -/
def getPostgresIntervalUnixEpochTime (startTimeMs endTimeMs : Int) : List Char :=
  let differenceMs := endTimeMs - startTimeMs
  let isNegative := differenceMs < 0
  let absoluteDifferenceMs := |differenceMs|
  let seconds := absoluteDifferenceMs / 1000
  let hours := seconds / 3600
  let minutes := (seconds % 3600) / 60
  let remainingSeconds := seconds % 60
  let remainingMilliseconds := absoluteDifferenceMs % 1000
  let sgn := if isNegative then ['-'] else []
  sgn ++ padStart 2 '0' (intToString hours) ++ ':' :: padStart 2 '0' (intToString minutes) ++
    ':' :: padStart 2 '0' (intToString remainingSeconds) ++
    '.' :: padStart 3 '0' (intToString remainingMilliseconds)

/-! ## Claim theorems -/

/-- C9: for every pair of integer instants, `getPostgresIntervalUnixEpochTime`
returns text in the simplified `HH:MM:SS.mmm` form with no day or year
components, computed from the absolute difference `|endTimeMs - startTimeMs|`,
with a `'-'` sign prefix exactly when the difference is negative, and with
hours, minutes, seconds zero-padded to 2 digits and milliseconds to 3
digits. -/
theorem C9_interval_from_instant_pair (startTimeMs endTimeMs : Int) :
    getPostgresIntervalUnixEpochTime startTimeMs endTimeMs =
      (if endTimeMs - startTimeMs < 0 then ['-'] else []) ++
      padStart 2 '0' (intToString (|endTimeMs - startTimeMs| / 3600000)) ++
      ':' :: padStart 2 '0' (intToString (|endTimeMs - startTimeMs| / 60000 % 60)) ++
      ':' :: padStart 2 '0' (intToString (|endTimeMs - startTimeMs| / 1000 % 60)) ++
      '.' :: padStart 3 '0' (intToString (|endTimeMs - startTimeMs| % 1000)) := by
  have h1 : ∀ a : Int, a / 1000 / 3600 = a / 3600000 := fun a => by omega
  have h2 : ∀ a : Int, a / 1000 % 3600 / 60 = a / 60000 % 60 := fun a => by omega
  simp only [getPostgresIntervalUnixEpochTime, h1, h2]

/-! ### Calendar lemmas for C5 -/

theorem daysInYearE_cases (y : Int) :
    daysInYearE y = 365 + (if isLeapE y then 1 else 0) := by
  unfold isLeapE
  rw [daysInYearE_eq]
  by_cases h : 4 ∣ y ∧ (¬ (100 ∣ y) ∨ 400 ∣ y)
  · rw [if_pos h]
    simp [daysInYearE_eq, h]
  · rw [if_neg h]
    simp [daysInYearE_eq, h]

theorem yearFromDay_offset {y k : Int} (h0 : 0 ≤ k) (h1 : k < daysInYearE y) :
    yearFromDay (dayFromYear y + k) = y := by
  apply yearFromDay_unique
  · omega
  · unfold daysInYearE at h1
    omega

theorem leapInc_bounds (l : Bool) : 0 ≤ leapInc l ∧ leapInc l ≤ 1 := by
  cases l <;> simp [leapInc]

theorem daysInYearE_leapInc (y : Int) : daysInYearE y = 365 + leapInc (isLeapE y) := by
  rw [daysInYearE_cases y]
  cases h : isLeapE y <;> simp [leapInc]

theorem monthStart_nonneg (l : Bool) {m : Int} (h : 0 ≤ m) : 0 ≤ monthStart l m := by
  unfold monthStart
  cases l <;> split_ifs <;> omega

theorem monthStart_le (l : Bool) {m : Int} (h : m ≤ 12) :
    monthStart l m ≤ 365 + leapInc l := by
  unfold monthStart leapInc
  cases l <;> split_ifs <;> omega

theorem monthStart_lb (l : Bool) {m : Int} (h : 1 ≤ m) : 31 ≤ monthStart l m := by
  unfold monthStart
  cases l <;> split_ifs <;> omega

theorem monthFromDoy_monthStart (l : Bool) {m : Int} (h0 : 0 ≤ m) (h1 : m ≤ 11) :
    monthFromDoy l (monthStart l (m + 1) - 1) = m := by
  interval_cases m <;> cases l <;> decide

theorem dayOfInstant_mul (d : Int) : dayOfInstant (d * 86400000) = d := by
  unfold dayOfInstant
  omega

/-- Evaluate `jsUTCDate` at the day just before the start of month `m + 1`
of year `y` (the "day 0 of the next month" trick of `getDaysInMonth`). -/
theorem jsUTCDate_month_end {y m : Int} (h0 : 0 ≤ m) (h1 : m ≤ 11) :
    jsUTCDate ((dayFromYear y + monthStart (isLeapE y) (m + 1) - 1) * 86400000) =
      monthStart (isLeapE y) (m + 1) - monthStart (isLeapE y) m := by
  have hin : daysInYearE y = 365 + leapInc (isLeapE y) := daysInYearE_leapInc y
  have hub : monthStart (isLeapE y) (m + 1) ≤ 365 + leapInc (isLeapE y) :=
    monthStart_le (isLeapE y) (by omega)
  have hlb : 31 ≤ monthStart (isLeapE y) (m + 1) := monthStart_lb (isLeapE y) (by omega)
  have hy : yearFromDay (dayFromYear y + monthStart (isLeapE y) (m + 1) - 1) = y := by
    have h := yearFromDay_offset (y := y) (k := monthStart (isLeapE y) (m + 1) - 1)
      (by omega) (by omega)
    have harg : dayFromYear y + (monthStart (isLeapE y) (m + 1) - 1) =
        dayFromYear y + monthStart (isLeapE y) (m + 1) - 1 := by ring
    rw [harg] at h
    exact h
  simp only [jsUTCDate, dayWithinYear, jsUTCFullYear]
  rw [dayOfInstant_mul, hy]
  have hd : dayFromYear y + monthStart (isLeapE y) (m + 1) - 1 - dayFromYear y =
      monthStart (isLeapE y) (m + 1) - 1 := by ring
  rw [hd, monthFromDoy_monthStart (isLeapE y) h0 h1]
  omega

theorem dateUTC_eval_md (y m d : Int) (h0 : 0 ≤ m) (h1 : m ≤ 11) :
    dateUTC y m d 0 0 0 0 =
      (dayFromYear (remapYear y) + monthStart (isLeapE (remapYear y)) m + (d - 1)) *
        86400000 := by
  simp only [dateUTC]
  have e1 : m % 12 = m := by omega
  rw [e1]
  have e2 : (m - m) / 12 = 0 := by norm_num
  rw [e2]
  simp only [add_zero]
  omega

theorem dateUTC_eval_12 (y d : Int) :
    dateUTC y 12 d 0 0 0 0 = (dayFromYear (remapYear y + 1) + (d - 1)) * 86400000 := by
  simp only [dateUTC]
  have e1 : (12 : Int) % 12 = 0 := by decide
  rw [e1]
  have e2 : ((12 : Int) - 0) / 12 = 1 := by decide
  rw [e2]
  have e3 : monthStart (isLeapE (remapYear y + 1)) 0 = 0 := by
    cases isLeapE (remapYear y + 1) <;> rfl
  rw [e3]
  ring

/-- Closed form of `getDaysInMonth` for real month indices 0..11. -/
theorem getDaysInMonth_eq {y m : Int} (h0 : 0 ≤ m) (h1 : m ≤ 11) :
    getDaysInMonth y m =
      monthStart (isLeapE (remapYear y)) (m + 1) - monthStart (isLeapE (remapYear y)) m := by
  unfold getDaysInMonth
  by_cases hm : m ≤ 10
  · rw [dateUTC_eval_md y (m + 1) 0 (by omega) (by omega)]
    have harg : dayFromYear (remapYear y) + monthStart (isLeapE (remapYear y)) (m + 1) +
        ((0 : Int) - 1) = dayFromYear (remapYear y) + monthStart (isLeapE (remapYear y)) (m + 1)
        - 1 := by ring
    rw [harg, jsUTCDate_month_end h0 h1]
  · have hm11 : m = 11 := by omega
    subst hm11
    rw [show (11 : Int) + 1 = 12 from rfl, dateUTC_eval_12 y 0]
    have h12 : monthStart (isLeapE (remapYear y)) 12 = 365 + leapInc (isLeapE (remapYear y)) := by
      cases isLeapE (remapYear y) <;> rfl
    have harg : dayFromYear (remapYear y + 1) + ((0 : Int) - 1) =
        dayFromYear (remapYear y) + monthStart (isLeapE (remapYear y)) 12 - 1 := by
      have hd : dayFromYear (remapYear y + 1) =
          dayFromYear (remapYear y) + daysInYearE (remapYear y) := by
        unfold daysInYearE
        ring
      rw [hd, daysInYearE_leapInc, h12]
      ring
    rw [harg]
    have h := jsUTCDate_month_end (y := remapYear y) (m := 11) (by norm_num) (by norm_num)
    rw [show (11 : Int) + 1 = 12 from rfl] at h
    exact h

theorem getDaysInYear_expand (y : Int) :
    getDaysInYear y = getDaysInMonth y 0 + getDaysInMonth y 1 + getDaysInMonth y 2 +
      getDaysInMonth y 3 + getDaysInMonth y 4 + getDaysInMonth y 5 + getDaysInMonth y 6 +
      getDaysInMonth y 7 + getDaysInMonth y 8 + getDaysInMonth y 9 + getDaysInMonth y 10 +
      getDaysInMonth y 11 := by
  have hr : List.range 12 = [0, 1, 2, 3, 4, 5, 6, 7, 8, 9, 10, 11] := by decide
  unfold getDaysInYear
  rw [hr]
  simp only [List.foldl_cons, List.foldl_nil]
  norm_num

theorem getDaysInYear_eq (y : Int) :
    getDaysInYear y = 365 + leapInc (isLeapE (remapYear y)) := by
  rw [getDaysInYear_expand,
    getDaysInMonth_eq (m := 0) (by norm_num) (by norm_num),
    getDaysInMonth_eq (m := 1) (by norm_num) (by norm_num),
    getDaysInMonth_eq (m := 2) (by norm_num) (by norm_num),
    getDaysInMonth_eq (m := 3) (by norm_num) (by norm_num),
    getDaysInMonth_eq (m := 4) (by norm_num) (by norm_num),
    getDaysInMonth_eq (m := 5) (by norm_num) (by norm_num),
    getDaysInMonth_eq (m := 6) (by norm_num) (by norm_num),
    getDaysInMonth_eq (m := 7) (by norm_num) (by norm_num),
    getDaysInMonth_eq (m := 8) (by norm_num) (by norm_num),
    getDaysInMonth_eq (m := 9) (by norm_num) (by norm_num),
    getDaysInMonth_eq (m := 10) (by norm_num) (by norm_num),
    getDaysInMonth_eq (m := 11) (by norm_num) (by norm_num)]
  cases isLeapE (remapYear y) <;> decide

/-- C5 counterexample: the year 0 satisfies the claimed divisibility
condition (divisible by 4 and by 400) but `getDaysInYear 0` is 365, not
366 — `Date.UTC` maps year 0 to 1900, which is not a leap year. -/
theorem C5_counterexample :
    (4 ∣ (0 : Int) ∧ (¬ (100 ∣ (0 : Int)) ∨ 400 ∣ (0 : Int))) ∧
      getDaysInYear 0 = 365 ∧ getDaysInYear 0 ≠ 366 := by
  refine ⟨⟨⟨0, rfl⟩, Or.inr ⟨0, rfl⟩⟩, ?_, ?_⟩ <;> decide

/-- C5 (amended): for every `(year, month)` pair the sum of
`getDaysInMonth year m` over the 12 months `m` equals `getDaysInYear year`;
and `getDaysInYear year` is 366 if and only if the `Date.UTC`-remapped year
(`year + 1900` for 0 ≤ year ≤ 99, `year` otherwise) is divisible by 4 and
(not divisible by 100 or divisible by 400). -/
theorem C5_days_in_month_sum (year : Int) :
    (∑ m ∈ Finset.range 12, getDaysInMonth year (m : Int)) = getDaysInYear year ∧
    (getDaysInYear year = 366 ↔
      (4 ∣ remapYear year ∧ (¬ (100 ∣ remapYear year) ∨ 400 ∣ remapYear year))) := by
  constructor
  · rw [getDaysInYear_expand]
    simp [Finset.sum_range_succ]
  · rw [getDaysInYear_eq, ← isLeapE_iff]
    cases isLeapE (remapYear year) <;> simp [leapInc]

/-! ### Matcher evaluation lemmas -/

theorem expectChar_cons (c : Char) (rest : List Char) : expectChar c (c :: rest) = some rest := by
  simp [expectChar]

theorem takeDigitsExact_exact :
    ∀ (ds rest : List Char), (∀ c ∈ ds, isDigitB c = true) →
      takeDigitsExact ds.length (ds ++ rest) = some (ds, rest) := by
  intro ds
  induction ds with
  | nil => intro rest _; rfl
  | cons c ds ih =>
    intro rest hdig
    show takeDigitsExact (ds.length + 1) (c :: (ds ++ rest)) = _
    unfold takeDigitsExact
    rw [if_pos (hdig c (by simp))]
    rw [ih rest (fun x hx => hdig x (by simp [hx]))]

theorem takeDigitsExact_of_len {k : Nat} {ds rest : List Char} (hlen : ds.length = k)
    (hdig : ∀ c ∈ ds, isDigitB c = true) :
    takeDigitsExact k (ds ++ rest) = some (ds, rest) := by
  subst hlen
  exact takeDigitsExact_exact ds rest hdig

theorem takeWhile_digits_append {ds : List Char} (hdig : ∀ c ∈ ds, isDigitB c = true)
    {rest : List Char} (hrest : ∀ c, rest.head? = some c → isDigitB c = false) :
    (ds ++ rest).takeWhile isDigitB = ds ∧ (ds ++ rest).dropWhile isDigitB = rest := by
  induction ds with
  | nil =>
    cases rest with
    | nil => exact ⟨rfl, rfl⟩
    | cons r rs =>
      have hr := hrest r rfl
      constructor
      · simp [List.takeWhile_cons, hr]
      · simp [List.dropWhile_cons, hr]
  | cons c cs ih =>
    have hc := hdig c (by simp)
    obtain ⟨ih1, ih2⟩ := ih (fun x hx => hdig x (by simp [hx]))
    constructor
    · simp [List.takeWhile_cons, hc, ih1]
    · simp [List.dropWhile_cons, hc, ih2]

theorem span_digits_all {ds : List Char} (hdig : ∀ c ∈ ds, isDigitB c = true) {rest : List Char}
    (hrest : ∀ c, rest.head? = some c → isDigitB c = false) :
    (ds ++ rest).span isDigitB = (ds, rest) := by
  obtain ⟨h1, h2⟩ := takeWhile_digits_append hdig hrest
  rw [List.span_eq_take_drop, h1, h2]

theorem takeDigitsPlus_all {ds rest : List Char} (hne : ds ≠ [])
    (hdig : ∀ c ∈ ds, isDigitB c = true)
    (hrest : ∀ c, rest.head? = some c → isDigitB c = false) :
    takeDigitsPlus (ds ++ rest) = some (ds, rest) := by
  unfold takeDigitsPlus
  rw [span_digits_all hdig hrest]
  cases ds with
  | nil => exact absurd rfl hne
  | cons c cs => rfl

/-- Characters of the padded decimal rendering of `n < 10 ^ k` (with
`0 < k`): exactly `k` characters, all digits, with value `n`. -/
theorem padNat_spec {k n : Nat} (hk : 0 < k) (hn : n < 10 ^ k) :
    (padStart k '0' (natDigits n)).length = k ∧
    (∀ c ∈ padStart k '0' (natDigits n), isDigitB c = true) ∧
    digitsToNat (padStart k '0' (natDigits n)) = n := by
  have hlen : (natDigits n).length ≤ k := by
    by_cases h0 : n = 0
    · subst h0; simpa [natDigits] using hk
    · exact (natDigits_length_le_iff h0).mpr hn
  refine ⟨?_, padStart_all_digits (natDigits_all_digits n), ?_⟩
  · rw [padStart_length]; omega
  · rw [digitsToNat_padStart, digitsToNat_natDigits]

/-- Tail of a rendering carrying an optional fractional part. -/
def fracTail (msd : Option (List Char)) : List Char :=
  match msd with
  | some ms => '.' :: ms
  | none => []

theorem optFrac_fracTail {msd : Option (List Char)}
    (hms : ∀ ms, msd = some ms → ms ≠ [] ∧ ∀ c ∈ ms, isDigitB c = true) :
    optFrac (fracTail msd) = some (msd, []) := by
  cases msd with
  | none => rfl
  | some ms =>
    obtain ⟨hne, hdig⟩ := hms ms rfl
    show optFrac ('.' :: ms) = _
    have htp : takeDigitsPlus ms = some (ms, []) := by
      have h := @takeDigitsPlus_all ms [] hne hdig (by intro c h; simp at h)
      rwa [List.append_nil] at h
    unfold optFrac
    simp [htp]

/-- Evaluation of `matchIsoOrdinal` on a well-shaped rendering. -/
theorem matchIsoOrdinal_render {y doy hr mi s : List Char} {msd : Option (List Char)}
    (hy : y.length = 4) (hdy : doy.length = 3) (hh : hr.length = 2) (hmi : mi.length = 2)
    (hs : s.length = 2)
    (dy : ∀ c ∈ y, isDigitB c = true) (ddy : ∀ c ∈ doy, isDigitB c = true)
    (dh : ∀ c ∈ hr, isDigitB c = true) (dmi : ∀ c ∈ mi, isDigitB c = true)
    (ds : ∀ c ∈ s, isDigitB c = true)
    (hms : ∀ ms, msd = some ms → ms ≠ [] ∧ ∀ c ∈ ms, isDigitB c = true) :
    matchIsoOrdinal (y ++ '-' :: (doy ++ 'T' :: (hr ++ ':' :: (mi ++ ':' :: (s ++
      fracTail msd))))) =
      some { year := y, doy := doy, hr := hr, mins := mi, secs := s, ms := msd } := by
  unfold matchIsoOrdinal
  rw [takeDigitsExact_of_len hy dy]
  simp only [Option.bind_eq_bind, Option.some_bind, expectChar_cons]
  rw [takeDigitsExact_of_len hdy ddy]
  simp only [Option.some_bind, expectChar_cons]
  rw [takeDigitsExact_of_len hh dh]
  simp only [Option.some_bind, expectChar_cons]
  rw [takeDigitsExact_of_len hmi dmi]
  simp only [Option.some_bind, expectChar_cons]
  rw [show s ++ fracTail msd = s ++ (fracTail msd ++ []) from by simp,
    takeDigitsExact_of_len hs ds]
  simp only [Option.some_bind]
  rw [show fracTail msd ++ [] = fracTail msd from by simp, optFrac_fracTail hms]
  simp

/-- C7: `getUnixEpochTime` never throws; it returns the UTC
milliseconds-since-epoch value of the captured fields when the input
matches the ordinal grammar, likewise for the civil-UTC grammar, and
returns `0` (not an error) for every string matching neither. -/
theorem C7_unix_epoch_never_throws (s : List Char) :
    (∀ g, matchIsoOrdinal s = some g →
      getUnixEpochTime s = dateUTC (digitsToNat g.year) 0 (digitsToNat g.doy)
        (digitsToNat g.hr) (digitsToNat g.mins) (digitsToNat g.secs)
        (digitsToNat (g.ms.getD ['0']))) ∧
    (matchIsoOrdinal s = none → ∀ g, matchIsoUtc s = some g →
      getUnixEpochTime s = dateUTC (digitsToNat g.year) ((digitsToNat g.month : Int) - 1)
        (digitsToNat g.day) (digitsToNat g.hr) (digitsToNat g.mins) (digitsToNat g.secs)
        (digitsToNat (g.ms.getD ['0']))) ∧
    (matchIsoOrdinal s = none → matchIsoUtc s = none → getUnixEpochTime s = 0) := by
  refine ⟨?_, ?_, ?_⟩
  · intro g hg
    unfold getUnixEpochTime
    rw [hg]
  · intro h1 g hg
    unfold getUnixEpochTime
    rw [h1, hg]
  · intro h1 h2
    unfold getUnixEpochTime
    rw [h1, h2]

theorem C7_witness :
    getUnixEpochTime ("2019-365T08:00:00.000".data) = 1577779200000 ∧
    getUnixEpochTime ("not a time".data) = 0 := by
  constructor
  · have h := (C7_unix_epoch_never_throws ("2019-365T08:00:00.000".data)).1
      { year := ['2', '0', '1', '9'], doy := ['3', '6', '5'], hr := ['0', '8'],
        mins := ['0', '0'], secs := ['0', '0'], ms := some ['0', '0', '0'] }
      (by decide)
    rw [h]
    decide
  · exact (C7_unix_epoch_never_throws ("not a time".data)).2.2 (by decide) (by decide)

/-- C10 (implicit): the grammar matchers check digit shape only, never
calendar ranges — any string whose fields have the right digit counts
validates even with out-of-range values (minutes 80 or 90, seconds 60,
month 13, day-of-year 999), and `parseDoyOrIsoTime` returns a populated
record carrying those out-of-range numeric values rather than `null`. -/
theorem C10_shape_only_validation :
    (∀ (y doy hr mi s : Nat) (msd : Option (List Char)), y < 10000 → doy < 1000 →
      hr < 100 → mi < 100 → s < 100 →
      (∀ ms, msd = some ms → ms ≠ [] ∧ ∀ c ∈ ms, isDigitB c = true) →
      validateTime (padStart 4 '0' (natDigits y) ++ '-' :: (padStart 3 '0' (natDigits doy) ++
        'T' :: (padStart 2 '0' (natDigits hr) ++ ':' :: (padStart 2 '0' (natDigits mi) ++
        ':' :: (padStart 2 '0' (natDigits s) ++ fracTail msd))))) .ISO_ORDINAL_TIME = true) ∧
    validateTime ("2019-365T08:80:00.1234".data) .ISO_ORDINAL_TIME = true ∧
    validateTime ("2024-999T12:90:60".data) .ISO_ORDINAL_TIME = true ∧
    validateTime ("2023-13-40T25:70:70Z".data) .ISO_8601_UTC_TIME = true ∧
    parseDoyOrIsoTime ("2019-365T08:80:00.1234".data) =
      some (.doy { year := 2019, doy := 365, hour := 8, min := 80, sec := 0,
                   ms := (617 : ℚ) / 5, time := "08:80:00.1234".data }) ∧
    parseDoyOrIsoTime ("2023-13-40T25:70:70Z".data) =
      some (.ymd { year := 2023, month := 13, day := 40, hour := 25, min := 70, sec := 70,
                   ms := 0, time := "25:70:70".data }) := by
  refine ⟨?_, by decide, by decide, by decide, by decide, by decide⟩
  intro y doy hr mi s msd hy hdoy hhr hmi hs hms
  obtain ⟨ly, dy, _⟩ := padNat_spec (k := 4) (by norm_num) hy
  obtain ⟨ldoy, ddoy, _⟩ := padNat_spec (k := 3) (by norm_num) hdoy
  obtain ⟨lhr, dhr, _⟩ := padNat_spec (k := 2) (by norm_num) hhr
  obtain ⟨lmi, dmi, _⟩ := padNat_spec (k := 2) (by norm_num) hmi
  obtain ⟨ls, ds, _⟩ := padNat_spec (k := 2) (by norm_num) hs
  unfold validateTime
  rw [matchIsoOrdinal_render ly ldoy lhr lmi ls dy ddoy dhr dmi ds hms]
  rfl

theorem C10_witness :
    validateTime (padStart 4 '0' (natDigits 2019) ++ '-' :: (padStart 3 '0' (natDigits 999) ++
      'T' :: (padStart 2 '0' (natDigits 99) ++ ':' :: (padStart 2 '0' (natDigits 90) ++
      ':' :: (padStart 2 '0' (natDigits 60) ++ fracTail none))))) .ISO_ORDINAL_TIME = true :=
  C10_shape_only_validation.1 2019 999 99 90 60 none (by norm_num) (by norm_num)
    (by norm_num) (by norm_num) (by norm_num) (by intro ms h; cases h)

/-! ### C3: the throwing path of `parseDurationString` -/

instance {ε α : Type} [DecidableEq ε] [DecidableEq α] : DecidableEq (Except ε α) := fun a b =>
  match a, b with
  | .ok x, .ok y => decidable_of_iff (x = y) (by simp)
  | .error x, .error y => decidable_of_iff (x = y) (by simp)
  | .ok _, .error _ => isFalse (by simp)
  | .error _, .ok _ => isFalse (by simp)

theorem parseDoyOrIsoTime_eq_none_iff (s : List Char) :
    parseDoyOrIsoTime s = none ↔
      matchIsoOrdinal s = none ∧ matchIsoUtc s = none ∧ matchDoyTime s = none := by
  unfold parseDoyOrIsoTime parseDOYDurationTime
  cases h1 : matchIsoOrdinal s <;> cases h2 : matchIsoUtc s <;> cases h3 : matchDoyTime s <;>
    simp

theorem parseDurationString_error_iff (s : List Char) (u : DurUnit) :
    parseDurationString s u = .error formatErrorMsg ↔
      (matchFreeForm s = none ∧ matchIsoOrdinal s = none ∧ matchIsoUtc s = none ∧
        matchDoyTime s = none ∧ matchSecondTime s = none) := by
  unfold parseDurationString
  cases h1 : matchFreeForm s
  · cases h2 : parseDoyOrIsoTime s
    · have h3 := (parseDoyOrIsoTime_eq_none_iff s).mp h2
      cases h4 : matchSecondTime s <;> simp [h3]
    · have h3 : ¬ (parseDoyOrIsoTime s = none) := by rw [h2]; simp
      rw [parseDoyOrIsoTime_eq_none_iff] at h3
      simp
      intro h4 h5 h6
      exact absurd ⟨h4, h5, h6⟩ h3
  · simp

theorem parseDurationString_error_msg (s : List Char) (u : DurUnit) :
    ∀ e, parseDurationString s u = .error e → e = formatErrorMsg := by
  unfold parseDurationString
  cases h1 : matchFreeForm s <;> cases h2 : parseDoyOrIsoTime s <;>
    cases h3 : matchSecondTime s <;> simp

/-- C3 counterexample: the civil-UTC string `"2022-01-02T00:00:00Z"` matches
none of the three grammars named by the claim — free-form unit-suffixed,
ordinal timestamp, day-of-year timestamp, bare signed number — yet
`parseDurationString` returns a record (the civil-UTC parse cast to a
duration) instead of throwing. -/
theorem C3_counterexample :
    matchFreeForm ("2022-01-02T00:00:00Z".data) = none ∧
    matchIsoOrdinal ("2022-01-02T00:00:00Z".data) = none ∧
    matchDoyTime ("2022-01-02T00:00:00Z".data) = none ∧
    matchSecondTime ("2022-01-02T00:00:00Z".data) = none ∧
    parseDurationString ("2022-01-02T00:00:00Z".data) .microseconds =
      .ok (.ymd { year := 2022, month := 1, day := 2, hour := 0, min := 0, sec := 0,
                  ms := 0, time := "00:00:00".data }) := by
  refine ⟨by decide, by decide, by decide, by decide, by decide⟩

/-- C3 (amended): `parseDurationString(text, defaultUnit)` throws an error
carrying the fixed multi-line format message if and only if `text` matches
none of the grammars it tries — free-form unit-suffixed, ordinal timestamp,
civil-UTC timestamp, day-of-year timestamp, bare signed number (the
civil-UTC grammar, matched through the shared timestamp parser, is accepted
in addition to the three grammars the claim names); for any text matching
one of them it returns a record without throwing; every thrown error
carries exactly the fixed message; in particular
`parseDurationString("30f")` throws that fixed message. -/
theorem C3_throwing_path (s : List Char) (u : DurUnit) :
    (parseDurationString s u = .error formatErrorMsg ↔
      (matchFreeForm s = none ∧ matchIsoOrdinal s = none ∧ matchIsoUtc s = none ∧
        matchDoyTime s = none ∧ matchSecondTime s = none)) ∧
    (∀ e, parseDurationString s u = .error e → e = formatErrorMsg) ∧
    parseDurationString ("30f".data) u = .error formatErrorMsg := by
  refine ⟨parseDurationString_error_iff s u, parseDurationString_error_msg s u, ?_⟩
  exact (parseDurationString_error_iff ("30f".data) u).mpr
    ⟨by decide, by decide, by decide, by decide, by decide⟩

theorem C3_witness :
    matchFreeForm ("30f".data) = none ∧ matchIsoOrdinal ("30f".data) = none ∧
      matchIsoUtc ("30f".data) = none ∧ matchDoyTime ("30f".data) = none ∧
      matchSecondTime ("30f".data) = none :=
  (C3_throwing_path ("30f".data) .microseconds).1.mp
    ((C3_throwing_path ("30f".data) .microseconds).2.2)

/-! ### C4: the bare-signed-number branch -/

theorem ratFloor_natCast_div_natCast (a b : Nat) :
    ratFloor ((a : ℚ) / (b : ℚ)) = ((a / b : Nat) : Int) := by
  rw [ratFloor_eq, Rat.floor_natCast_div_natCast]
  exact (Int.natCast_div a b).symm

theorem jsModQ_natCast (a b : Nat) :
    jsModQ (a : ℚ) (b : ℚ) = ((a % b : Nat) : ℚ) := by
  unfold jsModQ
  rw [ratFloor_natCast_div_natCast, Int.cast_natCast]
  have h2 : ((b * (a / b) + a % b : Nat) : ℚ) = ((a : Nat) : ℚ) := by
    rw [Nat.div_add_mod]
  push_cast at h2
  linarith

/-- The bare-signed-number semantics exactly as claim C4 words it: the
integer part is interpreted in the caller-specified default unit, the
fractional part in the next-finer unit (for the finest unit, microseconds,
no finer unit exists and the fraction is unused), and the result is
normalized by successive carries with the fixed ratios
1,000,000 µs→ms, 1000 ms→s, 60 s→min, 60 min→hr, 24 hr→day and a fixed
365-day year.  Compared against `secondPathDuration` (translated from the
source) in `C4_bare_number_fallthrough`. -/
def c4BareNumberSpec (sgn : Option Char) (secs : List Char) (msd : Option (List Char))
    (units : DurUnit) : ParsedDurationString :=
  let intPart : ℚ := (digitsToNat secs : ℚ)
  let fracPart : ℚ :=
    match msd with
    | some ds => fracVal ds
    | none => 0
  let assigned : ℚ × ℚ × ℚ × ℚ × ℚ × ℚ :=
    match units with
    | .microseconds => (intPart, 0, 0, 0, 0, 0)
    | .milliseconds => (fracPart, intPart, 0, 0, 0, 0)
    | .seconds => (0, fracPart, intPart, 0, 0, 0)
    | .minutes => (0, 0, fracPart, intPart, 0, 0)
    | .hours => (0, 0, 0, fracPart, intPart, 0)
    | .days => (0, 0, 0, 0, fracPart, intPart)
  let us0 := assigned.1
  let ms0 := assigned.2.1
  let s0 := assigned.2.2.1
  let min0 := assigned.2.2.2.1
  let h0 := assigned.2.2.2.2.1
  let d0 := assigned.2.2.2.2.2
  let msC := ms0 + (ratFloor (us0 / 1000000) : ℚ)
  let usF := jsModQ us0 1000000
  let sC := s0 + (ratFloor (msC / 1000) : ℚ)
  let msF := jsModQ msC 1000
  let minC := min0 + (ratFloor (sC / 60) : ℚ)
  let sF := jsModQ sC 60
  let hC := h0 + (ratFloor (minC / 60) : ℚ)
  let minF := jsModQ minC 60
  let dC := d0 + (ratFloor (hC / 24) : ℚ)
  let hF := jsModQ hC 24
  let yF : ℚ := (ratFloor (dC / 365) : ℚ)
  let dF := jsModQ dC 365
  { days := dF, hours := hF, isNegative := sgn == some '-', microseconds := usF,
    milliseconds := msF, minutes := minF, seconds := sF, years := yF }

theorem ratFloor_div_1000000 (a : Nat) :
    (ratFloor ((a : ℚ) / 1000000) : ℚ) = ((a / 1000000 : Nat) : ℚ) := by
  rw [show (1000000 : ℚ) = ((1000000 : Nat) : ℚ) from by norm_num,
    ratFloor_natCast_div_natCast, Int.cast_natCast]

theorem jsModQ_by_1000000 (a : Nat) :
    jsModQ ((a : ℚ)) 1000000 = ((a % 1000000 : Nat) : ℚ) := by
  rw [show (1000000 : ℚ) = ((1000000 : Nat) : ℚ) from by norm_num, jsModQ_natCast]

theorem ratFloor_div_1000 (a : Nat) :
    (ratFloor ((a : ℚ) / 1000) : ℚ) = ((a / 1000 : Nat) : ℚ) := by
  rw [show (1000 : ℚ) = ((1000 : Nat) : ℚ) from by norm_num, ratFloor_natCast_div_natCast, Int.cast_natCast]

theorem jsModQ_by_1000 (a : Nat) :
    jsModQ ((a : ℚ)) 1000 = ((a % 1000 : Nat) : ℚ) := by
  rw [show (1000 : ℚ) = ((1000 : Nat) : ℚ) from by norm_num, jsModQ_natCast]

theorem ratFloor_div_60 (a : Nat) :
    (ratFloor ((a : ℚ) / 60) : ℚ) = ((a / 60 : Nat) : ℚ) := by
  rw [show (60 : ℚ) = ((60 : Nat) : ℚ) from by norm_num, ratFloor_natCast_div_natCast, Int.cast_natCast]

theorem jsModQ_by_60 (a : Nat) :
    jsModQ ((a : ℚ)) 60 = ((a % 60 : Nat) : ℚ) := by
  rw [show (60 : ℚ) = ((60 : Nat) : ℚ) from by norm_num, jsModQ_natCast]

theorem ratFloor_div_24 (a : Nat) :
    (ratFloor ((a : ℚ) / 24) : ℚ) = ((a / 24 : Nat) : ℚ) := by
  rw [show (24 : ℚ) = ((24 : Nat) : ℚ) from by norm_num, ratFloor_natCast_div_natCast, Int.cast_natCast]

theorem jsModQ_by_24 (a : Nat) :
    jsModQ ((a : ℚ)) 24 = ((a % 24 : Nat) : ℚ) := by
  rw [show (24 : ℚ) = ((24 : Nat) : ℚ) from by norm_num, jsModQ_natCast]

theorem ratFloor_div_365 (a : Nat) :
    (ratFloor ((a : ℚ) / 365) : ℚ) = ((a / 365 : Nat) : ℚ) := by
  rw [show (365 : ℚ) = ((365 : Nat) : ℚ) from by norm_num, ratFloor_natCast_div_natCast, Int.cast_natCast]

theorem jsModQ_by_365 (a : Nat) :
    jsModQ ((a : ℚ)) 365 = ((a % 365 : Nat) : ℚ) := by
  rw [show (365 : ℚ) = ((365 : Nat) : ℚ) from by norm_num, jsModQ_natCast]

/-- Closed form of the microseconds-default bare-number branch. -/
theorem secondPathDuration_micro (sgn : Option Char) (secs : List Char)
    (msd : Option (List Char)) :
    secondPathDuration sgn secs msd .microseconds =
      { days := ((digitsToNat secs / 86400000000000 % 365 : Nat) : ℚ),
        hours := ((digitsToNat secs / 3600000000000 % 24 : Nat) : ℚ),
        isNegative := sgn == some '-',
        microseconds := ((digitsToNat secs % 1000000 : Nat) : ℚ),
        milliseconds := ((digitsToNat secs / 1000000 % 1000 : Nat) : ℚ),
        minutes := ((digitsToNat secs / 60000000000 % 60 : Nat) : ℚ),
        seconds := ((digitsToNat secs / 1000000000 % 60 : Nat) : ℚ),
        years := ((digitsToNat secs / 86400000000000 / 365 : Nat) : ℚ) } := by
  simp only [secondPathDuration]
  simp only [ratFloor_div_1000000, jsModQ_by_1000000, ratFloor_div_1000, jsModQ_by_1000,
    ratFloor_div_60, jsModQ_by_60, ratFloor_div_24, jsModQ_by_24, ratFloor_div_365,
    jsModQ_by_365, zero_add, add_zero, Nat.div_div_eq_div_mul]

/-- C4: on every input that falls through to the bare-signed-number
grammar (the free-form and timestamp grammars do not match, the
`SECOND_TIME` grammar does), `parseDurationString` interprets the integer
part in the caller-specified default unit and the fractional part in the
next-finer unit, and normalizes by successive carries with the fixed
ratios µs mod 1,000,000 → ms, ms mod 1000 → s, s mod 60 → min,
min mod 60 → hr, hr mod 24 → day, day mod 365 → year (no leap-year
adjustment); the second conjunct gives the resulting closed div/mod form
for the default microseconds unit. -/
theorem C4_bare_number_normalization (s : List Char) (u : DurUnit) (g : SecondGroups)
    (h1 : matchFreeForm s = none) (h2 : parseDoyOrIsoTime s = none)
    (h3 : matchSecondTime s = some g) :
    parseDurationString s u = .ok (.dur (c4BareNumberSpec g.sign g.secs g.ms u)) ∧
    parseDurationString s .microseconds = .ok (.dur
      { days := ((digitsToNat g.secs / 86400000000000 % 365 : Nat) : ℚ),
        hours := ((digitsToNat g.secs / 3600000000000 % 24 : Nat) : ℚ),
        isNegative := g.sign == some '-',
        microseconds := ((digitsToNat g.secs % 1000000 : Nat) : ℚ),
        milliseconds := ((digitsToNat g.secs / 1000000 % 1000 : Nat) : ℚ),
        minutes := ((digitsToNat g.secs / 60000000000 % 60 : Nat) : ℚ),
        seconds := ((digitsToNat g.secs / 1000000000 % 60 : Nat) : ℚ),
        years := ((digitsToNat g.secs / 86400000000000 / 365 : Nat) : ℚ) }) := by
  have hmain : ∀ v : DurUnit, parseDurationString s v =
      .ok (.dur (secondPathDuration g.sign g.secs g.ms v)) := by
    intro v
    unfold parseDurationString
    rw [h1, h2, h3]
  have hspec : secondPathDuration g.sign g.secs g.ms u =
      c4BareNumberSpec g.sign g.secs g.ms u := by
    cases u <;> rfl
  constructor
  · rw [hmain u, hspec]
  · rw [hmain .microseconds, secondPathDuration_micro]

/-! ### Inversion lemmas for the timestamp matchers -/

theorem takeDigitsExact_some :
    ∀ (k : Nat) (xs ds rest : List Char), takeDigitsExact k xs = some (ds, rest) →
      xs = ds ++ rest ∧ ds.length = k ∧ ∀ c ∈ ds, isDigitB c = true := by
  intro k
  induction k with
  | zero =>
    intro xs ds rest h
    unfold takeDigitsExact at h
    simp at h
    obtain ⟨rfl, rfl⟩ := h
    exact ⟨rfl, rfl, by simp⟩
  | succ k ih =>
    intro xs ds rest h
    match xs with
    | [] => exact absurd h (by unfold takeDigitsExact; simp)
    | c :: cs =>
      unfold takeDigitsExact at h
      by_cases hc : isDigitB c = true
      · rw [if_pos hc] at h
        cases h2 : takeDigitsExact k cs with
        | none => rw [h2] at h; simp at h
        | some p =>
          rw [h2] at h
          obtain ⟨ds2, rest2⟩ := p
          simp at h
          obtain ⟨rfl, rfl⟩ := h
          obtain ⟨he, hl, hd⟩ := ih cs ds2 rest2 h2
          refine ⟨by rw [he]; rfl, by simp [hl], ?_⟩
          intro x hx
          rcases List.mem_cons.mp hx with rfl | hx2
          · exact hc
          · exact hd x hx2
      · rw [if_neg hc] at h
        exact absurd h (by simp)

/-- A run of exactly `k` digits read off a text of the form
`digits ++ sep :: zs`, followed by a successful `expectChar sep`, is the
whole digit block. -/
theorem digit_field_capture {k : Nat} {ys zs ds rest rest2 : List Char} {sep : Char}
    (hsep : isDigitB sep = false)
    (hys : ∀ c ∈ ys, isDigitB c = true)
    (heq : ds ++ rest = ys ++ sep :: zs)
    (hlen : ds.length = k)
    (hd : ∀ c ∈ ds, isDigitB c = true)
    (hx : expectChar sep rest = some rest2) :
    ds = ys ∧ rest2 = zs := by
  by_cases h4 : ys.length < k
  · exfalso
    have hds : ds = (ys ++ sep :: zs).take k := by
      have h1 : ds = (ds ++ rest).take ds.length := by
        rw [List.take_left]
      rw [hlen, heq] at h1
      exact h1
    rw [List.take_append_eq_append_take] at hds
    have hys_take : ys.take k = ys := List.take_of_length_le (by omega)
    rw [hys_take] at hds
    have hpos : 0 < k - ys.length := by omega
    have hsep_mem : sep ∈ ds := by
      rw [hds]
      apply List.mem_append_right
      cases hk2 : k - ys.length with
      | zero => omega
      | succ m => simp [List.take_cons]
    have := hd sep hsep_mem
    rw [hsep] at this
    exact absurd this (by simp)
  · have hlen2 : k ≤ ys.length := by omega
    have heq2 : ys ++ sep :: zs = ys.take k ++ (ys.drop k ++ sep :: zs) := by
      rw [← List.append_assoc, List.take_append_drop]
    rw [heq2] at heq
    have hlens : ds.length = (ys.take k).length := by
      rw [hlen, List.length_take]
      omega
    obtain ⟨hds, hrest⟩ := List.append_inj heq hlens
    cases hdrop : ys.drop k with
    | nil =>
      have hlen3 : ys.length ≤ k := by
        have := congrArg List.length hdrop
        simp at this
        omega
      have hys_eq : ys.take k = ys := List.take_of_length_le hlen3
      subst hds
      rw [hdrop] at hrest
      simp at hrest
      subst hrest
      unfold expectChar at hx
      simp at hx
      exact ⟨hys_eq, hx.symm⟩
    | cons c cs2 =>
      exfalso
      have hcmem : c ∈ ys := by
        have : c ∈ ys.drop k := by rw [hdrop]; simp
        exact List.mem_of_mem_drop this
      have hcdig := hys c hcmem
      rw [hdrop] at hrest
      subst hrest
      unfold expectChar at hx
      simp at hx
      obtain ⟨hc_eq, _⟩ := hx
      rw [hc_eq] at hcdig
      rw [hcdig] at hsep
      exact absurd hsep (by simp)

/-- Inversion of a successful `matchIsoOrdinal`: each capture step
succeeded in sequence and the input was consumed entirely. -/
theorem matchIsoOrdinal_inv {r : List Char} {g : OrdinalGroups}
    (h : matchIsoOrdinal r = some g) :
    ∃ cs1 cs2 cs3 cs4 cs5 cs6 cs7 cs8 cs9,
      takeDigitsExact 4 r = some (g.year, cs1) ∧
      expectChar '-' cs1 = some cs2 ∧
      takeDigitsExact 3 cs2 = some (g.doy, cs3) ∧
      expectChar 'T' cs3 = some cs4 ∧
      takeDigitsExact 2 cs4 = some (g.hr, cs5) ∧
      expectChar ':' cs5 = some cs6 ∧
      takeDigitsExact 2 cs6 = some (g.mins, cs7) ∧
      expectChar ':' cs7 = some cs8 ∧
      takeDigitsExact 2 cs8 = some (g.secs, cs9) ∧
      optFrac cs9 = some (g.ms, []) := by
  unfold matchIsoOrdinal at h
  simp only [Option.bind_eq_bind] at h
  cases h1 : takeDigitsExact 4 r with
  | none => rw [h1, Option.none_bind] at h; exact Option.noConfusion h
  | some p1 =>
  obtain ⟨y, cs1⟩ := p1
  rw [h1] at h
  simp only [Option.some_bind] at h
  cases h2 : expectChar '-' cs1 with
  | none => rw [h2, Option.none_bind] at h; exact Option.noConfusion h
  | some cs2 =>
  rw [h2] at h
  simp only [Option.some_bind] at h
  cases h3 : takeDigitsExact 3 cs2 with
  | none => rw [h3, Option.none_bind] at h; exact Option.noConfusion h
  | some p2 =>
  obtain ⟨doy, cs3⟩ := p2
  rw [h3] at h
  simp only [Option.some_bind] at h
  cases h4 : expectChar 'T' cs3 with
  | none => rw [h4, Option.none_bind] at h; exact Option.noConfusion h
  | some cs4 =>
  rw [h4] at h
  simp only [Option.some_bind] at h
  cases h5 : takeDigitsExact 2 cs4 with
  | none => rw [h5, Option.none_bind] at h; exact Option.noConfusion h
  | some p3 =>
  obtain ⟨hr, cs5⟩ := p3
  rw [h5] at h
  simp only [Option.some_bind] at h
  cases h6 : expectChar ':' cs5 with
  | none => rw [h6, Option.none_bind] at h; exact Option.noConfusion h
  | some cs6 =>
  rw [h6] at h
  simp only [Option.some_bind] at h
  cases h7 : takeDigitsExact 2 cs6 with
  | none => rw [h7, Option.none_bind] at h; exact Option.noConfusion h
  | some p4 =>
  obtain ⟨mins, cs7⟩ := p4
  rw [h7] at h
  simp only [Option.some_bind] at h
  cases h8 : expectChar ':' cs7 with
  | none => rw [h8, Option.none_bind] at h; exact Option.noConfusion h
  | some cs8 =>
  rw [h8] at h
  simp only [Option.some_bind] at h
  cases h9 : takeDigitsExact 2 cs8 with
  | none => rw [h9, Option.none_bind] at h; exact Option.noConfusion h
  | some p5 =>
  obtain ⟨secs, cs9⟩ := p5
  rw [h9] at h
  simp only [Option.some_bind] at h
  cases h10 : optFrac cs9 with
  | none => rw [h10, Option.none_bind] at h; exact Option.noConfusion h
  | some p6 =>
  obtain ⟨ms, cs10⟩ := p6
  rw [h10] at h
  simp only [Option.some_bind] at h
  cases hc : cs10 with
  | nil =>
    rw [hc] at h h10
    simp only [List.isEmpty_nil, if_pos] at h
    have hg : ({ year := y, doy := doy, hr := hr, mins := mins, secs := secs,
                 ms := ms } : OrdinalGroups) = g := Option.some_injective _ h
    have hy : g.year = y := by rw [← hg]
    have hdoy2 : g.doy = doy := by rw [← hg]
    have hhr : g.hr = hr := by rw [← hg]
    have hmins : g.mins = mins := by rw [← hg]
    have hsecs : g.secs = secs := by rw [← hg]
    have hms : g.ms = ms := by rw [← hg]
    exact ⟨cs1, cs2, cs3, cs4, cs5, cs6, cs7, cs8, cs9,
      by rw [hy], h2, by rw [hdoy2]; exact h3, h4,
      by rw [hhr]; exact h5, h6, by rw [hmins]; exact h7, h8,
      by rw [hsecs]; exact h9, by rw [hms]; exact h10⟩
  | cons a l =>
    rw [hc] at h
    simp at h

set_option maxHeartbeats 1600000 in
/-- Inversion of a successful `matchIsoUtc`: the year step and the first
separator succeeded. -/
theorem matchIsoUtc_inv {r : List Char} {g : UtcGroups}
    (h : matchIsoUtc r = some g) :
    ∃ cs1 cs2, takeDigitsExact 4 r = some (g.year, cs1) ∧
      expectChar '-' cs1 = some cs2 := by
  unfold matchIsoUtc at h
  simp only [Option.bind_eq_bind] at h
  cases h1 : takeDigitsExact 4 r with
  | none => rw [h1, Option.none_bind] at h; exact Option.noConfusion h
  | some p1 =>
  obtain ⟨y, cs1⟩ := p1
  rw [h1] at h
  simp only [Option.some_bind] at h
  cases h2 : expectChar '-' cs1 with
  | none => rw [h2, Option.none_bind] at h; exact Option.noConfusion h
  | some cs2 =>
  rw [h2] at h
  simp only [Option.some_bind] at h
  cases h3 : takeDigitsExact 2 cs2 with
  | none => rw [h3, Option.none_bind] at h; exact Option.noConfusion h
  | some p2 =>
  obtain ⟨mo, cs3⟩ := p2
  rw [h3] at h
  simp only [Option.some_bind] at h
  cases h4 : expectChar '-' cs3 with
  | none => rw [h4, Option.none_bind] at h; exact Option.noConfusion h
  | some cs4 =>
  rw [h4] at h
  simp only [Option.some_bind] at h
  cases h5 : takeDigitsExact 2 cs4 with
  | none => rw [h5, Option.none_bind] at h; exact Option.noConfusion h
  | some p3 =>
  obtain ⟨d, cs5⟩ := p3
  rw [h5] at h
  simp only [Option.some_bind] at h
  cases h6 : expectChar 'T' cs5 with
  | none => rw [h6, Option.none_bind] at h; exact Option.noConfusion h
  | some cs6 =>
  rw [h6] at h
  simp only [Option.some_bind] at h
  cases h7 : takeDigitsExact 2 cs6 with
  | none => rw [h7, Option.none_bind] at h; exact Option.noConfusion h
  | some p4 =>
  obtain ⟨hr, cs7⟩ := p4
  rw [h7] at h
  simp only [Option.some_bind] at h
  cases h8 : expectChar ':' cs7 with
  | none => rw [h8, Option.none_bind] at h; exact Option.noConfusion h
  | some cs8 =>
  rw [h8] at h
  simp only [Option.some_bind] at h
  cases h9 : takeDigitsExact 2 cs8 with
  | none => rw [h9, Option.none_bind] at h; exact Option.noConfusion h
  | some p5 =>
  obtain ⟨mins, cs9⟩ := p5
  rw [h9] at h
  simp only [Option.some_bind] at h
  cases h10 : expectChar ':' cs9 with
  | none => rw [h10, Option.none_bind] at h; exact Option.noConfusion h
  | some cs10 =>
  rw [h10] at h
  simp only [Option.some_bind] at h
  cases h11 : takeDigitsExact 2 cs10 with
  | none => rw [h11, Option.none_bind] at h; exact Option.noConfusion h
  | some p6 =>
  obtain ⟨secs, cs11⟩ := p6
  rw [h11] at h
  simp only [Option.some_bind] at h
  cases h12 : optFrac cs11 with
  | none => rw [h12, Option.none_bind] at h; exact Option.noConfusion h
  | some p7 =>
  obtain ⟨ms, cs12⟩ := p7
  rw [h12] at h
  simp only [Option.some_bind] at h
  cases h13 : expectChar 'Z' cs12 with
  | none => rw [h13, Option.none_bind] at h; exact Option.noConfusion h
  | some cs13 =>
  rw [h13] at h
  simp only [Option.some_bind] at h
  cases hc : cs13 with
  | nil =>
    rw [hc] at h
    simp only [List.isEmpty_nil, if_pos] at h
    have hg : ({ year := y, month := mo, day := d, hr := hr, mins := mins,
                 secs := secs, ms := ms } : UtcGroups) = g := Option.some_injective _ h
    have hy : g.year = y := by rw [← hg]
    exact ⟨cs1, cs2, by rw [hy], h2⟩
  | cons a l =>
    rw [hc] at h
    simp at h

/-- The timestamp rendering of any instant starts with the decimal UTC year
followed by a dash. -/
theorem isoFromJSDate_shape (t : Int) :
    isoFromJSDate t true = intToString (jsUTCFullYear t) ++ '-' ::
      (padStart 3 '0' (intToString (getDoy t)) ++ 'T' ::
        (padStart 2 '0' (intToString (jsUTCHours t)) ++ ':' ::
          (padStart 2 '0' (intToString (jsUTCMinutes t)) ++ ':' ::
            (padStart 2 '0' (intToString (jsUTCSeconds t)) ++
              (if true && decide (0 < jsUTCMilliseconds t) then
                '.' :: padStart 3 '0' (intToString (jsUTCMilliseconds t)) else []))))) := by
  unfold isoFromJSDate getDoyTimeComponents
  simp only [List.append_assoc, List.cons_append]

/-- A successful 4-digit-and-dash capture at the head of a text beginning
with the decimal rendering of `Y` and a dash pins the captured digits to
that rendering, so `Y` lies between 1000 and 9999. -/
theorem year_capture_bounds {Y : Int} {zs yds cs1 cs2 : List Char}
    (h1 : takeDigitsExact 4 (intToString Y ++ '-' :: zs) = some (yds, cs1))
    (h2 : expectChar '-' cs1 = some cs2) :
    (digitsToNat yds : Int) = Y ∧ 1000 ≤ Y ∧ Y ≤ 9999 := by
  obtain ⟨heq, hlen, hdig⟩ := takeDigitsExact_some 4 _ yds cs1 h1
  by_cases hY : Y < 0
  · exfalso
    have hstr : intToString Y = '-' :: natDigits (-Y).toNat := by
      unfold intToString
      rw [if_pos hY]
    rw [hstr] at heq
    cases yds with
    | nil => simp at hlen
    | cons a as =>
      simp only [List.cons_append] at heq
      injection heq with hh ht
      have hda := hdig a (by simp)
      rw [← hh] at hda
      exact absurd hda (by decide)
  · have hY0 : 0 ≤ Y := by omega
    have hstr : intToString Y = natDigits Y.toNat := by
      unfold intToString
      rw [if_neg hY]
    rw [hstr] at heq
    obtain ⟨hyds, -⟩ := digit_field_capture (by decide) (natDigits_all_digits Y.toNat)
      heq.symm hlen hdig h2
    have hne : Y.toNat ≠ 0 := by
      intro h0
      rw [h0] at hyds
      rw [hyds] at hlen
      simp [natDigits] at hlen
    have hlen2 : (natDigits Y.toNat).length = 4 := by rw [← hyds]; exact hlen
    have hb := (natDigits_length_eq_iff hne (by decide)).mp hlen2
    have hpow3 : (10 : Nat) ^ (4 - 1) = 1000 := by norm_num
    have hpow4 : (10 : Nat) ^ 4 = 10000 := by norm_num
    rw [hpow3, hpow4] at hb
    have hvval : digitsToNat yds = Y.toNat := by rw [hyds, digitsToNat_natDigits]
    refine ⟨?_, by omega, by omega⟩
    rw [hvval]
    omega

/-- Any year captured by re-parsing an `isoFromJSDate` rendering is the
four-digit UTC year of the instant, hence between 1000 and 9999. -/
theorem parsed_year_of_render {t y : Int}
    (h : yearOfParsed (parseDoyOrIsoTime (isoFromJSDate t true)) = some y) :
    1000 ≤ y ∧ y ≤ 9999 := by
  unfold parseDoyOrIsoTime at h
  cases hmo : matchIsoOrdinal (isoFromJSDate t true) with
  | some g =>
    rw [hmo] at h
    simp only [yearOfParsed] at h
    obtain ⟨cs1, cs2, _, _, _, _, _, _, _, h1, h2, _, _, _, _, _, _, _, _⟩ :=
      matchIsoOrdinal_inv hmo
    rw [isoFromJSDate_shape t] at h1
    obtain ⟨hv, hlb, hub⟩ := year_capture_bounds h1 h2
    have hy := Option.some_injective _ h
    omega
  | none =>
    rw [hmo] at h
    cases hmu : matchIsoUtc (isoFromJSDate t true) with
    | some g =>
      rw [hmu] at h
      simp only [yearOfParsed] at h
      obtain ⟨cs1, cs2, h1, h2⟩ := matchIsoUtc_inv hmu
      rw [isoFromJSDate_shape t] at h1
      obtain ⟨hv, hlb, hub⟩ := year_capture_bounds h1 h2
      have hy := Option.some_injective _ h
      omega
    | none =>
      rw [hmu] at h
      cases hdd : parseDOYDurationTime (isoFromJSDate t true) with
      | some d =>
        rw [hdd] at h
        simp [yearOfParsed] at h
      | none =>
        rw [hdd] at h
        simp [yearOfParsed] at h

/-- The year test applied by `isTimeMax` in the ordinal/civil-UTC branch. -/
def maxYearTest (yo : Option Int) : Bool :=
  match yo with
  | some y => if y ≠ 0 then decide (9999 < y) else true
  | none => true

theorem isTimeMax_ordinal_eq (time : List Char) :
    isTimeMax time .ISO_ORDINAL_TIME = .ok (maxYearTest (yearOfParsed
      (parseDoyOrIsoTime (isoFromJSDate (getUnixEpochTime time) true)))) := rfl

theorem isTimeMax_utc_eq (time : List Char) :
    isTimeMax time .ISO_8601_UTC_TIME = .ok (maxYearTest (yearOfParsed
      (parseDoyOrIsoTime (isoFromJSDate (getUnixEpochTime time) true)))) := rfl

theorem maxYearTest_core (time : List Char) :
    ((Except.ok (maxYearTest (yearOfParsed (parseDoyOrIsoTime
        (isoFromJSDate (getUnixEpochTime time) true)))) : Except (List Char) Bool) =
        .ok true ↔
      ((∃ y, yearOfParsed (parseDoyOrIsoTime
          (isoFromJSDate (getUnixEpochTime time) true)) = some y ∧ 9999 < y) ∨
        yearOfParsed (parseDoyOrIsoTime
          (isoFromJSDate (getUnixEpochTime time) true)) = none)) := by
  cases hyo : yearOfParsed (parseDoyOrIsoTime
      (isoFromJSDate (getUnixEpochTime time) true)) with
  | some y0 =>
    obtain ⟨hlb, hub⟩ := parsed_year_of_render hyo
    constructor
    · intro hL
      exfalso
      have hL2 : (Except.ok (if y0 ≠ 0 then decide (9999 < y0) else true) :
          Except (List Char) Bool) = .ok true := hL
      rw [if_pos (show y0 ≠ 0 by omega)] at hL2
      rw [decide_eq_false (show ¬ 9999 < y0 by omega)] at hL2
      simp at hL2
    · rintro (⟨y1, hy1, hgt⟩ | hnone)
      · exfalso
        have := Option.some_injective _ hy1
        omega
      · exact absurd hnone (by simp)
  | none => exact ⟨fun _ => Or.inr rfl, fun _ => rfl⟩

set_option maxHeartbeats 4000000 in
/-- C6: for the ordinal and civil-UTC time types, `isTimeMax` returns
`true` exactly when converting the time to an epoch instant and rendering
it back yields a year greater than 9999, or yields no valid year at all;
in particular it returns `true` on `"9999-365T23:59:60.999"`, whose
leap-second carry lands the round trip in year 10000. -/
theorem C6_max_year_detection (time : List Char) (ty : TimeTypes)
    (hty : ty = .ISO_ORDINAL_TIME ∨ ty = .ISO_8601_UTC_TIME) :
    (isTimeMax time ty = .ok true ↔
      ((∃ y, yearOfParsed (parseDoyOrIsoTime
          (isoFromJSDate (getUnixEpochTime time) true)) = some y ∧ 9999 < y) ∨
        yearOfParsed (parseDoyOrIsoTime
          (isoFromJSDate (getUnixEpochTime time) true)) = none)) ∧
    isTimeMax ("9999-365T23:59:60.999".data) .ISO_ORDINAL_TIME = .ok true := by
  constructor
  · rcases hty with rfl | rfl
    · rw [isTimeMax_ordinal_eq]
      exact maxYearTest_core time
    · rw [isTimeMax_utc_eq]
      exact maxYearTest_core time
  · decide

theorem C6_witness :
    (isTimeMax ("9999-365T23:59:60.999".data) .ISO_ORDINAL_TIME = .ok true ↔
      ((∃ y, yearOfParsed (parseDoyOrIsoTime
          (isoFromJSDate (getUnixEpochTime ("9999-365T23:59:60.999".data)) true)) =
            some y ∧ 9999 < y) ∨
        yearOfParsed (parseDoyOrIsoTime
          (isoFromJSDate (getUnixEpochTime ("9999-365T23:59:60.999".data)) true)) =
            none)) ∧
    isTimeMax ("9999-365T23:59:60.999".data) .ISO_ORDINAL_TIME = .ok true :=
  C6_max_year_detection ("9999-365T23:59:60.999".data) .ISO_ORDINAL_TIME (Or.inl rfl)

/-! ### Character inventories and day-of-year facts for the balancing path -/

theorem no_T_append {xs ys : List Char} (hx : ∀ c ∈ xs, c ≠ 'T')
    (hy : ∀ c ∈ ys, c ≠ 'T') : ∀ c ∈ xs ++ ys, c ≠ 'T' := by
  intro c hc
  rcases List.mem_append.mp hc with h | h
  · exact hx c h
  · exact hy c h

theorem no_T_cons {c0 : Char} {xs : List Char} (h0 : c0 ≠ 'T')
    (hx : ∀ c ∈ xs, c ≠ 'T') : ∀ c ∈ c0 :: xs, c ≠ 'T' := by
  intro c hc
  rcases List.mem_cons.mp hc with rfl | h
  · exact h0
  · exact hx c h

theorem ne_T_of_digit {c : Char} (h : isDigitB c = true) : c ≠ 'T' := by
  intro he
  rw [he] at h
  exact absurd h (by decide)

theorem intToString_no_T (i : Int) : ∀ c ∈ intToString i, c ≠ 'T' := by
  unfold intToString
  split
  · exact no_T_cons (by decide) (fun c hc => ne_T_of_digit (natDigits_all_digits _ c hc))
  · exact fun c hc => ne_T_of_digit (natDigits_all_digits _ c hc)

theorem padStart_no_T {k : Nat} {s : List Char} (hs : ∀ c ∈ s, c ≠ 'T') :
    ∀ c ∈ padStart k '0' s, c ≠ 'T' := by
  intro c hc
  unfold padStart at hc
  rcases List.mem_append.mp hc with h | h
  · rw [List.eq_of_mem_replicate h]
    decide
  · exact hs c h

theorem ratToString_no_T (q : ℚ) : ∀ c ∈ ratToString q, c ≠ 'T' := by
  unfold ratToString
  split
  · exact intToString_no_T _
  · dsimp only
    refine no_T_append (no_T_append ?_ ?_) (no_T_cons (by decide) ?_)
    · split
      · intro c hc
        rw [List.mem_singleton.mp hc]
        decide
      · intro c hc
        simp at hc
    · exact fun c hc => ne_T_of_digit (natDigits_all_digits _ c hc)
    · split
      · intro c hc
        rw [List.mem_singleton.mp hc]
        decide
      · intro c hc
        unfold fracTrim at hc
        exact ne_T_of_digit (padStart_all_digits (natDigits_all_digits _) c
          (List.mem_reverse.mp ((List.dropWhile_sublist _).subset
            (List.mem_reverse.mp hc))))

theorem monthStart_zero (l : Bool) : monthStart l 0 = 0 := by
  cases l <;> decide

theorem dateUTC_year_start (y : Int) :
    dateUTC y 0 0 0 0 0 0 = (dayFromYear (remapYear y) - 1) * 86400000 := by
  simp only [dateUTC]
  norm_num [monthStart_zero]
  ring

/-- Outside the two-digit remap region, the 1-based day-of-year of an
instant is at least 1. -/
theorem getDoy_lower_of_not_remap {t : Int}
    (h : ¬(0 ≤ jsUTCFullYear t ∧ jsUTCFullYear t ≤ 99)) : 1 ≤ getDoy t := by
  obtain ⟨h1, h2⟩ := yearFromDay_spec (dayOfInstant t)
  have hstart := dateUTC_year_start (jsUTCFullYear t)
  rw [show remapYear (jsUTCFullYear t) = jsUTCFullYear t from by
    unfold remapYear; rw [if_neg h]] at hstart
  simp only [getDoy]
  rw [hstart]
  simp only [jsUTCFullYear, dayOfInstant] at h1 h2 ⊢
  omega

/-- Inside the remap region (`getUTCFullYear` between 0 and 99), the
`Date.UTC` year-start lands in the 1900s, far after the instant, and the
day-of-year is negative. -/
theorem getDoy_neg_of_remap {t : Int}
    (h : 0 ≤ jsUTCFullYear t ∧ jsUTCFullYear t ≤ 99) : getDoy t < 0 := by
  obtain ⟨h1, h2⟩ := yearFromDay_spec (dayOfInstant t)
  have hstart := dateUTC_year_start (jsUTCFullYear t)
  rw [show remapYear (jsUTCFullYear t) = jsUTCFullYear t + 1900 from by
    unfold remapYear; rw [if_pos h]] at hstart
  have e1 : dayFromYear (jsUTCFullYear t + 1) ≤ dayFromYear 100 :=
    dayFromYear_mono (by omega)
  have e2 : dayFromYear 1900 ≤ dayFromYear (jsUTCFullYear t + 1900) :=
    dayFromYear_mono (by omega)
  have e3 : dayFromYear 100 + 1 ≤ dayFromYear 1900 - 1 := by
    unfold dayFromYear; omega
  simp only [getDoy]
  rw [hstart]
  simp only [jsUTCFullYear, dayOfInstant] at h1 h2 e1 e2 ⊢
  omega

/-- After a successful year-and-dash capture the remaining text is exactly
the part after the dash. -/
theorem year_capture_full {Y : Int} {zs yds cs1 cs2 : List Char}
    (h1 : takeDigitsExact 4 (intToString Y ++ '-' :: zs) = some (yds, cs1))
    (h2 : expectChar '-' cs1 = some cs2) : cs2 = zs := by
  obtain ⟨heq, hlen, hdig⟩ := takeDigitsExact_some 4 _ yds cs1 h1
  by_cases hY : Y < 0
  · exfalso
    have hstr : intToString Y = '-' :: natDigits (-Y).toNat := by
      unfold intToString
      rw [if_pos hY]
    rw [hstr] at heq
    cases yds with
    | nil => simp at hlen
    | cons a as =>
      simp only [List.cons_append] at heq
      injection heq with hh ht
      have hda := hdig a (by simp)
      rw [← hh] at hda
      exact absurd hda (by decide)
  · have hstr : intToString Y = natDigits Y.toNat := by
      unfold intToString
      rw [if_neg hY]
    rw [hstr] at heq
    exact (digit_field_capture (by decide) (natDigits_all_digits Y.toNat)
      heq.symm hlen hdig h2).2

/-- Inversion of a day-of-year-shaped `parseDoyOrIsoTime` result. -/
theorem parseDoyOrIsoTime_doy_inv {s : List Char} {b : ParsedDoyString}
    (h : parseDoyOrIsoTime s = some (.doy b)) :
    ∃ g, matchIsoOrdinal s = some g ∧ b.doy = (digitsToNat g.doy : Int) := by
  unfold parseDoyOrIsoTime at h
  cases hmo : matchIsoOrdinal s with
  | some g =>
    rw [hmo] at h
    have h2 := Option.some_injective _ h
    injection h2 with hb
    exact ⟨g, rfl, by rw [← hb]⟩
  | none =>
    rw [hmo] at h
    cases hmu : matchIsoUtc s with
    | some g2 =>
      rw [hmu] at h
      have h2 := Option.some_injective _ h
      exact absurd h2 (by simp)
    | none =>
      rw [hmu] at h
      cases hdd : parseDOYDurationTime s with
      | some d =>
        rw [hdd] at h
        have h2 := Option.some_injective _ h
        exact absurd h2 (by simp)
      | none =>
        rw [hdd] at h
        exact absurd h (by simp)

theorem mem_take_three {p : Nat} (hp : p ≤ 1) (w : List Char) :
    '-' ∈ (List.replicate p '0' ++ '-' :: w).take 3 := by
  interval_cases p
  · simp [List.take_succ_cons]
  · simp [List.replicate, List.take_succ_cons]

/-- A day-of-year-shaped re-parse of an `isoFromJSDate` rendering captures
exactly the (nonnegative, three-digit-padded) `getDoy` value, which is then
at least 1. -/
theorem render_reparse_doy {t : Int} {b : ParsedDoyString}
    (h : parseDoyOrIsoTime (isoFromJSDate t true) = some (.doy b)) :
    b.doy = getDoy t ∧ 1 ≤ b.doy := by
  obtain ⟨g, hmo, hbd⟩ := parseDoyOrIsoTime_doy_inv h
  obtain ⟨cs1, cs2, cs3, cs4, _, _, _, _, _, h1, h2, h3, h4, _, _, _, _, _, _⟩ :=
    matchIsoOrdinal_inv hmo
  rw [isoFromJSDate_shape t] at h1
  have hcs2 := year_capture_full h1 h2
  obtain ⟨heq3, hlen3, hdig3⟩ := takeDigitsExact_some 3 cs2 g.doy cs3 h3
  by_cases hdneg : getDoy t < 0
  · exfalso
    have hstr : intToString (getDoy t) = '-' :: natDigits (-(getDoy t)).toNat := by
      unfold intToString
      rw [if_pos hdneg]
    rw [hstr] at hcs2
    have hndlen : 1 ≤ (natDigits (-(getDoy t)).toNat).length :=
      List.length_pos.mpr (natDigits_ne_nil _)
    have hg3 : g.doy = cs2.take 3 := by
      rw [heq3, ← hlen3, List.take_left]
    have hXeq : cs2 =
        List.replicate (3 - ((natDigits (-(getDoy t)).toNat).length + 1)) '0' ++
          '-' :: (natDigits (-(getDoy t)).toNat ++ 'T' ::
            (padStart 2 '0' (intToString (jsUTCHours t)) ++ ':' ::
              (padStart 2 '0' (intToString (jsUTCMinutes t)) ++ ':' ::
                (padStart 2 '0' (intToString (jsUTCSeconds t)) ++
                  (if true && decide (0 < jsUTCMilliseconds t) then
                    '.' :: padStart 3 '0' (intToString (jsUTCMilliseconds t))
                  else []))))) := by
      rw [hcs2]
      simp [padStart, List.append_assoc]
    have hmem : '-' ∈ cs2.take 3 := by
      rw [hXeq]
      exact mem_take_three (by omega) _
    rw [← hg3] at hmem
    exact absurd (hdig3 '-' hmem) (by decide)
  · have hd0 : ¬ getDoy t < 0 := hdneg
    have hstr : intToString (getDoy t) = natDigits (getDoy t).toNat := by
      unfold intToString
      rw [if_neg hd0]
    rw [hstr] at hcs2
    rw [hcs2] at heq3
    have hys : ∀ c ∈ padStart 3 '0' (natDigits (getDoy t).toNat), isDigitB c = true :=
      padStart_all_digits (natDigits_all_digits _)
    obtain ⟨hdoys, -⟩ := digit_field_capture (by decide) hys heq3.symm hlen3 hdig3 h4
    have hv : digitsToNat g.doy = (getDoy t).toNat := by
      rw [hdoys, digitsToNat_padStart, digitsToNat_natDigits]
    have hpos : 1 ≤ getDoy t := by
      by_cases hrem : 0 ≤ jsUTCFullYear t ∧ jsUTCFullYear t ≤ 99
      · exact absurd (getDoy_neg_of_remap hrem) hd0
      · exact getDoy_lower_of_not_remap hrem
    constructor
    · rw [hbd, hv]
      omega
    · rw [hbd, hv]
      omega

/-- C8: for an input that `getBalancedDuration` accepts through its
duration branch (the re-parse of the balanced rendering being day-of-year
shaped), the output omits the leading `DDDT` day segment exactly when the
parsed input duration had no positive day component and the balanced
result's day-of-year is 1; otherwise a `'T'`-terminated day segment is
present.  "Omits the day segment" is stated as the absence of the
character `'T'` from the output, which occurs nowhere else in it. -/
theorem C8_day_segment (duration out : List Char) (pd : ParsedDurationString)
    (b : ParsedDoyString)
    (h1 : parseDurationString duration .seconds = .ok (.dur pd))
    (h2 : parseDoyOrIsoTime
      (isoFromJSDate (getUnixEpochTime (convertDurationToDoy pd)) true) = some (.doy b))
    (h3 : getBalancedDuration duration = some out) :
    'T' ∉ out ↔ (¬ 0 < pd.days ∧ b.doy = 1) := by
  obtain ⟨hbdoy, hdoy1⟩ := render_reparse_doy h2
  have hout := h3
  unfold getBalancedDuration at hout
  rw [h1] at hout
  dsimp only at hout
  rw [h2] at hout
  dsimp only at hout
  have hout2 := (Option.some_injective _ hout).symm
  by_cases hsd : (decide (0 < pd.days) || decide (1 < b.doy)) = true
  · have hTmem : 'T' ∈ out := by
      rw [hout2]
      rw [if_pos hsd]
      simp [List.mem_append]
    have hR : ¬(¬ 0 < pd.days ∧ b.doy = 1) := by
      simp only [Bool.or_eq_true, decide_eq_true_eq] at hsd
      rcases hsd with hd | hd
      · rintro ⟨hnd, -⟩
        exact hnd hd
      · rintro ⟨-, he⟩
        omega
    exact iff_of_false (fun hn => hn hTmem) hR
  · have hnoT : ∀ c ∈ out, c ≠ 'T' := by
      rw [hout2]
      rw [if_neg hsd]
      refine no_T_append (no_T_append (no_T_append (no_T_append (no_T_append
        ?_ ?_) ?_) ?_) ?_) ?_
      · split
        · intro c hc
          rw [List.mem_singleton.mp hc]
          decide
        · intro c hc
          simp at hc
      · intro c hc
        simp at hc
      · exact padStart_no_T (intToString_no_T _)
      · exact no_T_cons (by decide) (padStart_no_T (intToString_no_T _))
      · exact no_T_cons (by decide) (padStart_no_T (intToString_no_T _))
      · exact no_T_cons (by decide) (padStart_no_T (ratToString_no_T _))
    have hparts : ¬ 0 < pd.days ∧ ¬ 1 < b.doy := by
      simp only [Bool.or_eq_true, decide_eq_true_eq] at hsd
      push_neg at hsd
      exact ⟨not_lt.mpr hsd.1, not_lt.mpr hsd.2⟩
    exact iff_of_true (fun hmem => hnoT 'T' hmem rfl) ⟨hparts.1, by omega⟩

theorem C8_witness :
    'T' ∉ ("10:00:00.000".data) ↔
      (¬ 0 < ({ days := 0, hours := 10, isNegative := false, microseconds := 0,
                milliseconds := 0, minutes := 0, seconds := 0,
                years := 0 } : ParsedDurationString).days ∧
        ({ year := 1970, doy := 1, hour := 10, min := 0, sec := 0, ms := 0,
           time := "10:00:00".data } : ParsedDoyString).doy = 1) :=
  C8_day_segment ("10:00:00".data) ("10:00:00.000".data)
    { days := 0, hours := 10, isNegative := false, microseconds := 0,
      milliseconds := 0, minutes := 0, seconds := 0, years := 0 }
    { year := 1970, doy := 1, hour := 10, min := 0, sec := 0, ms := 0,
      time := "10:00:00".data }
    (by decide) (by decide) (by decide)

/-! ### Evaluation lemmas for the free-form duration grammar -/

theorem digit_ne {c x : Char} (h : isDigitB c = true) (hx : isDigitB x = false) : c ≠ x := by
  intro he
  rw [he] at h
  exact Bool.noConfusion (hx.symm.trans h)

theorem digit_not_space {c : Char} (h : isDigitB c = true) : isJsSpace c = false := by
  unfold isDigitB at h
  unfold isJsSpace
  simp only [Bool.and_eq_true, decide_eq_true_eq] at h
  simp only [List.mem_cons, List.not_mem_nil, or_false, decide_eq_false_iff_not]
  push_neg
  omega

theorem takeSign_cons_of_ne {c : Char} {cs : List Char} (h1 : c ≠ '+') (h2 : c ≠ '-') :
    takeSign (c :: cs) = (none, c :: cs) := by
  unfold takeSign
  split
  · rename_i r heq
    injection heq with e1 e2
    exact absurd e1 h1
  · rename_i r heq
    injection heq with e1 e2
    exact absurd e1 h2
  · rfl

theorem skipSpaces_cons_nospace {c : Char} {cs : List Char} (h : isJsSpace c = false) :
    skipSpaces (c :: cs) = c :: cs := by
  unfold skipSpaces
  rw [List.dropWhile_cons, h]
  simp

theorem skipSpaces_cons_space (cs : List Char) : skipSpaces (' ' :: cs) = skipSpaces cs := by
  unfold skipSpaces
  rw [List.dropWhile_cons]
  simp [show isJsSpace ' ' = true from by decide]

theorem skipSpaces_digits_append (v : Nat) (X : List Char) :
    skipSpaces (natDigits v ++ X) = natDigits v ++ X := by
  cases hc : natDigits v with
  | nil => exact absurd hc (natDigits_ne_nil v)
  | cons c0 cs0 =>
    have hd0 : isDigitB c0 = true := natDigits_all_digits v c0 (by rw [hc]; simp)
    rw [List.cons_append]
    exact skipSpaces_cons_nospace (digit_not_space hd0)

theorem startsL_self_append : ∀ (p X : List Char), startsL p (p ++ X) = true := by
  intro p
  induction p with
  | nil => intro X; rfl
  | cons a ps ih =>
    intro X
    show (a == a && startsL ps (ps ++ X)) = true
    simp [ih]

theorem startsL_head_ne {a b : Char} (p cs : List Char) (h : a ≠ b) :
    startsL (a :: p) (b :: cs) = false := by
  show (a == b && startsL p cs) = false
  simp [h]

/-- `lexNumTok` on an unsigned integral rendering followed by a non-digit,
non-dot continuation. -/
theorem lexNumTok_render {v : Nat} {X : List Char}
    (hX : ∀ c, X.head? = some c → isDigitB c = false ∧ c ≠ '.') :
    lexNumTok (natDigits v ++ X) =
      some ({ sign := none, intPart := natDigits v, frac := none }, X) := by
  obtain ⟨c0, cs0, hc⟩ : ∃ c0 cs0, natDigits v = c0 :: cs0 := by
    cases hnd : natDigits v with
    | nil => exact absurd hnd (natDigits_ne_nil v)
    | cons a l => exact ⟨a, l, rfl⟩
  have hd0 : isDigitB c0 = true := natDigits_all_digits v c0 (by rw [hc]; simp)
  unfold lexNumTok
  rw [hc, List.cons_append,
    takeSign_cons_of_ne (digit_ne hd0 (by decide)) (digit_ne hd0 (by decide))]
  dsimp only
  rw [← List.cons_append, ← hc,
    takeDigitsPlus_all (natDigits_ne_nil v) (natDigits_all_digits v)
      (fun c h => (hX c h).1)]
  dsimp only
  cases X with
  | nil => rfl
  | cons x xs =>
    have hx := hX x rfl
    split
    · rename_i r2 heq
      injection heq with e1 e2
      exact absurd e1 hx.2
    · rfl

theorem tryUnit_nil (sfx : List Char) (noS : Bool) : tryUnit sfx noS [] = (0, []) := rfl

theorem tryUnit_skip_false {sfx : List Char} {noS : Bool} {cs : List Char} {t : NumTok}
    {rest : List Char}
    (hlex : lexNumTok (skipSpaces cs) = some (t, rest))
    (hst : startsL sfx rest = false) :
    tryUnit sfx noS cs = (0, cs) := by
  unfold tryUnit
  rw [hlex]
  dsimp only
  rw [hst]
  simp

theorem tryUnit_skip_lookahead {sfx : List Char} {cs : List Char} {t : NumTok}
    {rest r : List Char}
    (hlex : lexNumTok (skipSpaces cs) = some (t, rest))
    (hst : startsL sfx rest = true)
    (hdrop : rest.drop sfx.length = 's' :: r) :
    tryUnit sfx true cs = (0, cs) := by
  unfold tryUnit
  rw [hlex]
  dsimp only
  rw [hst, hdrop]
  simp

theorem tryUnit_consume_gen {sfx : List Char} {noS : Bool} {v : Nat} {X cs : List Char}
    (hlex : lexNumTok (skipSpaces cs) =
      some ({ sign := none, intPart := natDigits v, frac := none }, sfx ++ X))
    (hX : X = [] ∨ ∃ Y, X = ' ' :: Y) :
    tryUnit sfx noS cs = ((v : ℚ), X) := by
  unfold tryUnit
  rw [hlex]
  dsimp only
  rw [startsL_self_append, List.drop_left]
  cases noS with
  | false => simp [numTokVal, digitsToNat_natDigits]
  | true =>
    rcases hX with rfl | ⟨Y, rfl⟩
    · simp [numTokVal, digitsToNat_natDigits]
    · simp [numTokVal, digitsToNat_natDigits]

/-- Space-joined rendering of the nonzero entries of a value list against a
suffix list (the shape produced by `usToDurationString` without zeros). -/
def joinNZ : List (List Char) → List Nat → List Char
  | sfx :: sfxs, v :: vs =>
    if v = 0 then joinNZ sfxs vs
    else natDigits v ++ (sfx ++
      (if joinNZ sfxs vs = [] then [] else ' ' :: joinNZ sfxs vs))
  | _, _ => []

/-- A nonempty `joinNZ` rendering starts with the digits of its first
nonzero value, its suffix, and an empty or space-led tail. -/
theorem joinNZ_struct : ∀ (sfxs : List (List Char)) (vs : List Nat),
    joinNZ sfxs vs = [] ∨
    ∃ v' sfx' X, v' ≠ 0 ∧ sfx' ∈ sfxs ∧
      joinNZ sfxs vs = natDigits v' ++ (sfx' ++ X) ∧ (X = [] ∨ ∃ Y, X = ' ' :: Y) := by
  intro sfxs
  induction sfxs with
  | nil => intro vs; left; cases vs <;> rfl
  | cons sfx sfxs ih =>
    intro vs
    cases vs with
    | nil => left; rfl
    | cons v vs =>
      by_cases hv : v = 0
      · subst hv
        rcases ih vs with hnil | ⟨v', sfx', X, h1, h2, h3, h4⟩
        · left
          simpa [joinNZ] using hnil
        · right
          exact ⟨v', sfx', X, h1, List.mem_cons_of_mem _ h2, by simpa [joinNZ] using h3, h4⟩
      · right
        refine ⟨v, sfx, if joinNZ sfxs vs = [] then [] else ' ' :: joinNZ sfxs vs,
          hv, List.mem_cons_self _ _, by simp [joinNZ, hv], ?_⟩
        split
        · exact Or.inl rfl
        · exact Or.inr ⟨joinNZ sfxs vs, rfl⟩

/-- Well-formedness of a unit suffix: nonempty, and its first character is
not a digit, dot, sign, or whitespace. -/
def sfxOK (sfx : List Char) : Bool :=
  match sfx with
  | c :: _ => !isDigitB c && !(c == '.') && !(c == '+') && !(c == '-') && !isJsSpace c
  | [] => false

/-- A later suffix cannot be mistaken for an earlier one: either the first
characters differ, or the earlier group is `m` with the `(?!s)` lookahead
and the later is `ms`. -/
def pairOK (sfx : List Char) (noS : Bool) (sfx' : List Char) : Bool :=
  match sfx, sfx' with
  | a :: _, b :: _ => !(a == b) || (noS && sfx == ['m'] && sfx' == ['m', 's'])
  | _, _ => false

/-- Accumulated well-formedness of a spec list. -/
def goodB : List (List Char × Bool) → Bool
  | [] => true
  | (sfx, noS) :: specs =>
    sfxOK sfx && specs.all (fun p => pairOK sfx noS p.1) && goodB specs

theorem goodB_mem_sfxOK : ∀ (specs : List (List Char × Bool)),
    goodB specs = true → ∀ p ∈ specs, sfxOK p.1 = true := by
  intro specs
  induction specs with
  | nil => intro _ p hp; simp at hp
  | cons q specs ih =>
    intro hg p hp
    obtain ⟨sfx, noS⟩ := q
    simp only [goodB, Bool.and_eq_true] at hg
    rcases List.mem_cons.mp hp with rfl | hp2
    · exact hg.1.1
    · exact ih hg.2 p hp2

/-- Running the unit groups over the rendering of their own values consumes
it exactly and returns the values; a single leading space is also
tolerated when the rendering is nonempty. -/
theorem runUnits_joinNZ : ∀ (specs : List (List Char × Bool)) (vs : List Nat),
    vs.length = specs.length → goodB specs = true →
    runUnits specs (joinNZ (specs.map Prod.fst) vs) =
      (vs.map (fun (v : Nat) => (v : ℚ)), []) ∧
    (joinNZ (specs.map Prod.fst) vs ≠ [] →
      runUnits specs (' ' :: joinNZ (specs.map Prod.fst) vs) =
        (vs.map (fun (v : Nat) => (v : ℚ)), [])) := by
  intro specs
  induction specs with
  | nil =>
    intro vs hlen hg
    have hvs : vs = [] := List.length_eq_zero.mp (by simpa using hlen)
    subst hvs
    exact ⟨rfl, fun h => absurd rfl h⟩
  | cons spec specs ih =>
    intro vs hlen hg
    obtain ⟨sfx, noS⟩ := spec
    cases vs with
    | nil => simp at hlen
    | cons v vs =>
      have hlen' : vs.length = specs.length := by simpa using hlen
      simp only [goodB, Bool.and_eq_true] at hg
      obtain ⟨⟨hsfx, hpairs⟩, hg'⟩ := hg
      obtain ⟨ihA, ihB⟩ := ih vs hlen' hg'
      obtain ⟨a, p, hsfxc⟩ : ∃ a p, sfx = a :: p := by
        cases hs : sfx with
        | nil => rw [hs] at hsfx; exact absurd hsfx (by decide)
        | cons a p => exact ⟨a, p, rfl⟩
      by_cases hv : v = 0
      · subst hv
        have hJ : joinNZ ((sfx :: specs.map Prod.fst)) (0 :: vs) =
            joinNZ (specs.map Prod.fst) vs := by
          simp [joinNZ]
        have hskipgen : ∀ T₀ : List Char,
            skipSpaces T₀ = joinNZ (specs.map Prod.fst) vs →
            tryUnit sfx noS T₀ = (0, T₀) := by
          intro T₀ hT₀
          rcases joinNZ_struct (specs.map Prod.fst) vs with hnil | hstruct
          · rw [hnil] at hT₀
            have hlexn : lexNumTok (skipSpaces T₀) = none := by rw [hT₀]; rfl
            unfold tryUnit
            rw [hlexn]
          · obtain ⟨v', sfx', X, hv', hmem, hJeq, hX⟩ := hstruct
            obtain ⟨b, q, hsfxc'⟩ : ∃ b q, sfx' = b :: q := by
              obtain ⟨⟨sfx'', noS''⟩, hmem', hfst⟩ := List.mem_map.mp hmem
              have hsok := goodB_mem_sfxOK specs hg' _ hmem'
              rw [hfst] at hsok
              cases hs : sfx' with
              | nil => rw [hs] at hsok; exact absurd hsok (by decide)
              | cons b q => exact ⟨b, q, rfl⟩
            have hXhead : ∀ c, (sfx' ++ X).head? = some c →
                isDigitB c = false ∧ c ≠ '.' := by
              intro c hc
              obtain ⟨⟨sfx'', noS''⟩, hmem', hfst⟩ := List.mem_map.mp hmem
              have hsok := goodB_mem_sfxOK specs hg' _ hmem'
              rw [hfst] at hsok
              rw [hsfxc'] at hc hsok
              simp only [List.cons_append, List.head?_cons, Option.some_inj] at hc
              subst hc
              unfold sfxOK at hsok
              simp only [Bool.and_eq_true, Bool.not_eq_true', beq_eq_false_iff_ne] at hsok
              exact ⟨hsok.1.1.1.1, hsok.1.1.1.2⟩
            have hlex : lexNumTok (skipSpaces T₀) =
                some ({ sign := none, intPart := natDigits v', frac := none }, sfx' ++ X) := by
              rw [hT₀, hJeq]
              exact lexNumTok_render hXhead
            have hpair : pairOK sfx noS sfx' = true := by
              obtain ⟨⟨sfx'', noS''⟩, hmem', hfst⟩ := List.mem_map.mp hmem
              have := List.all_eq_true.mp hpairs ⟨sfx'', noS''⟩ hmem'
              rw [← hfst]
              exact this
            rw [hsfxc, hsfxc'] at hpair
            unfold pairOK at hpair
            simp only [Bool.or_eq_true, Bool.not_eq_true', beq_eq_false_iff_ne,
              Bool.and_eq_true, beq_iff_eq] at hpair
            rcases hpair with hne | ⟨⟨hnoS, hm⟩, hms⟩
            · refine tryUnit_skip_false hlex ?_
              rw [hsfxc, hsfxc', List.cons_append]
              exact startsL_head_ne _ _ hne
            · subst hnoS
              injection hm with hm1 hm2
              injection hms with hms1 hms2
              subst hm1
              subst hm2
              subst hms1
              subst hms2
              refine tryUnit_skip_lookahead (r := X) hlex ?_ ?_
              · rw [hsfxc, hsfxc', List.cons_append]
                simp [startsL]
              · rw [hsfxc, hsfxc']
                rfl
        constructor
        · simp only [List.map_cons]
          rw [hJ]
          simp only [runUnits]
          rcases joinNZ_struct (specs.map Prod.fst) vs with hnil | hstruct
          · rw [hnil, tryUnit_nil]
            rw [hnil] at ihA
            rw [ihA]
            simp
          · obtain ⟨v', sfx', X, hv', hmem, hJeq, hX⟩ := hstruct
            rw [hskipgen _ (by rw [hJeq]; exact skipSpaces_digits_append v' (sfx' ++ X))]
            rw [ihA]
            simp
        · intro hne
          simp only [List.map_cons] at hne ⊢
          rw [hJ] at hne ⊢
          simp only [runUnits]
          rw [hskipgen _ (by
            rw [skipSpaces_cons_space]
            rcases joinNZ_struct (specs.map Prod.fst) vs with hnil | hstruct
            · exact absurd hnil hne
            · obtain ⟨v', sfx', X, hv', hmem, hJeq, hX⟩ := hstruct
              rw [hJeq]
              exact skipSpaces_digits_append v' (sfx' ++ X))]
          rw [ihB hne]
          simp
      · have hsfx' := hsfx
        rw [hsfxc] at hsfx'
        unfold sfxOK at hsfx'
        simp only [Bool.and_eq_true, Bool.not_eq_true', beq_eq_false_iff_ne] at hsfx'
        have hJ : joinNZ ((sfx :: specs.map Prod.fst)) (v :: vs) =
            natDigits v ++ (sfx ++
              (if joinNZ (specs.map Prod.fst) vs = [] then []
               else ' ' :: joinNZ (specs.map Prod.fst) vs)) := by
          simp [joinNZ, hv]
        have hXtail : (if joinNZ (specs.map Prod.fst) vs = [] then []
            else ' ' :: joinNZ (specs.map Prod.fst) vs) = [] ∨
            ∃ Y, (if joinNZ (specs.map Prod.fst) vs = [] then []
              else ' ' :: joinNZ (specs.map Prod.fst) vs) = ' ' :: Y := by
          split
          · exact Or.inl rfl
          · exact Or.inr ⟨joinNZ (specs.map Prod.fst) vs, rfl⟩
        have hconsume : ∀ T₀ : List Char,
            skipSpaces T₀ = joinNZ (sfx :: specs.map Prod.fst) (v :: vs) →
            tryUnit sfx noS T₀ = ((v : ℚ),
              if joinNZ (specs.map Prod.fst) vs = [] then []
              else ' ' :: joinNZ (specs.map Prod.fst) vs) := by
          intro T₀ hT₀
          refine tryUnit_consume_gen ?_ hXtail
          rw [hT₀, hJ]
          refine lexNumTok_render ?_
          intro c hc
          rw [hsfxc] at hc
          simp only [List.cons_append, List.head?_cons, Option.some_inj] at hc
          subst hc
          exact ⟨hsfx'.1.1.1.1, hsfx'.1.1.1.2⟩
        have hrest : runUnits specs
            (if joinNZ (specs.map Prod.fst) vs = [] then []
             else ' ' :: joinNZ (specs.map Prod.fst) vs) =
            (vs.map (fun (v : Nat) => (v : ℚ)), []) := by
          split
          · rename_i hnil
            rw [hnil] at ihA
            exact ihA
          · rename_i hne
            exact ihB hne
        constructor
        · simp only [List.map_cons]
          simp only [runUnits]
          rw [hconsume _ (by rw [hJ]; exact skipSpaces_digits_append v _)]
          rw [hrest]
        · intro hne
          simp only [List.map_cons]
          simp only [runUnits]
          rw [hconsume _ (by
            rw [skipSpaces_cons_space, hJ]
            exact skipSpaces_digits_append v _)]
          rw [hrest]

theorem intercalate_cons_ne (sep a : List Char) (l : List (List Char)) :
    List.intercalate sep (a :: l) =
      a ++ (if l.isEmpty then [] else sep ++ List.intercalate sep l) := by
  cases l with
  | nil => simp [List.intercalate]
  | cons b t =>
    simp [List.intercalate, List.intersperse_cons₂, List.append_assoc]

theorem joinSp_eq_nil_iff (ps : List (List Char)) :
    joinSp ps = [] ↔ ps.filter (fun s => !s.isEmpty) = [] := by
  unfold joinSp
  cases hf : ps.filter (fun s => !s.isEmpty) with
  | nil => simp [List.intercalate]
  | cons q t =>
    have hq : q ≠ [] := by
      have hmem : q ∈ ps.filter (fun s => !s.isEmpty) := by rw [hf]; simp
      have := (List.mem_filter.mp hmem).2
      simpa using this
    rw [intercalate_cons_ne]
    constructor
    · intro hcon
      exact absurd (List.append_eq_nil.mp hcon).1 hq
    · intro hcon
      exact absurd hcon (by simp)

theorem joinSp_cons (p : List Char) (ps : List (List Char)) :
    joinSp (p :: ps) = if p = [] then joinSp ps
      else p ++ (if joinSp ps = [] then [] else ' ' :: joinSp ps) := by
  by_cases hp : p = []
  · rw [if_pos hp]
    unfold joinSp
    rw [List.filter_cons, if_neg (by simp [hp])]
  · rw [if_neg hp]
    show List.intercalate [' '] ((p :: ps).filter (fun s => !s.isEmpty)) = _
    rw [List.filter_cons, if_pos (by simpa using hp), intercalate_cons_ne]
    by_cases hrest : joinSp ps = []
    · rw [if_pos hrest, if_pos (by
        rw [joinSp_eq_nil_iff] at hrest
        simp [hrest])]
    · rw [if_neg hrest, if_neg (by
        rw [joinSp_eq_nil_iff] at hrest
        simpa using hrest)]
      rfl

/-- The rendered piece list of `usToDurationString` matches `joinNZ` on the
corresponding suffix/value lists. -/
theorem joinSp_eq_joinNZ : ∀ (ps : List (Int × List Char)),
    (∀ p ∈ ps, 0 ≤ p.1) → (∀ p ∈ ps, p.2 ≠ []) →
    joinSp (ps.map (fun p => if p.1 ≠ 0 then intToString p.1 ++ p.2 else [])) =
      joinNZ (ps.map Prod.snd) (ps.map (fun p => p.1.toNat)) := by
  intro ps
  induction ps with
  | nil => intro _ _; rfl
  | cons pr ps ih =>
    intro hnn hne
    obtain ⟨x, sfx⟩ := pr
    have hx : (0 : Int) ≤ x := hnn (x, sfx) (List.mem_cons_self _ _)
    have hsfx : sfx ≠ [] := hne (x, sfx) (List.mem_cons_self _ _)
    have ih' := ih (fun p hp => hnn p (List.mem_cons_of_mem _ hp))
      (fun p hp => hne p (List.mem_cons_of_mem _ hp))
    simp only [List.map_cons]
    rw [joinSp_cons]
    by_cases h0 : x = 0
    · subst h0
      have hpiece : (if (0 : Int) ≠ 0 then intToString 0 ++ sfx else []) = [] := by simp
      rw [hpiece, if_pos rfl, ih']
      simp [joinNZ]
    · have hxall : Int.toNat x ≠ 0 := by omega
      have hpiece : (if x ≠ 0 then intToString x ++ sfx else []) =
          natDigits x.toNat ++ sfx := by
        rw [if_pos h0]
        congr 1
        unfold intToString
        rw [if_neg (by omega)]
      rw [hpiece]
      rw [if_neg (fun hcon => hsfx (List.append_eq_nil.mp hcon).2)]
      rw [ih']
      rw [show joinNZ (sfx :: List.map Prod.snd ps)
          (x.toNat :: List.map (fun p => p.1.toNat) ps) =
          natDigits x.toNat ++ (sfx ++
            (if joinNZ (List.map Prod.snd ps) (List.map (fun p => p.1.toNat) ps) = []
             then [] else ' ' :: joinNZ (List.map Prod.snd ps)
               (List.map (fun p => p.1.toNat) ps))) from by simp [joinNZ, hxall]]
      rw [List.append_assoc]

theorem joinNZ_nil_all_zero : ∀ (sfxs : List (List Char)) (vs : List Nat),
    vs.length ≤ sfxs.length → joinNZ sfxs vs = [] → ∀ v ∈ vs, v = 0 := by
  intro sfxs
  induction sfxs with
  | nil =>
    intro vs hlen _ v hv
    cases vs with
    | nil => simp at hv
    | cons a l => simp at hlen
  | cons sfx sfxs ih =>
    intro vs hlen hnil v hv
    cases vs with
    | nil => simp at hv
    | cons v0 vs =>
      by_cases hv0 : v0 = 0
      · subst hv0
        rcases List.mem_cons.mp hv with rfl | hv2
        · rfl
        · have hnil' : joinNZ sfxs vs = [] := by simpa [joinNZ] using hnil
          exact ih vs (by simpa using hlen) hnil' v hv2
      · exfalso
        have : joinNZ (sfx :: sfxs) (v0 :: vs) =
            natDigits v0 ++ (sfx ++ (if joinNZ sfxs vs = [] then []
              else ' ' :: joinNZ sfxs vs)) := by simp [joinNZ, hv0]
        rw [this] at hnil
        exact natDigits_ne_nil v0 (List.append_eq_nil.mp hnil).1

theorem goodB_ffSpecs : goodB ffSpecs = true := by decide

/-- The continuation of `matchFreeForm` after the negation group. -/
def ffAfterSign (neg : Bool) (cs1 : List Char) : Option FFGroups :=
  match runUnits ffSpecs cs1 with
  | (vs, rest) =>
    if rest.isEmpty then
      match vs with
      | [y, d, h, m, s, ms, us] =>
        some { isNegative := neg, years := y, days := d, hours := h, minutes := m,
               seconds := s, milliseconds := ms, microseconds := us }
      | _ => none
    else none

theorem matchFreeForm_cons_neg (r : List Char) :
    matchFreeForm ('-' :: r) = ffAfterSign true r := rfl

theorem digit_cases {c : Char} (h : isDigitB c = true) :
    c = '0' ∨ c = '1' ∨ c = '2' ∨ c = '3' ∨ c = '4' ∨ c = '5' ∨ c = '6' ∨
    c = '7' ∨ c = '8' ∨ c = '9' := by
  unfold isDigitB at h
  simp only [Bool.and_eq_true, decide_eq_true_eq] at h
  have hn : c.toNat = 48 ∨ c.toNat = 49 ∨ c.toNat = 50 ∨ c.toNat = 51 ∨ c.toNat = 52 ∨
      c.toNat = 53 ∨ c.toNat = 54 ∨ c.toNat = 55 ∨ c.toNat = 56 ∨ c.toNat = 57 := by
    omega
  have hc := Char.ofNat_toNat c
  rcases hn with h0 | h0 | h0 | h0 | h0 | h0 | h0 | h0 | h0 | h0 <;>
    rw [h0] at hc <;> rw [← hc] <;> decide

theorem matchFreeForm_cons_digit {c : Char} (hc : isDigitB c = true) (r : List Char) :
    matchFreeForm (c :: r) = ffAfterSign false (c :: r) := by
  rcases digit_cases hc with h0 | h0 | h0 | h0 | h0 | h0 | h0 | h0 | h0 | h0 <;>
    subst h0 <;> rfl

set_option maxHeartbeats 4000000 in
/-- `matchFreeForm` on the canonical rendering of seven unit values with an
optional sign. -/
theorem matchFreeForm_render (neg : Bool) (v1 v2 v3 v4 v5 v6 v7 : Nat)
    (hneg : neg = true →
      joinNZ (ffSpecs.map Prod.fst) [v1, v2, v3, v4, v5, v6, v7] ≠ []) :
    matchFreeForm (if neg then
        '-' :: ' ' :: joinNZ (ffSpecs.map Prod.fst) [v1, v2, v3, v4, v5, v6, v7]
      else joinNZ (ffSpecs.map Prod.fst) [v1, v2, v3, v4, v5, v6, v7]) =
      some { isNegative := neg, years := (v1 : ℚ), days := (v2 : ℚ), hours := (v3 : ℚ),
             minutes := (v4 : ℚ), seconds := (v5 : ℚ), milliseconds := (v6 : ℚ),
             microseconds := (v7 : ℚ) } := by
  obtain ⟨hA, hB⟩ := runUnits_joinNZ ffSpecs [v1, v2, v3, v4, v5, v6, v7] rfl goodB_ffSpecs
  cases neg with
  | true =>
    rw [if_pos rfl, matchFreeForm_cons_neg]
    unfold ffAfterSign
    rw [hB (hneg rfl)]
    simp [List.map]
  | false =>
    rw [if_neg (by simp)]
    rcases joinNZ_struct (ffSpecs.map Prod.fst) [v1, v2, v3, v4, v5, v6, v7] with
      hnil | ⟨v', sfx', X, hv', hmem, hJeq, hX⟩
    · rw [hnil]
      rw [hnil] at hA
      unfold matchFreeForm
      dsimp only
      rw [hA]
      simp [List.map]
    · obtain ⟨c0, cs0, hnd⟩ : ∃ c0 cs0, natDigits v' = c0 :: cs0 := by
        cases hnd : natDigits v' with
        | nil => exact absurd hnd (natDigits_ne_nil v')
        | cons a l => exact ⟨a, l, rfl⟩
      have hd0 : isDigitB c0 = true := natDigits_all_digits v' c0 (by rw [hnd]; simp)
      have hJc : joinNZ (ffSpecs.map Prod.fst) [v1, v2, v3, v4, v5, v6, v7] =
          c0 :: (cs0 ++ (sfx' ++ X)) := by
        rw [hJeq, hnd, List.cons_append]
      rw [hJc] at hA ⊢
      rw [matchFreeForm_cons_digit hd0]
      unfold ffAfterSign
      rw [hA]
      simp [List.map]

/-- The seven value/suffix pairs computed by `usToDurationString` from the
magnitude of the input. -/
def ffVals (a0 : Int) : List (Int × List Char) :=
  let years := a0 / 31540000000000
  let a1 := a0 - years * 31540000000000
  let days := a1 / 86400000000
  let a2 := a1 - days * 86400000000
  let hours := (a2 / 3600000000) % 24
  let a3 := a2 - hours * 3600000000
  let minutes := (a3 / 60000000) % 60
  let a4 := a3 - minutes * 60000000
  let seconds := (a4 / 1000000) % 60
  let a5 := a4 - seconds * 1000000
  let milliseconds := a5 / 1000
  let a6 := a5 - milliseconds * 1000
  [(years, ['y']), (days, ['d']), (hours, ['h']), (minutes, ['m']),
   (seconds, ['s']), (milliseconds, ['m', 's']), (a6, ['u', 's'])]

/-- The breakdown values are nonnegative and recombine to the magnitude. -/
theorem ffVals_spec (a0 : Int) (h0 : 0 ≤ a0) :
    ∃ y d h m s ms us : Int,
      ffVals a0 = [(y, ['y']), (d, ['d']), (h, ['h']), (m, ['m']), (s, ['s']),
        (ms, ['m', 's']), (us, ['u', 's'])] ∧
      0 ≤ y ∧ 0 ≤ d ∧ 0 ≤ h ∧ 0 ≤ m ∧ 0 ≤ s ∧ 0 ≤ ms ∧ 0 ≤ us ∧
      y * 31540000000000 + d * 86400000000 + h * 3600000000 + m * 60000000 +
        s * 1000000 + ms * 1000 + us = a0 := by
  refine ⟨_, _, _, _, _, _, _, rfl, ?_, ?_, ?_, ?_, ?_, ?_, ?_, ?_⟩ <;> omega

/-- `usToDurationString` without zeros renders the sign piece and the
nonzero value/suffix pieces joined by single spaces. -/
theorem usToDurationString_eq (n : Int) :
    usToDurationString n false =
      joinSp ((if n < 0 then ['-'] else []) ::
        (ffVals |n|).map (fun p => if p.1 ≠ 0 then intToString p.1 ++ p.2 else [])) := rfl

/-- `durationStringToUs` on a string matched by the free-form grammar. -/
theorem durationStringToUs_of_ff {str : List Char} {neg : Bool}
    {v1 v2 v3 v4 v5 v6 v7 : Nat}
    (hmf : matchFreeForm str = some { isNegative := neg,
                                      years := (v1 : ℚ),
                                      days := (v2 : ℚ),
                                      hours := (v3 : ℚ),
                                      minutes := (v4 : ℚ),
                                      seconds := (v5 : ℚ),
                                      milliseconds := (v6 : ℚ),
                                      microseconds := (v7 : ℚ) }) :
    durationStringToUs str = .ok (some
      (((v1 : ℚ) * 31540000000000 + (v2 : ℚ) * 86400000000 + (v3 : ℚ) * 3600000000 +
        (v4 : ℚ) * 60000000 + (v5 : ℚ) * 1000000 + (v6 : ℚ) * 1000 + (v7 : ℚ)) *
        (if neg then -1 else 1))) := by
  unfold durationStringToUs parseDurationString
  rw [hmf]

/-- C1: converting any integer number of microseconds (negative values
included) to the human-readable duration string and parsing it back yields
the same number of microseconds. -/
theorem C1_duration_roundtrip (n : Int) :
    durationStringToUs (usToDurationString n false) = .ok (some (n : ℚ)) := by
  obtain ⟨y, d, h, m, s, ms, us, hvals, hy, hd, hh, hm, hs, hms, hus, hsum⟩ :=
    ffVals_spec |n| (abs_nonneg n)
  have hnn : ∀ p ∈ [(y, ['y']), (d, ['d']), (h, ['h']), (m, ['m']), (s, ['s']),
      (ms, ['m', 's']), (us, ['u', 's'])], (0 : Int) ≤ p.1 := by
    intro p hp
    fin_cases hp
    · exact hy
    · exact hd
    · exact hh
    · exact hm
    · exact hs
    · exact hms
    · exact hus
  have hnesfx : ∀ p ∈ [(y, ['y']), (d, ['d']), (h, ['h']), (m, ['m']), (s, ['s']),
      (ms, ['m', 's']), (us, ['u', 's'])], p.2 ≠ ([] : List Char) := by
    intro p hp
    fin_cases hp <;> simp
  have hJ7 : joinSp ((ffVals |n|).map
      (fun p => if p.1 ≠ 0 then intToString p.1 ++ p.2 else [])) =
      joinNZ (ffSpecs.map Prod.fst)
        [y.toNat, d.toNat, h.toNat, m.toNat, s.toNat, ms.toNat, us.toNat] := by
    rw [hvals]
    rw [joinSp_eq_joinNZ _ hnn hnesfx]
    rfl
  have hcy : ((y.toNat : Nat) : ℚ) = ((y : Int) : ℚ) := by
    rw [← Int.cast_natCast, Int.toNat_of_nonneg hy]
  have hcd : ((d.toNat : Nat) : ℚ) = ((d : Int) : ℚ) := by
    rw [← Int.cast_natCast, Int.toNat_of_nonneg hd]
  have hch : ((h.toNat : Nat) : ℚ) = ((h : Int) : ℚ) := by
    rw [← Int.cast_natCast, Int.toNat_of_nonneg hh]
  have hcm : ((m.toNat : Nat) : ℚ) = ((m : Int) : ℚ) := by
    rw [← Int.cast_natCast, Int.toNat_of_nonneg hm]
  have hcs : ((s.toNat : Nat) : ℚ) = ((s : Int) : ℚ) := by
    rw [← Int.cast_natCast, Int.toNat_of_nonneg hs]
  have hcms : ((ms.toNat : Nat) : ℚ) = ((ms : Int) : ℚ) := by
    rw [← Int.cast_natCast, Int.toNat_of_nonneg hms]
  have hcus : ((us.toNat : Nat) : ℚ) = ((us : Int) : ℚ) := by
    rw [← Int.cast_natCast, Int.toNat_of_nonneg hus]
  by_cases hneg : n < 0
  · have hJne : joinNZ (ffSpecs.map Prod.fst)
        [y.toNat, d.toNat, h.toNat, m.toNat, s.toNat, ms.toNat, us.toNat] ≠ [] := by
      intro hnil
      have hall := joinNZ_nil_all_zero (ffSpecs.map Prod.fst)
        [y.toNat, d.toNat, h.toNat, m.toNat, s.toNat, ms.toNat, us.toNat]
        (by simp [ffSpecs]) hnil
      have h1 := hall y.toNat (by simp)
      have h2 := hall d.toNat (by simp)
      have h3 := hall h.toNat (by simp)
      have h4 := hall m.toNat (by simp)
      have h5 := hall s.toNat (by simp)
      have h6 := hall ms.toNat (by simp)
      have h7 := hall us.toNat (by simp)
      have habs : |n| = 0 := by omega
      exact absurd (abs_eq_zero.mp habs) (by omega)
    have hrender : usToDurationString n false = '-' :: ' ' :: joinNZ (ffSpecs.map Prod.fst)
        [y.toNat, d.toNat, h.toNat, m.toNat, s.toNat, ms.toNat, us.toNat] := by
      rw [usToDurationString_eq n, joinSp_cons, if_pos hneg, if_neg (by simp), hJ7,
        if_neg hJne]
      rfl
    have hfm2 : matchFreeForm (usToDurationString n false) =
        some { isNegative := true,
               years := (y.toNat : ℚ),
               days := (d.toNat : ℚ),
               hours := (h.toNat : ℚ),
               minutes := (m.toNat : ℚ),
               seconds := (s.toNat : ℚ),
               milliseconds := (ms.toNat : ℚ),
               microseconds := (us.toNat : ℚ) } := by
      rw [hrender]
      have := matchFreeForm_render true y.toNat d.toNat h.toNat m.toNat s.toNat ms.toNat
        us.toNat (fun _ => hJne)
      simpa using this
    rw [durationStringToUs_of_ff hfm2]
    refine congrArg (fun q : ℚ => (Except.ok (some q) : Except (List Char) (Option ℚ))) ?_
    rw [hcy, hcd, hch, hcm, hcs, hcms, hcus, if_pos rfl]
    rw [abs_of_neg hneg] at hsum
    have hq := congrArg (fun z : Int => (z : ℚ)) hsum
    push_cast at hq
    linarith [hq]
  · have hrender : usToDurationString n false = joinNZ (ffSpecs.map Prod.fst)
        [y.toNat, d.toNat, h.toNat, m.toNat, s.toNat, ms.toNat, us.toNat] := by
      rw [usToDurationString_eq n, joinSp_cons, if_neg hneg, if_pos rfl, hJ7]
    have hfm2 : matchFreeForm (usToDurationString n false) =
        some { isNegative := false,
               years := (y.toNat : ℚ),
               days := (d.toNat : ℚ),
               hours := (h.toNat : ℚ),
               minutes := (m.toNat : ℚ),
               seconds := (s.toNat : ℚ),
               milliseconds := (ms.toNat : ℚ),
               microseconds := (us.toNat : ℚ) } := by
      rw [hrender]
      have := matchFreeForm_render false y.toNat d.toNat h.toNat m.toNat s.toNat ms.toNat
        us.toNat (fun hcon => Bool.noConfusion hcon)
      simpa using this
    rw [durationStringToUs_of_ff hfm2]
    refine congrArg (fun q : ℚ => (Except.ok (some q) : Except (List Char) (Option ℚ))) ?_
    rw [hcy, hcd, hch, hcm, hcs, hcms, hcus, if_neg (by simp : ¬ (false = true))]
    rw [abs_of_nonneg (by omega : (0 : Int) ≤ n)] at hsum
    have hq := congrArg (fun z : Int => (z : ℚ)) hsum
    push_cast at hq
    linarith [hq]

/-! ### Evaluation lemmas for the balancing pipeline (C2) -/

theorem toFixed6_natCast (k : Nat) : toFixed6 ((k : Nat) : ℚ) = (k : ℚ) := by
  unfold toFixed6
  rw [ratFloor_eq]
  have hfl : ⌊((k : Nat) : ℚ) * 1000000 + 1 / 2⌋ = (k : Int) * 1000000 := by
    rw [Int.floor_eq_iff]
    constructor
    · push_cast
      linarith
    · push_cast
      linarith
  rw [hfl]
  push_cast
  field_simp

theorem msOfDigits6_len3 {ds : List Char} (h3 : ds.length = 3) :
    msOfDigits6 ds = (digitsToNat ds : ℚ) := by
  unfold msOfDigits6
  have h1 : fracVal ds * 1000 = ((digitsToNat ds : Nat) : ℚ) := by
    unfold fracVal
    rw [h3]
    norm_num
  rw [h1, toFixed6_natCast]

theorem msOfDigits6_zero : msOfDigits6 ['0'] = 0 := by
  have h1 : fracVal ['0'] * 1000 = ((0 : Nat) : ℚ) := by
    unfold fracVal
    simp [digitsToNat, charVal]
  unfold msOfDigits6
  rw [h1, toFixed6_natCast]
  simp

theorem intToString_natCast (n : Nat) : intToString ((n : Nat) : Int) = natDigits n := by
  unfold intToString
  rw [if_neg (by omega)]
  simp

theorem ratToString_natCast (n : Nat) : ratToString ((n : Nat) : ℚ) = natDigits n := by
  unfold ratToString
  rw [if_pos (Rat.den_natCast n)]
  rw [Rat.num_natCast]
  exact intToString_natCast n

theorem ratFloor_natCast (n : Nat) : ratFloor ((n : Nat) : ℚ) = (n : Int) := by
  unfold ratFloor
  rw [Rat.num_natCast, Rat.den_natCast]
  simp

theorem expectChar_ne {c x : Char} (h : x ≠ c) (xs : List Char) :
    expectChar c (x :: xs) = none := by
  unfold expectChar
  simp [h]

theorem takeDigitsExact_short : ∀ (k : Nat) (ds : List Char) {X : List Char} {c : Char},
    ds.length < k → (∀ a ∈ ds, isDigitB a = true) → isDigitB c = false →
    takeDigitsExact k (ds ++ c :: X) = none := by
  intro k
  induction k with
  | zero =>
    intro ds X c hlen _ _
    omega
  | succ k ih =>
    intro ds X c hlen hdig hc
    cases ds with
    | nil =>
      show takeDigitsExact (k + 1) (c :: X) = none
      unfold takeDigitsExact
      rw [if_neg (by simp [hc])]
    | cons d ds =>
      show takeDigitsExact (k + 1) (d :: (ds ++ c :: X)) = none
      unfold takeDigitsExact
      rw [if_pos (hdig d (by simp))]
      rw [ih ds (by simpa using hlen) (fun a ha => hdig a (by simp [ha])) hc]

/-- `lexNumTok` on an arbitrary digit run followed by a non-digit, non-dot
continuation. -/
theorem lexNumTok_digits {ds X : List Char} (hne : ds ≠ [])
    (hdig : ∀ a ∈ ds, isDigitB a = true)
    (hX : ∀ c, X.head? = some c → isDigitB c = false ∧ c ≠ '.') :
    lexNumTok (ds ++ X) =
      some ({ sign := none, intPart := ds, frac := none }, X) := by
  obtain ⟨c0, cs0, hc⟩ : ∃ c0 cs0, ds = c0 :: cs0 := by
    cases hd : ds with
    | nil => exact absurd hd hne
    | cons a l => exact ⟨a, l, rfl⟩
  have hd0 : isDigitB c0 = true := hdig c0 (by rw [hc]; simp)
  unfold lexNumTok
  rw [hc, List.cons_append,
    takeSign_cons_of_ne (digit_ne hd0 (by decide)) (digit_ne hd0 (by decide))]
  dsimp only
  rw [← List.cons_append, ← hc,
    takeDigitsPlus_all hne hdig (fun c h => (hX c h).1)]
  dsimp only
  cases X with
  | nil => rfl
  | cons x xs =>
    have hx := hX x rfl
    split
    · rename_i r2 heq
      injection heq with e1 e2
      exact absurd e1 hx.2
    · rfl

theorem runUnits_skip_all : ∀ (specs : List (List Char × Bool)) (cs : List Char),
    (∀ p ∈ specs, tryUnit p.1 p.2 cs = (0, cs)) →
    runUnits specs cs = (specs.map (fun _ => (0 : ℚ)), cs) := by
  intro specs
  induction specs with
  | nil => intro cs _; rfl
  | cons spec specs ih =>
    intro cs h
    obtain ⟨sfx, noS⟩ := spec
    simp only [runUnits]
    rw [h (sfx, noS) (List.mem_cons_self _ _)]
    rw [ih cs (fun p hp => h p (List.mem_cons_of_mem _ hp))]
    simp

theorem ffAfterSign_none {neg : Bool} {cs : List Char} (hne : cs ≠ [])
    (hskip : ∀ p ∈ ffSpecs, tryUnit p.1 p.2 cs = (0, cs)) :
    ffAfterSign neg cs = none := by
  unfold ffAfterSign
  rw [runUnits_skip_all ffSpecs cs hskip]
  cases cs with
  | nil => exact absurd rfl hne
  | cons c cs' => rfl

theorem doyBody_render {hr mi se : List Char} {msd : Option (List Char)}
    (hh : hr.length = 2) (hm : mi.length = 2) (hs : se.length = 2)
    (dh : ∀ c ∈ hr, isDigitB c = true) (dm : ∀ c ∈ mi, isDigitB c = true)
    (dsg : ∀ c ∈ se, isDigitB c = true)
    (hms : ∀ ms, msd = some ms → ms ≠ [] ∧ ∀ c ∈ ms, isDigitB c = true) :
    doyBody (hr ++ ':' :: (mi ++ ':' :: (se ++ fracTail msd))) =
      some (hr, mi, se, msd) := by
  unfold doyBody
  rw [takeDigitsExact_of_len hh dh]
  simp only [Option.bind_eq_bind, Option.some_bind, expectChar_cons]
  rw [takeDigitsExact_of_len hm dm]
  simp only [Option.some_bind, expectChar_cons]
  rw [show se ++ fracTail msd = se ++ (fracTail msd ++ []) from by simp,
    takeDigitsExact_of_len hs dsg]
  simp only [Option.some_bind]
  rw [show fracTail msd ++ [] = fracTail msd from by simp, optFrac_fracTail hms]
  simp

theorem matchDoyTime_eval_day {cs cs1 : List Char} {sgn : Option Char}
    {doy hr mi se : List Char} {msd : Option (List Char)}
    (hsg : takeSign cs = (sgn, cs1))
    (hcs1 : cs1 = doy ++ 'T' :: (hr ++ ':' :: (mi ++ ':' :: (se ++ fracTail msd))))
    (h3 : doy.length = 3) (ddoy : ∀ c ∈ doy, isDigitB c = true)
    (hh : hr.length = 2) (hm : mi.length = 2) (hs : se.length = 2)
    (dh : ∀ c ∈ hr, isDigitB c = true) (dm : ∀ c ∈ mi, isDigitB c = true)
    (dsg : ∀ c ∈ se, isDigitB c = true)
    (hms : ∀ ms, msd = some ms → ms ≠ [] ∧ ∀ c ∈ ms, isDigitB c = true) :
    matchDoyTime cs =
      some { sign := sgn, doy := some doy, hr := hr, mins := mi, secs := se, ms := msd } := by
  unfold matchDoyTime
  rw [hsg]
  dsimp only
  rw [hcs1, takeDigitsExact_of_len h3 ddoy]
  simp only [Option.bind_eq_bind, Option.some_bind, expectChar_cons]
  rw [doyBody_render hh hm hs dh dm dsg hms]
  simp

theorem matchDoyTime_eval_noday {cs cs1 : List Char} {sgn : Option Char}
    {hr mi se : List Char} {msd : Option (List Char)}
    (hsg : takeSign cs = (sgn, cs1))
    (hcs1 : cs1 = hr ++ ':' :: (mi ++ ':' :: (se ++ fracTail msd)))
    (hh : hr.length = 2) (hm : mi.length = 2) (hs : se.length = 2)
    (dh : ∀ c ∈ hr, isDigitB c = true) (dm : ∀ c ∈ mi, isDigitB c = true)
    (dsg : ∀ c ∈ se, isDigitB c = true)
    (hms : ∀ ms, msd = some ms → ms ≠ [] ∧ ∀ c ∈ ms, isDigitB c = true) :
    matchDoyTime cs =
      some { sign := sgn, doy := none, hr := hr, mins := mi, secs := se, ms := msd } := by
  obtain ⟨c0, cs0, hc⟩ : ∃ c0 cs0, hr = c0 :: cs0 := by
    cases hcc : hr with
    | nil => rw [hcc] at hh; simp at hh
    | cons a l => exact ⟨a, l, rfl⟩
  have hd0 : isDigitB c0 = true := dh c0 (by rw [hc]; simp)
  unfold matchDoyTime
  rw [hsg]
  dsimp only
  rw [hcs1]
  rw [takeDigitsExact_short 3 hr (by omega) dh (by decide)]
  simp only [Option.bind_eq_bind, Option.none_bind]
  rw [hc, List.cons_append, expectChar_ne (digit_ne hd0 (by decide)) _]
  simp only [Option.none_bind]
  rw [← List.cons_append, ← hc, doyBody_render hh hm hs dh dm dsg hms]
  simp

theorem matchIsoOrdinal_none_of_year {r : List Char} (h : takeDigitsExact 4 r = none) :
    matchIsoOrdinal r = none := by
  unfold matchIsoOrdinal
  simp only [Option.bind_eq_bind]
  rw [h, Option.none_bind]

theorem matchIsoUtc_none_of_year {r : List Char} (h : takeDigitsExact 4 r = none) :
    matchIsoUtc r = none := by
  unfold matchIsoUtc
  simp only [Option.bind_eq_bind]
  rw [h, Option.none_bind]

theorem skipSpaces_digits_run {ds X : List Char} (hne : ds ≠ [])
    (hdig : ∀ a ∈ ds, isDigitB a = true) :
    skipSpaces (ds ++ X) = ds ++ X := by
  cases hc : ds with
  | nil => exact absurd hc hne
  | cons c0 cs0 =>
    have hd0 : isDigitB c0 = true := hdig c0 (by rw [hc]; simp)
    rw [List.cons_append]
    exact skipSpaces_cons_nospace (digit_not_space hd0)

/-- Every unit group of the free-form grammar skips over a digit run that is
followed by a separator other than a unit suffix or a dot. -/
theorem skip_on_sep {ds X : List Char} {c : Char} (hne : ds ≠ [])
    (hdig : ∀ a ∈ ds, isDigitB a = true)
    (hc1 : isDigitB c = false) (hc2 : c ≠ '.')
    (hcy : c ≠ 'y' ∧ c ≠ 'd' ∧ c ≠ 'h' ∧ c ≠ 'm' ∧ c ≠ 's' ∧ c ≠ 'u') :
    ∀ p ∈ ffSpecs, tryUnit p.1 p.2 (ds ++ c :: X) = (0, ds ++ c :: X) := by
  intro p hp
  have hlex : lexNumTok (skipSpaces (ds ++ c :: X)) =
      some ({ sign := none, intPart := ds, frac := none }, c :: X) := by
    rw [skipSpaces_digits_run hne hdig]
    exact lexNumTok_digits hne hdig (by
      intro x hx
      simp only [List.head?_cons, Option.some_inj] at hx
      subst hx
      exact ⟨hc1, hc2⟩)
  obtain ⟨h1, h2, h3, h4, h5, h6⟩ := hcy
  fin_cases hp
  · exact tryUnit_skip_false hlex (startsL_head_ne _ _ (Ne.symm h1))
  · exact tryUnit_skip_false hlex (startsL_head_ne _ _ (Ne.symm h2))
  · exact tryUnit_skip_false hlex (startsL_head_ne _ _ (Ne.symm h3))
  · exact tryUnit_skip_false hlex (startsL_head_ne _ _ (Ne.symm h4))
  · exact tryUnit_skip_false hlex (startsL_head_ne _ _ (Ne.symm h5))
  · exact tryUnit_skip_false hlex (startsL_head_ne _ _ (Ne.symm h4))
  · exact tryUnit_skip_false hlex (startsL_head_ne _ _ (Ne.symm h6))

/-- A fully balanced duration: the component values that
`getBalancedDuration` renders, each already within its range. -/
structure BalancedDuration where
  neg : Bool
  days : Nat
  hours : Nat
  minutes : Nat
  seconds : Nat
  ms : Nat
deriving DecidableEq

/-- Body of the balanced rendering (everything after the optional sign):
an optional three-digit day segment with `'T'`, then `hh:mm:ss.mmm`. -/
def balancedBody (D : BalancedDuration) : List Char :=
  (if 0 < D.days then padStart 3 '0' (natDigits D.days) ++ ['T'] else []) ++
    (padStart 2 '0' (natDigits D.hours) ++ ':' ::
      (padStart 2 '0' (natDigits D.minutes) ++ ':' ::
        (padStart 2 '0' (natDigits D.seconds) ++ '.' ::
          padStart 3 '0' (natDigits D.ms))))

/-- The balanced rendering of `D`: optional `'-'` followed by the body. -/
def renderBalanced (D : BalancedDuration) : List Char :=
  (if D.neg then ['-'] else []) ++ balancedBody D

/-- The duration record that `parseDurationString` recovers from the
balanced rendering of `D`. -/
def pdOf (D : BalancedDuration) : ParsedDurationString :=
  { days := (D.days : ℚ), hours := (D.hours : ℚ), isNegative := D.neg,
    microseconds := 0, milliseconds := (D.ms : ℚ), minutes := (D.minutes : ℚ),
    seconds := (D.seconds : ℚ), years := 0 }

theorem padStart_ne_nil {k : Nat} (hk : 0 < k) (c : Char) (s : List Char) :
    padStart k c s ≠ [] := by
  intro h
  have hl := padStart_length k c s
  rw [h] at hl
  simp at hl
  omega

theorem padStart_digits_cons {k : Nat} (hk : 0 < k) {s : List Char}
    (hs : ∀ c ∈ s, isDigitB c = true) :
    ∃ c0 cs0, padStart k '0' s = c0 :: cs0 ∧ isDigitB c0 = true := by
  cases hp : padStart k '0' s with
  | nil => exact absurd hp (padStart_ne_nil hk '0' s)
  | cons c0 cs0 =>
    exact ⟨c0, cs0, rfl, padStart_all_digits hs c0 (by rw [hp]; simp)⟩

theorem balancedBody_head (D : BalancedDuration) :
    ∃ c0 cs0, balancedBody D = c0 :: cs0 ∧ isDigitB c0 = true := by
  unfold balancedBody
  by_cases hdp : 0 < D.days
  · rw [if_pos hdp]
    obtain ⟨c0, cs0, hp, hc⟩ :=
      padStart_digits_cons (k := 3) (by norm_num) (natDigits_all_digits D.days)
    refine ⟨c0, cs0 ++ 'T' ::
      (padStart 2 '0' (natDigits D.hours) ++ ':' ::
        (padStart 2 '0' (natDigits D.minutes) ++ ':' ::
          (padStart 2 '0' (natDigits D.seconds) ++ '.' ::
            padStart 3 '0' (natDigits D.ms)))), ?_, hc⟩
    rw [hp]
    simp
  · rw [if_neg hdp, List.nil_append]
    obtain ⟨c0, cs0, hp, hc⟩ :=
      padStart_digits_cons (k := 2) (by norm_num) (natDigits_all_digits D.hours)
    refine ⟨c0, cs0 ++ ':' ::
      (padStart 2 '0' (natDigits D.minutes) ++ ':' ::
        (padStart 2 '0' (natDigits D.seconds) ++ '.' ::
          padStart 3 '0' (natDigits D.ms))), ?_, hc⟩
    rw [hp]
    simp

theorem takeSign_renderBalanced (D : BalancedDuration) :
    takeSign (renderBalanced D) = (if D.neg then some '-' else none, balancedBody D) := by
  obtain ⟨c0, cs0, hb, hd0⟩ := balancedBody_head D
  unfold renderBalanced
  cases D.neg with
  | true => rfl
  | false =>
    rw [if_neg (by decide), if_neg (by decide), List.nil_append, hb]
    rw [takeSign_cons_of_ne (digit_ne hd0 (by decide)) (digit_ne hd0 (by decide))]

theorem matchDoyTime_renderBalanced (D : BalancedDuration) (hd : D.days ≤ 365)
    (hh : D.hours ≤ 23) (hm : D.minutes ≤ 59) (hs : D.seconds ≤ 59) (hms : D.ms ≤ 999) :
    matchDoyTime (renderBalanced D) =
      some { sign := if D.neg then some '-' else none,
             doy := if 0 < D.days then some (padStart 3 '0' (natDigits D.days)) else none,
             hr := padStart 2 '0' (natDigits D.hours),
             mins := padStart 2 '0' (natDigits D.minutes),
             secs := padStart 2 '0' (natDigits D.seconds),
             ms := some (padStart 3 '0' (natDigits D.ms)) } := by
  obtain ⟨hl3, hdig3, hv3⟩ := padNat_spec (k := 3) (n := D.days) (by norm_num)
    (lt_of_le_of_lt hd (by norm_num))
  obtain ⟨hl2h, hdig2h, hv2h⟩ := padNat_spec (k := 2) (n := D.hours) (by norm_num)
    (lt_of_le_of_lt hh (by norm_num))
  obtain ⟨hl2m, hdig2m, hv2m⟩ := padNat_spec (k := 2) (n := D.minutes) (by norm_num)
    (lt_of_le_of_lt hm (by norm_num))
  obtain ⟨hl2s, hdig2s, hv2s⟩ := padNat_spec (k := 2) (n := D.seconds) (by norm_num)
    (lt_of_le_of_lt hs (by norm_num))
  obtain ⟨hl3ms, hdig3ms, hv3ms⟩ := padNat_spec (k := 3) (n := D.ms) (by norm_num)
    (lt_of_le_of_lt hms (by norm_num))
  have hmscl : ∀ x, (some (padStart 3 '0' (natDigits D.ms)) : Option (List Char)) = some x →
      x ≠ [] ∧ ∀ c ∈ x, isDigitB c = true := by
    intro x hx
    injection hx with hx
    subst hx
    exact ⟨padStart_ne_nil (by norm_num) _ _, hdig3ms⟩
  by_cases hdp : 0 < D.days
  · rw [if_pos hdp]
    refine matchDoyTime_eval_day (takeSign_renderBalanced D) ?_ hl3 hdig3
      hl2h hl2m hl2s hdig2h hdig2m hdig2s hmscl
    unfold balancedBody
    rw [if_pos hdp]
    simp [fracTail]
  · rw [if_neg hdp]
    refine matchDoyTime_eval_noday (takeSign_renderBalanced D) ?_
      hl2h hl2m hl2s hdig2h hdig2m hdig2s hmscl
    unfold balancedBody
    rw [if_neg hdp, List.nil_append]
    simp [fracTail]

theorem parseDOYDurationTime_renderBalanced (D : BalancedDuration) (hd : D.days ≤ 365)
    (hh : D.hours ≤ 23) (hm : D.minutes ≤ 59) (hs : D.seconds ≤ 59) (hms : D.ms ≤ 999) :
    parseDOYDurationTime (renderBalanced D) = some (pdOf D) := by
  obtain ⟨hl3, hdig3, hv3⟩ := padNat_spec (k := 3) (n := D.days) (by norm_num)
    (lt_of_le_of_lt hd (by norm_num))
  obtain ⟨hl2h, hdig2h, hv2h⟩ := padNat_spec (k := 2) (n := D.hours) (by norm_num)
    (lt_of_le_of_lt hh (by norm_num))
  obtain ⟨hl2m, hdig2m, hv2m⟩ := padNat_spec (k := 2) (n := D.minutes) (by norm_num)
    (lt_of_le_of_lt hm (by norm_num))
  obtain ⟨hl2s, hdig2s, hv2s⟩ := padNat_spec (k := 2) (n := D.seconds) (by norm_num)
    (lt_of_le_of_lt hs (by norm_num))
  obtain ⟨hl3ms, hdig3ms, hv3ms⟩ := padNat_spec (k := 3) (n := D.ms) (by norm_num)
    (lt_of_le_of_lt hms (by norm_num))
  unfold parseDOYDurationTime
  rw [matchDoyTime_renderBalanced D hd hh hm hs hms]
  have hdays : digitsToNat ((if 0 < D.days then some (padStart 3 '0' (natDigits D.days))
      else none).getD ['0']) = D.days := by
    by_cases hdp : 0 < D.days
    · rw [if_pos hdp]
      exact hv3
    · rw [if_neg hdp]
      have h0 : D.days = 0 := by omega
      rw [h0]
      decide
  have hneg : ((if D.neg then some '-' else none) == some '-') = D.neg := by
    cases D.neg <;> rfl
  have hmsv : msOfDigits6 ((some (padStart 3 '0' (natDigits D.ms))).getD ['0']) =
      (D.ms : ℚ) := by
    show msOfDigits6 (padStart 3 '0' (natDigits D.ms)) = _
    rw [msOfDigits6_len3 hl3ms, hv3ms]
  unfold pdOf
  dsimp only
  rw [hdays, hneg, hmsv, hv2h, hv2m, hv2s]

theorem matchFreeForm_renderBalanced (D : BalancedDuration) :
    matchFreeForm (renderBalanced D) = none := by
  have hskip : ∀ p ∈ ffSpecs, tryUnit p.1 p.2 (balancedBody D) = (0, balancedBody D) := by
    by_cases hdp : 0 < D.days
    · have hbb : balancedBody D = padStart 3 '0' (natDigits D.days) ++ 'T' ::
          (padStart 2 '0' (natDigits D.hours) ++ ':' ::
            (padStart 2 '0' (natDigits D.minutes) ++ ':' ::
              (padStart 2 '0' (natDigits D.seconds) ++ '.' ::
                padStart 3 '0' (natDigits D.ms)))) := by
        unfold balancedBody
        rw [if_pos hdp]
        simp
      rw [hbb]
      exact skip_on_sep (padStart_ne_nil (by norm_num) _ _)
        (padStart_all_digits (natDigits_all_digits _)) (by decide) (by decide) (by decide)
    · have hbb : balancedBody D = padStart 2 '0' (natDigits D.hours) ++ ':' ::
          (padStart 2 '0' (natDigits D.minutes) ++ ':' ::
            (padStart 2 '0' (natDigits D.seconds) ++ '.' ::
              padStart 3 '0' (natDigits D.ms))) := by
        unfold balancedBody
        rw [if_neg hdp, List.nil_append]
      rw [hbb]
      exact skip_on_sep (padStart_ne_nil (by norm_num) _ _)
        (padStart_all_digits (natDigits_all_digits _)) (by decide) (by decide) (by decide)
  obtain ⟨c0, cs0, hb, hd0⟩ := balancedBody_head D
  have hne : balancedBody D ≠ [] := by
    rw [hb]
    simp
  unfold renderBalanced
  cases D.neg with
  | true =>
    rw [if_pos rfl, List.singleton_append, matchFreeForm_cons_neg]
    exact ffAfterSign_none hne hskip
  | false =>
    rw [if_neg (by decide), List.nil_append, hb, matchFreeForm_cons_digit hd0, ← hb]
    exact ffAfterSign_none hne hskip

theorem takeDigitsExact4_renderBalanced (D : BalancedDuration) (hd : D.days ≤ 365)
    (hh : D.hours ≤ 23) :
    takeDigitsExact 4 (renderBalanced D) = none := by
  unfold renderBalanced
  cases D.neg with
  | true =>
    rw [if_pos rfl, List.singleton_append]
    have h := takeDigitsExact_short 4 [] (X := balancedBody D) (c := '-')
      (by norm_num) (by intro a ha; simp at ha) (by decide)
    rwa [List.nil_append] at h
  | false =>
    rw [if_neg (by decide), List.nil_append]
    unfold balancedBody
    by_cases hdp : 0 < D.days
    · rw [if_pos hdp]
      rw [show (padStart 3 '0' (natDigits D.days) ++ ['T']) ++
          (padStart 2 '0' (natDigits D.hours) ++ ':' ::
            (padStart 2 '0' (natDigits D.minutes) ++ ':' ::
              (padStart 2 '0' (natDigits D.seconds) ++ '.' ::
                padStart 3 '0' (natDigits D.ms)))) =
          padStart 3 '0' (natDigits D.days) ++ 'T' ::
            (padStart 2 '0' (natDigits D.hours) ++ ':' ::
              (padStart 2 '0' (natDigits D.minutes) ++ ':' ::
                (padStart 2 '0' (natDigits D.seconds) ++ '.' ::
                  padStart 3 '0' (natDigits D.ms)))) from by simp]
      refine takeDigitsExact_short 4 _ ?_ (padStart_all_digits (natDigits_all_digits _))
        (by decide)
      rw [(padNat_spec (k := 3) (n := D.days) (by norm_num)
        (lt_of_le_of_lt hd (by norm_num))).1]
      omega
    · rw [if_neg hdp, List.nil_append]
      refine takeDigitsExact_short 4 _ ?_ (padStart_all_digits (natDigits_all_digits _))
        (by decide)
      rw [(padNat_spec (k := 2) (n := D.hours) (by norm_num)
        (lt_of_le_of_lt hh (by norm_num))).1]
      omega

theorem parseDoyOrIsoTime_renderBalanced (D : BalancedDuration) (hd : D.days ≤ 365)
    (hh : D.hours ≤ 23) (hm : D.minutes ≤ 59) (hs : D.seconds ≤ 59) (hms : D.ms ≤ 999) :
    parseDoyOrIsoTime (renderBalanced D) = some (.dur (pdOf D)) := by
  unfold parseDoyOrIsoTime
  rw [matchIsoOrdinal_none_of_year (takeDigitsExact4_renderBalanced D hd hh),
    matchIsoUtc_none_of_year (takeDigitsExact4_renderBalanced D hd hh),
    parseDOYDurationTime_renderBalanced D hd hh hm hs hms]

theorem parseDurationString_renderBalanced (D : BalancedDuration) (hd : D.days ≤ 365)
    (hh : D.hours ≤ 23) (hm : D.minutes ≤ 59) (hs : D.seconds ≤ 59) (hms : D.ms ≤ 999) :
    parseDurationString (renderBalanced D) .seconds = .ok (.dur (pdOf D)) := by
  unfold parseDurationString
  rw [matchFreeForm_renderBalanced D,
    parseDoyOrIsoTime_renderBalanced D hd hh hm hs hms]

theorem dateUTC_1970 (d h m s x : Int) :
    dateUTC 1970 0 d h m s x =
      (d - 1) * 86400000 + h * 3600000 + m * 60000 + s * 1000 + x := by
  have hre : remapYear 1970 = 1970 := by
    unfold remapYear
    norm_num
  simp only [dateUTC]
  norm_num [hre, monthStart_zero]
  rw [show dayFromYear 1970 = 0 from by decide]

/-- The JS date accessors recover the components of a `Date.UTC` instant
built inside 1970 from in-range day-of-year and time values. -/
theorem components_1970 (d h m s x : Int) (hd1 : 1 ≤ d) (hd2 : d ≤ 365)
    (hh1 : 0 ≤ h) (hh2 : h ≤ 23) (hm1 : 0 ≤ m) (hm2 : m ≤ 59)
    (hs1 : 0 ≤ s) (hs2 : s ≤ 59) (hx1 : 0 ≤ x) (hx2 : x ≤ 999) :
    jsUTCFullYear (dateUTC 1970 0 d h m s x) = 1970 ∧
    getDoy (dateUTC 1970 0 d h m s x) = d ∧
    jsUTCHours (dateUTC 1970 0 d h m s x) = h ∧
    jsUTCMinutes (dateUTC 1970 0 d h m s x) = m ∧
    jsUTCSeconds (dateUTC 1970 0 d h m s x) = s ∧
    jsUTCMilliseconds (dateUTC 1970 0 d h m s x) = x := by
  have ht := dateUTC_1970 d h m s x
  set t := dateUTC 1970 0 d h m s x with htdef
  have hy : jsUTCFullYear t = 1970 := by
    unfold jsUTCFullYear dayOfInstant
    apply yearFromDay_unique
    · unfold dayFromYear
      omega
    · unfold dayFromYear
      omega
  refine ⟨hy, ?_, ?_, ?_, ?_, ?_⟩
  · have hstart : dateUTC (jsUTCFullYear t) 0 0 0 0 0 0 = (0 - 1) * 86400000 := by
      rw [hy, dateUTC_year_start,
        show remapYear 1970 = 1970 from by unfold remapYear; norm_num,
        show dayFromYear 1970 = 0 from by decide]
    unfold getDoy
    rw [hstart]
    show (t - (0 - 1) * 86400000) / 86400000 = d
    omega
  · unfold jsUTCHours
    omega
  · unfold jsUTCMinutes
    omega
  · unfold jsUTCSeconds
    omega
  · unfold jsUTCMilliseconds
    omega

theorem convertDurationToDoy_pdOf (D : BalancedDuration) :
    convertDurationToDoy (pdOf D) =
      ['1', '9', '7', '0'] ++ '-' ::
        (padStart 3 '0' (natDigits (max 1 D.days)) ++ 'T' ::
          (padStart 2 '0' (natDigits D.hours) ++ ':' ::
            (padStart 2 '0' (natDigits D.minutes) ++ ':' ::
              (padStart 2 '0' (natDigits D.seconds) ++ '.' ::
                padStart 3 '0' (natDigits D.ms))))) := by
  unfold convertDurationToDoy pdOf
  dsimp only
  rw [if_pos rfl, ratFloor_natCast]
  rw [show (max 1 ((D.days : Nat) : Int)) = ((max 1 D.days : Nat) : Int) from by omega]
  rw [intToString_natCast, ratToString_natCast, ratToString_natCast, ratToString_natCast,
    ratToString_natCast]
  simp [List.append_assoc]

theorem getUnixEpochTime_doyRender (dd h m s x : Nat) (hdd1 : 1 ≤ dd) (hdd2 : dd ≤ 365)
    (hh2 : h ≤ 23) (hm2 : m ≤ 59) (hs2 : s ≤ 59) (hx2 : x ≤ 999) :
    getUnixEpochTime (['1', '9', '7', '0'] ++ '-' ::
        (padStart 3 '0' (natDigits dd) ++ 'T' ::
          (padStart 2 '0' (natDigits h) ++ ':' ::
            (padStart 2 '0' (natDigits m) ++ ':' ::
              (padStart 2 '0' (natDigits s) ++ '.' ::
                padStart 3 '0' (natDigits x)))))) =
      dateUTC 1970 0 (dd : Int) (h : Int) (m : Int) (s : Int) (x : Int) := by
  obtain ⟨hl3, hdig3, hv3⟩ := padNat_spec (k := 3) (n := dd) (by norm_num)
    (lt_of_le_of_lt hdd2 (by norm_num))
  obtain ⟨hl2h, hdig2h, hv2h⟩ := padNat_spec (k := 2) (n := h) (by norm_num)
    (lt_of_le_of_lt hh2 (by norm_num))
  obtain ⟨hl2m, hdig2m, hv2m⟩ := padNat_spec (k := 2) (n := m) (by norm_num)
    (lt_of_le_of_lt hm2 (by norm_num))
  obtain ⟨hl2s, hdig2s, hv2s⟩ := padNat_spec (k := 2) (n := s) (by norm_num)
    (lt_of_le_of_lt hs2 (by norm_num))
  obtain ⟨hl3x, hdig3x, hv3x⟩ := padNat_spec (k := 3) (n := x) (by norm_num)
    (lt_of_le_of_lt hx2 (by norm_num))
  unfold getUnixEpochTime
  rw [show ('.' :: padStart 3 '0' (natDigits x) : List Char) =
    fracTail (some (padStart 3 '0' (natDigits x))) from rfl]
  rw [matchIsoOrdinal_render (by decide) hl3 hl2h hl2m hl2s (by decide)
    hdig3 hdig2h hdig2m hdig2s (by
      intro z hz
      injection hz with hz
      subst hz
      exact ⟨padStart_ne_nil (by norm_num) _ _, hdig3x⟩)]
  dsimp only
  rw [show digitsToNat ['1', '9', '7', '0'] = 1970 from by decide, hv3, hv2h, hv2m, hv2s]
  rw [Option.getD_some, hv3x]
  norm_num

theorem parseDoyOrIso_isoRender (dd h m s v : Nat) (hdd2 : dd ≤ 365)
    (hh2 : h ≤ 23) (hm2 : m ≤ 59) (hs2 : s ≤ 59) (hv2 : v ≤ 999) :
    parseDoyOrIsoTime (['1', '9', '7', '0'] ++ '-' ::
        (padStart 3 '0' (natDigits dd) ++ 'T' ::
          (padStart 2 '0' (natDigits h) ++ ':' ::
            (padStart 2 '0' (natDigits m) ++ ':' ::
              (padStart 2 '0' (natDigits s) ++
                (if 0 < v then '.' :: padStart 3 '0' (natDigits v) else [])))))) =
      some (.doy {
        year := 1970,
        doy := (dd : Int),
        hour := (h : Int),
        min := (m : Int),
        sec := (s : Int),
        ms := (v : ℚ),
        time := timeCapture (padStart 2 '0' (natDigits h)) (padStart 2 '0' (natDigits m))
          (padStart 2 '0' (natDigits s))
          (if 0 < v then some (padStart 3 '0' (natDigits v)) else none) }) := by
  obtain ⟨hl3, hdig3, hv3⟩ := padNat_spec (k := 3) (n := dd) (by norm_num)
    (lt_of_le_of_lt hdd2 (by norm_num))
  obtain ⟨hl2h, hdig2h, hv2h⟩ := padNat_spec (k := 2) (n := h) (by norm_num)
    (lt_of_le_of_lt hh2 (by norm_num))
  obtain ⟨hl2m, hdig2m, hv2m⟩ := padNat_spec (k := 2) (n := m) (by norm_num)
    (lt_of_le_of_lt hm2 (by norm_num))
  obtain ⟨hl2s, hdig2s, hv2s⟩ := padNat_spec (k := 2) (n := s) (by norm_num)
    (lt_of_le_of_lt hs2 (by norm_num))
  obtain ⟨hl3v, hdig3v, hv3v⟩ := padNat_spec (k := 3) (n := v) (by norm_num)
    (lt_of_le_of_lt hv2 (by norm_num))
  have hfr : (if 0 < v then '.' :: padStart 3 '0' (natDigits v) else []) =
      fracTail (if 0 < v then some (padStart 3 '0' (natDigits v)) else none) := by
    by_cases h0 : 0 < v
    · rw [if_pos h0, if_pos h0]
      rfl
    · rw [if_neg h0, if_neg h0]
      rfl
  rw [hfr]
  unfold parseDoyOrIsoTime
  rw [matchIsoOrdinal_render (by decide) hl3 hl2h hl2m hl2s (by decide)
    hdig3 hdig2h hdig2m hdig2s (by
      intro z hz
      by_cases h0 : 0 < v
      · rw [if_pos h0] at hz
        injection hz with hz
        subst hz
        exact ⟨padStart_ne_nil (by norm_num) _ _, hdig3v⟩
      · rw [if_neg h0] at hz
        exact Option.noConfusion hz)]
  dsimp only
  rw [show digitsToNat ['1', '9', '7', '0'] = 1970 from by decide, hv3, hv2h, hv2m, hv2s]
  have hmsval : msOfDigits6 ((if 0 < v then some (padStart 3 '0' (natDigits v))
      else none).getD ['0']) = (v : ℚ) := by
    by_cases h0 : 0 < v
    · rw [if_pos h0, Option.getD_some, msOfDigits6_len3 hl3v, hv3v]
    · rw [if_neg h0, Option.getD_none, msOfDigits6_zero]
      rw [show v = 0 from by omega, Nat.cast_zero]
  rw [hmsval]
  norm_num

theorem getBalancedDuration_renderBalanced (D : BalancedDuration)
    (hd : D.days ≤ 365) (hh : D.hours ≤ 23) (hm : D.minutes ≤ 59)
    (hs : D.seconds ≤ 59) (hms : D.ms ≤ 999) :
    getBalancedDuration (renderBalanced D) = some (renderBalanced D) := by
  have hdd365 : max 1 D.days ≤ 365 := by omega
  have hpds := parseDurationString_renderBalanced D hd hh hm hs hms
  have hcdd := convertDurationToDoy_pdOf D
  have ht := getUnixEpochTime_doyRender (max 1 D.days) D.hours D.minutes D.seconds D.ms
    (le_max_left _ _) hdd365 hh hm hs hms
  obtain ⟨hY, hDoy, hH, hM, hS, hMs⟩ := components_1970
    ((max 1 D.days : Nat) : Int) (D.hours : Int) (D.minutes : Int) (D.seconds : Int)
    (D.ms : Int) (by omega) (by omega) (by omega) (by omega) (by omega) (by omega)
    (by omega) (by omega) (by omega) (by omega)
  have hiso := isoFromJSDate_shape
    (dateUTC 1970 0 ((max 1 D.days : Nat) : Int) (D.hours : Int) (D.minutes : Int)
      (D.seconds : Int) (D.ms : Int))
  rw [hY, hDoy, hH, hM, hS, hMs] at hiso
  rw [show intToString (1970 : Int) = ['1', '9', '7', '0'] from by decide] at hiso
  rw [intToString_natCast, intToString_natCast, intToString_natCast, intToString_natCast,
    intToString_natCast] at hiso
  have hrep := parseDoyOrIso_isoRender (max 1 D.days) D.hours D.minutes D.seconds D.ms
    hdd365 hh hm hs hms
  by_cases hms0 : 0 < D.ms
  · rw [if_pos hms0, if_pos hms0] at hrep
    have hcond : (true && decide ((0 : Int) < ((D.ms : Nat) : Int))) = true := by
      rw [Bool.true_and]
      exact decide_eq_true (by exact_mod_cast hms0)
    rw [hcond, if_pos rfl] at hiso
    unfold getBalancedDuration
    rw [hpds]
    dsimp only
    rw [hcdd, ht, hiso, hrep]
    dsimp only [pdOf]
    rw [intToString_natCast D.hours, intToString_natCast D.minutes,
      intToString_natCast D.seconds, ratToString_natCast D.ms]
    by_cases hdp : 0 < D.days
    · have hmx : max 1 D.days = D.days := max_eq_right (by omega)
      have hc1 : decide ((0 : ℚ) < ((D.days : Nat) : ℚ)) = true :=
        decide_eq_true (by exact_mod_cast hdp)
      rw [hc1, Bool.true_or, if_pos rfl,
        if_pos (show (0 : ℚ) < ((D.days : Nat) : ℚ) from by exact_mod_cast hdp),
        sub_zero, hmx, intToString_natCast D.days]
      unfold renderBalanced balancedBody
      rw [if_pos hdp]
      simp [List.append_assoc]
    · have hd0 : D.days = 0 := by omega
      have hmx : max 1 D.days = 1 := by omega
      have hc1 : decide ((0 : ℚ) < ((D.days : Nat) : ℚ)) = false :=
        decide_eq_false (by rw [hd0]; simp)
      have hc2 : decide ((1 : Int) < ((1 : Nat) : Int)) = false := by decide
      rw [hmx, hc1, hc2, Bool.or_false, if_neg (show ¬(false = true) from by decide)]
      unfold renderBalanced balancedBody
      rw [if_neg hdp]
      simp [List.append_assoc]
  · rw [if_neg hms0, if_neg hms0] at hrep
    have hcond : (true && decide ((0 : Int) < ((D.ms : Nat) : Int))) = false := by
      rw [Bool.true_and]
      exact decide_eq_false (by omega)
    rw [hcond, if_neg (by decide)] at hiso
    unfold getBalancedDuration
    rw [hpds]
    dsimp only
    rw [hcdd, ht, hiso, hrep]
    dsimp only [pdOf]
    rw [intToString_natCast D.hours, intToString_natCast D.minutes,
      intToString_natCast D.seconds, ratToString_natCast D.ms]
    by_cases hdp : 0 < D.days
    · have hmx : max 1 D.days = D.days := max_eq_right (by omega)
      have hc1 : decide ((0 : ℚ) < ((D.days : Nat) : ℚ)) = true :=
        decide_eq_true (by exact_mod_cast hdp)
      rw [hc1, Bool.true_or, if_pos rfl,
        if_pos (show (0 : ℚ) < ((D.days : Nat) : ℚ) from by exact_mod_cast hdp),
        sub_zero, hmx, intToString_natCast D.days]
      unfold renderBalanced balancedBody
      rw [if_pos hdp]
      simp [List.append_assoc]
    · have hd0 : D.days = 0 := by omega
      have hmx : max 1 D.days = 1 := by omega
      have hc1 : decide ((0 : ℚ) < ((D.days : Nat) : ℚ)) = false :=
        decide_eq_false (by rw [hd0]; simp)
      have hc2 : decide ((1 : Int) < ((1 : Nat) : Int)) = false := by decide
      rw [hmx, hc1, hc2, Bool.or_false, if_neg (show ¬(false = true) from by decide)]
      unfold renderBalanced balancedBody
      rw [if_neg hdp]
      simp [List.append_assoc]

set_option maxHeartbeats 4000000 in
/-- C2: balancing is idempotent on its own output.  For every balanced
duration `D` — sign, up to 365 days, hours ≤ 23, minutes ≤ 59,
seconds ≤ 59, milliseconds ≤ 999, rendered as `getBalancedDuration`
renders its results (optional `'-'`, a three-digit day segment with `'T'`
exactly when the day count is positive, then `hh:mm:ss.mmm`) — applying
`getBalancedDuration` to the rendered text returns that same text
unchanged; and on the spec's example, `getBalancedDuration` carries the
leap second over: `"001T23:59:60.1"` balances to `"002T00:00:00.100"`. -/
theorem C2_balancing_idempotent :
    (∀ D : BalancedDuration, D.days ≤ 365 → D.hours ≤ 23 → D.minutes ≤ 59 →
      D.seconds ≤ 59 → D.ms ≤ 999 →
      getBalancedDuration (renderBalanced D) = some (renderBalanced D)) ∧
    getBalancedDuration ("001T23:59:60.1".data) = some ("002T00:00:00.100".data) := by
  constructor
  · intro D hd hh hm hs hms
    exact getBalancedDuration_renderBalanced D hd hh hm hs hms
  · decide

theorem C2_witness :
    getBalancedDuration (renderBalanced ⟨true, 2, 3, 4, 5, 678⟩) =
      some (renderBalanced ⟨true, 2, 3, 4, 5, 678⟩) :=
  C2_balancing_idempotent.1 ⟨true, 2, 3, 4, 5, 678⟩ (by decide) (by decide) (by decide)
    (by decide) (by decide)

theorem C4_witness :
    parseDurationString ("90".data) .seconds =
      .ok (.dur (c4BareNumberSpec none ['9', '0'] none .seconds)) ∧
    parseDurationString ("90".data) .microseconds = .ok (.dur
      { days := ((digitsToNat ['9', '0'] / 86400000000000 % 365 : Nat) : ℚ),
        hours := ((digitsToNat ['9', '0'] / 3600000000000 % 24 : Nat) : ℚ),
        isNegative := (none : Option Char) == some '-',
        microseconds := ((digitsToNat ['9', '0'] % 1000000 : Nat) : ℚ),
        milliseconds := ((digitsToNat ['9', '0'] / 1000000 % 1000 : Nat) : ℚ),
        minutes := ((digitsToNat ['9', '0'] / 60000000000 % 60 : Nat) : ℚ),
        seconds := ((digitsToNat ['9', '0'] / 1000000000 % 60 : Nat) : ℚ),
        years := ((digitsToNat ['9', '0'] / 86400000000000 / 365 : Nat) : ℚ) }) :=
  C4_bare_number_normalization ("90".data) .seconds
    { sign := none, secs := ['9', '0'], ms := none } (by decide) (by decide) (by decide)

end TimeUtils
